import Mathlib

/-!
The retro-go GUI layer: text layout, dialog navigation, image loading

A shallow embedding of `components/retro-go/rg_gui.c`.

Conventions of the embedding

* C `int` variables are `Int`; unsigned bytes and array indices are `Nat`.
* A C string is the list of its character codes up to (not including) the first
  zero byte; a `NULL` string is `none`.
* A result of `none` stands for behaviour the C program leaves undefined (a read
  or write outside an object, a shift by an invalid count) or, for the loops that
  carry a `fuel` argument, for a loop that has not finished within `fuel` rounds.
-/

namespace RetroGo

/-! ## Fonts and glyphs -/

/-- Font asset (`rg_font_t`).  The struct is declared in `fonts/fonts.h`; the
fields used by `rg_gui.c` are `type` (0 = fixed bitmap, otherwise proportional),
`width`, `height`, `chars` and the byte array `data`. -/
structure rg_font_t where
  type : Nat
  width : Nat
  height : Nat
  chars : Nat
  data : List Nat
deriving DecidableEq, Repr

/-- Glyph (`rg_glyph_t`): width, height and one bit mask per row.  Rows are
addressed by index and a row that was never written reads as 0 (the `{0}`
initialiser); the fixed row capacity of the C array is not represented. -/
structure rg_glyph_t where
  width : Nat
  height : Nat
  bitmap : List Nat
deriving DecidableEq, Repr

/-- Read of `bitmap[y]`. -/
def bitmap_get (bm : List Nat) (y : Nat) : Nat := bm.getD y 0

/-- Assignment `bitmap[y] = v`. -/
def bitmap_set : List Nat → Nat → Nat → List Nat
  | [], 0, v => [v]
  | [], y + 1, v => 0 :: bitmap_set [] y v
  | _ :: rs, 0, v => v :: rs
  | r :: rs, y + 1, v => r :: bitmap_set rs y v

/-- Read of the byte `data[i]`; `none` outside the array. -/
def read_byte (data : List Nat) (i : Nat) : Option Nat :=
  (data[i]?).map (fun b => b % 256)

/-- Header of a proportional glyph record as left in the local variables of
`get_glyph` when its `do ... while` scan stops; `pos` is the position of `data`. -/
structure glyph_record where
  charCode : Nat
  adjYOffset : Nat
  width : Nat
  height : Nat
  xOffset : Int
  xDelta : Nat
  pos : Nat
deriving DecidableEq, Repr

/-- Number of payload bytes skipped for a non-matching record:
`(((width * height) - 1) / 8) + 1` in C `int` arithmetic (division truncates
towards zero). -/
def record_skip (width height : Nat) : Nat :=
  (Int.tdiv ((width : Int) * (height : Int) - 1) 8 + 1).toNat

/-- The `do ... while` scan of the proportional branch of `get_glyph`, starting
with `data` at position `pos`. -/
def scan_records (c : Nat) (data : List Nat) : Nat → Nat → Option glyph_record
  | 0, _ => none
  | fuel + 1, pos => do
    let charCode ← read_byte data pos
    let adjYOffset ← read_byte data (pos + 1)
    let width ← read_byte data (pos + 2)
    let height ← read_byte data (pos + 3)
    let xo ← read_byte data (pos + 4)
    let xOffset : Int := if xo < 0x80 then (xo : Int) else -(0xFF - (xo : Int))
    let xDelta ← read_byte data (pos + 5)
    let pos1 := pos + 6
    let pos2 :=
      if c ≠ charCode ∧ charCode ≠ 0xFF ∧ width ≠ 0 then pos1 + record_skip width height
      else pos1
    if c ≠ charCode ∧ charCode ≠ 0xFF then scan_records c data fuel pos2
    else some ⟨charCode, adjYOffset, width, height, xOffset, xDelta, pos2⟩

/-- Loop state of the bitmap unpacking loops of `get_glyph`. -/
structure unpack_state where
  pos : Nat
  ch : Nat
  mask : Nat
  bitmap : List Nat
deriving DecidableEq, Repr

/-- Body of the inner `for x` loop of the unpacking, for pixel `(x, y)`. -/
def unpack_pixel (data : List Nat) (r : glyph_record) (y x : Nat) (s : unpack_state) :
    Option unpack_state :=
  let fetch : Option unpack_state :=
    if (x + y * r.width) % 8 = 0 then
      (read_byte data s.pos).map (fun b => ⟨s.pos + 1, b, 0x80, s.bitmap⟩)
    else some s
  fetch.bind fun s1 =>
    let shift : Int := r.xOffset + (x : Int)
    let row := r.adjYOffset + y
    let plot : Option unpack_state :=
      if s1.ch &&& s1.mask ≠ 0 then
        (if 0 ≤ shift ∧ shift < 32 then
          some ⟨s1.pos, s1.ch, s1.mask,
            bitmap_set s1.bitmap row (bitmap_get s1.bitmap row ||| 2 ^ shift.toNat)⟩
        else none)
      else some s1
    plot.map fun s2 => ⟨s2.pos, s2.ch, s2.mask >>> 1, s2.bitmap⟩

/-- The loop `for (x = x0; x < x0 + n; x++)` of the unpacking, row `y`. -/
def unpack_row (data : List Nat) (r : glyph_record) (y : Nat) :
    Nat → Nat → unpack_state → Option unpack_state
  | 0, _, s => some s
  | n + 1, x, s => (unpack_pixel data r y x s).bind (unpack_row data r y n (x + 1))

/-- The loop `for (y = y0; y < y0 + n; y++)` of the unpacking. -/
def unpack_rows (data : List Nat) (r : glyph_record) :
    Nat → Nat → unpack_state → Option unpack_state
  | 0, _, s => some s
  | n + 1, y, s => (unpack_row data r y r.width 0 s).bind (unpack_rows data r n (y + 1))

/-- Rounding of the positive quotient `n / d` to a binary floating point number
with a 24 bit significand (round to nearest, ties to even), as a fraction
`(numerator, denominator)`.  Exponent range limits are not represented. -/
def f32_round (n d : Nat) : Nat × Nat :=
  if n = 0 ∨ d = 0 then (0, 1) else
    let s1 := 23 + Nat.log2 d
    let s2 := Nat.log2 n
    let b := d * 2 ^ s2
    let s := if n * 2 ^ s1 / b < 2 ^ 23 then s1 + 1 else s1
    let a := n * 2 ^ s
    let q := a / b
    let r := a % b
    let m := if 2 * r > b ∨ (2 * r = b ∧ q % 2 = 1) then q + 1 else q
    (m * 2 ^ s2, 2 ^ s)

/-- Source row `(int)(y / scale)` of the rescale step, with
`scale = (float)points / font->height` computed in single precision.  For
`height = 0` the scale is infinite and the quotient is 0. -/
def rescale_row (points height y : Nat) : Nat :=
  if height = 0 then 0 else
    let scale := f32_round points height
    let q := f32_round (y * scale.2) scale.1
    q.1 / q.2

/-- The rescale step at the end of `get_glyph`. -/
def rescale (font : rg_font_t) (points : Nat) (out : rg_glyph_t) : rg_glyph_t :=
  if points ≠ 0 ∧ points ≠ font.height then
    { out with
      height := points
      bitmap := (List.range points).foldl
        (fun bm y => bitmap_set bm y (bitmap_get out.bitmap (rescale_row points font.height y)))
        out.bitmap }
  else out

/-- The loop `for (y = y0; y < y0 + n; y++) out.bitmap[y] = font->data[c * height + y]`
of the fixed branch of `get_glyph`. -/
def copy_rows (font : rg_font_t) (c : Nat) : Nat → Nat → List Nat → Option (List Nat)
  | 0, _, bm => some bm
  | n + 1, y, bm =>
    (read_byte font.data (c * font.height + y)).bind
      (fun b => copy_rows font c n (y + 1) (bitmap_set bm y b))

/-- The function `get_glyph(font, points, c)`. -/
def get_glyph (font : rg_font_t) (points : Nat) (c : Nat) : Option rg_glyph_t := do
  let out : rg_glyph_t :=
    { width := if font.width ≠ 0 then font.width else 8, height := font.height, bitmap := [] }
  let out1 ←
    if c = 10 then some { out with width := 0 }
    else if font.type = 0 then
      (if c < font.chars then
        (copy_rows font c font.height 0 out.bitmap).map (fun bm => { out with bitmap := bm })
      else some out)
    else do
      let r ← scan_records c font.data (font.data.length + 1) 0
      if c = r.charCode then
        let s ← unpack_rows font.data r r.height 0 ⟨r.pos, 0, 0x80, out.bitmap⟩
        some { out with width := if r.width > r.xDelta then r.width else r.xDelta,
                        bitmap := s.bitmap }
      else some out
  some (rescale font points out1)

/-! ## Static state of the GUI -/

/-- Active font (`rg_gui_font_t`, the static `gui_font`). -/
structure rg_gui_font_t where
  type : Nat
  font : rg_font_t
  points : Nat
  width : Nat
  height : Nat
deriving DecidableEq, Repr

/-- The file-level static variables read by the drawing functions: `gui_font`,
`screen_width`, `screen_height`.  `overlay_buffer` is represented by its
capacity, see `overlay_capacity`. -/
structure gui_state where
  gui_font : rg_gui_font_t
  screen_width : Int
  screen_height : Int
deriving DecidableEq, Repr

/-- Number of pixels of `overlay_buffer` as allocated by `rg_gui_init`:
`RG_MAX(screen_width, screen_height) * 20 * 2` bytes of 2-byte pixels. -/
def overlay_capacity (g : gui_state) : Int :=
  max g.screen_width g.screen_height * 20

/-- Rectangle size returned by the drawing functions (`rg_rect_t`). -/
structure rg_rect_t where
  width : Int
  height : Int
deriving DecidableEq, Repr

/-! ## Text layout: `rg_gui_draw_text` -/

/-- The bits of the `flags` argument tested by `rg_gui_draw_text`
(`RG_TEXT_ALIGN_LEFT`, `RG_TEXT_ALIGN_CENTER`, `RG_TEXT_MULTILINE`,
`RG_TEXT_DUMMY_DRAW`), one Boolean per bit. -/
structure text_flags where
  align_left : Bool
  align_center : Bool
  multiline : Bool
  dummy_draw : Bool
deriving DecidableEq, Repr

/-- One glyph accepted by the glyph loop of a line: the `x_offset` at which it
is rendered into the compose buffer (or only counted, under
`RG_TEXT_DUMMY_DRAW`), the character and its glyph. -/
structure placed_glyph where
  x_offset : Int
  chr : Nat
  glyph : rg_glyph_t
deriving DecidableEq, Repr

/-- One pass of the outer loop of `rg_gui_draw_text`: the `y_offset` of the
line, the colours of the compose buffer and the glyphs accepted on it. -/
structure text_line where
  y_offset : Int
  color_fg : Nat
  color_bg : Nat
  glyphs : List placed_glyph
deriving DecidableEq, Repr

/-- Returned rectangle of `rg_gui_draw_text` together with the screen position
(after the adjustment of negative coordinates) at which its lines are copied
out and the lines it went through. -/
structure text_result where
  x_pos : Int
  y_pos : Int
  rect : rg_rect_t
  lines : List text_line
deriving DecidableEq, Repr

/-- The characters of a C string stored in a byte buffer. -/
def c_string (s : List Nat) : List Nat := s.takeWhile (fun b => b ≠ 0)

/-- The call `get_glyph(gui_font.font, gui_font.points, c)`. -/
def gui_glyph (g : gui_state) (c : Nat) : Option rg_glyph_t :=
  get_glyph g.gui_font.font g.gui_font.points c

/-- The measuring loop run when `width == 0`: `ptr` is the rest of the text,
`line_width` and `width` the two accumulators. -/
def measure_width (g : gui_state) : List Nat → Int → Int → Option Int
  | [], _, width => some width
  | chr :: ptr, line_width, width =>
    (gui_glyph g chr).bind fun gl =>
      let lw := line_width + (gl.width : Int)
      if chr = 10 ∨ ptr = [] then measure_width g ptr 0 (max lw width)
      else measure_width g ptr lw width

/-- The loop that finds the current line's text width under an alignment flag:
`line` is the rest of the text, the `Int` is `x_offset`. -/
def line_text_width (g : gui_state) (draw_width : Int) : List Nat → Int → Option Int
  | [], x_offset => some x_offset
  | chr :: line, x_offset =>
    if x_offset < draw_width ∧ chr ≠ 10 then
      (gui_glyph g chr).bind fun gl =>
        if draw_width - x_offset < (gl.width : Int) then some x_offset
        else line_text_width g draw_width line (x_offset + (gl.width : Int))
    else some x_offset

/-- The glyph loop `while (x_offset < draw_width)` of one line.  Returns the
glyphs accepted and the position of `ptr` when the loop is left.  The loop is
only ever (re-)entered with `ptr` at a character of the text; entering it at
the terminator would read past the end of the string. -/
def draw_glyphs (g : gui_state) (multiline : Bool) (draw_width : Int) :
    List Nat → Int → Option (List placed_glyph × List Nat)
  | [], x_offset => if x_offset < draw_width then none else some ([], [])
  | chr :: ptr, x_offset =>
    if x_offset < draw_width then
      (gui_glyph g chr).bind fun gl =>
        if draw_width - x_offset < (gl.width : Int) then
          some ([], if multiline then chr :: ptr else ptr)
        else if ptr = [] ∨ ptr.head? = some 10 then
          some ([⟨x_offset, chr, gl⟩], ptr)
        else
          (draw_glyphs g multiline draw_width ptr (x_offset + (gl.width : Int))).map
            fun r => (⟨x_offset, chr, gl⟩ :: r.1, r.2)
    else some ([], chr :: ptr)

/-- Starting `x_offset` of a line. -/
def line_start (g : gui_state) (flags : text_flags) (draw_width : Int) (ptr : List Nat) :
    Option Int :=
  if flags.align_left ∨ flags.align_center then
    (line_text_width g draw_width ptr 0).map fun x_offset =>
      if flags.align_center then Int.tdiv (draw_width - x_offset) 2
      else draw_width - x_offset
  else some 0

/-- One pass of the outer loop `while (*ptr)`: clears `draw_width * font_height`
pixels of the compose buffer, computes the starting offset and runs the glyph
loop. -/
def draw_line (g : gui_state) (flags : text_flags) (draw_width : Int) (ptr : List Nat) :
    Option (List placed_glyph × List Nat) :=
  let p := draw_width * (g.gui_font.height : Int)
  if 0 ≤ p ∧ p ≤ overlay_capacity g then
    (line_start g flags draw_width ptr).bind fun x_offset =>
      draw_glyphs g flags.multiline draw_width ptr x_offset
  else none

/-- The outer loop `while (*ptr)` of `rg_gui_draw_text`, at most `fuel` passes. -/
def draw_lines (g : gui_state) (flags : text_flags) (draw_width : Int) (fg bg : Nat) :
    Nat → List Nat → Int → Option (List text_line × Int)
  | _, [], y_offset => some ([], y_offset)
  | 0, _ :: _, _ => none
  | fuel + 1, chr :: ptr, y_offset =>
    (draw_line g flags draw_width (chr :: ptr)).bind fun r =>
      let line : text_line := ⟨y_offset, fg, bg, r.1⟩
      let y_next := y_offset + (g.gui_font.height : Int)
      if flags.multiline then
        (draw_lines g flags draw_width fg bg fuel r.2 y_next).map
          fun rest => (line :: rest.1, rest.2)
      else some ([line], y_next)

/-- The text actually laid out: `if (!text || *text == 0) text = " "`. -/
def effective_text (text : Option (List Nat)) : List Nat :=
  match text with
  | none => [32]
  | some t => if c_string t = [] then [32] else c_string t

/-- The box width after the measuring pass: the requested `width`, or the
longest line when `width == 0`. -/
def box_width (g : gui_state) (width : Int) (text : Option (List Nat)) : Option Int :=
  if width = 0 then measure_width g (effective_text text) 0 width else some width

/-- The local `draw_width` of `rg_gui_draw_text`. -/
def text_draw_width (g : gui_state) (x_pos width : Int) : Int :=
  let x := if x_pos < 0 then x_pos + g.screen_width else x_pos
  min width (g.screen_width - x)

/-- The function `rg_gui_draw_text(x_pos, y_pos, width, text, color_fg, color_bg, flags)`;
`fuel` bounds the number of passes of its outer loop. -/
def rg_gui_draw_text (g : gui_state) (fuel : Nat) (x_pos y_pos width : Int)
    (text : Option (List Nat)) (color_fg color_bg : Nat) (flags : text_flags) :
    Option text_result :=
  (box_width g width text).bind fun w =>
    let draw_width := text_draw_width g x_pos w
    (draw_lines g flags draw_width color_fg color_bg fuel (effective_text text) 0).map
      fun r =>
        ⟨if x_pos < 0 then x_pos + g.screen_width else x_pos,
         if y_pos < 0 then y_pos + g.screen_height else y_pos,
         ⟨draw_width, r.2⟩, r.1⟩

/-! ## Dialogs: `get_dialog_items_count`, `rg_gui_dialog`, `rg_gui_confirm` -/

/-- Event tags exchanged with the update callbacks (`rg_gui_event_t`; the
enumerators named in `rg_gui.c`). -/
inductive rg_gui_event_t where
  | RG_DIALOG_VOID
  | RG_DIALOG_INIT
  | RG_DIALOG_PREV
  | RG_DIALOG_NEXT
  | RG_DIALOG_ALT
  | RG_DIALOG_ENTER
  | RG_DIALOG_CLOSE
  | RG_DIALOG_DISMISS
deriving DecidableEq, Repr

/-- Modelled from the spec: the button masks `RG_KEY_*` are defined in `rg_input.h`,
which is not among the sources.  Each button is a distinct single-bit mask, so a
gamepad reading (`rg_input_read_gamepad()`) is the set of the buttons that are
down, given here as a list, and `joystick & RG_KEY_X` is membership of `X`. -/
inductive rg_key_t where
  | RG_KEY_UP
  | RG_KEY_DOWN
  | RG_KEY_LEFT
  | RG_KEY_RIGHT
  | RG_KEY_SELECT
  | RG_KEY_START
  | RG_KEY_MENU
  | RG_KEY_OPTION
  | RG_KEY_A
  | RG_KEY_B
deriving DecidableEq, Repr

/-- Values of the selectability flags `RG_DIALOG_FLAG_*` of an option row.  They
are defined in `rg_gui.h`, which is not among the sources, and are taken as a
parameter. -/
structure rg_dialog_flags where
  RG_DIALOG_FLAG_DISABLED : Int
  RG_DIALOG_FLAG_NORMAL : Int
  RG_DIALOG_FLAG_SKIP : Int
  RG_DIALOG_FLAG_LAST : Int
deriving DecidableEq, Repr

/-- The data fields of an option row (`rg_gui_option_t` without its callback). -/
structure rg_gui_row where
  id : Int
  label : Option (List Nat)
  value : Option (List Nat)
  flags : Int
deriving DecidableEq, Repr

/-- An option row (`rg_gui_option_t`).  `σ` is the state of the rest of the system
that callbacks read and change.  A callback `update_cb(option, event)` is given
the state, the row and the event, and yields the new state, the event it returns
and the text it wrote into the row's value buffer (`none` when it wrote nothing). -/
structure rg_gui_option_t (σ : Type) where
  id : Int
  label : Option (List Nat)
  value : Option (List Nat)
  flags : Int
  update_cb : Option (σ → rg_gui_row → rg_gui_event_t → σ × rg_gui_event_t × Option (List Nat))

/-- The data fields of a row, as seen by its callback. -/
def row_of {σ : Type} (o : rg_gui_option_t σ) : rg_gui_row :=
  ⟨o.id, o.label, o.value, o.flags⟩

/-- Modelled from the spec: the macro `RG_DIALOG_CHOICE_LAST` of `rg_gui.h` (not among
the sources), the row that terminates an option list: its flag is the last-sentinel
and it has no callback. -/
def RG_DIALOG_CHOICE_LAST (F : rg_dialog_flags) (σ : Type) : rg_gui_option_t σ :=
  ⟨0, none, none, F.RG_DIALOG_FLAG_LAST, none⟩

/-- Read of `options[i]` for a C `int` index; `none` outside the array. -/
def option_at {σ : Type} (options : List (rg_gui_option_t σ)) (i : Int) :
    Option (rg_gui_option_t σ) :=
  if 0 ≤ i then options[i.toNat]? else none

/-- The loop `for (int i = i0; i < i0 + n; i++)` of `get_dialog_items_count`. -/
def count_items {σ : Type} (F : rg_dialog_flags) (options : List (rg_gui_option_t σ)) :
    Nat → Nat → Option Int
  | 0, _ => some 0
  | n + 1, i =>
    match options[i]? with
    | none => none
    | some o =>
      if o.flags = F.RG_DIALOG_FLAG_LAST then some (i : Int)
      else count_items F options n (i + 1)

/-- The function `get_dialog_items_count(options)`; `none` as argument is `NULL`. -/
def get_dialog_items_count {σ : Type} (F : rg_dialog_flags)
    (options : Option (List (rg_gui_option_t σ))) : Option Int :=
  match options with
  | none => some 0
  | some opts => count_items F opts 16 0

/-- State of one `rg_gui_dialog` call: the system state `world`, the locals
`options` (the working copy), `options_count`, `sel`, `sel_old`, `last_key`
(`none` for -1), and the list `frames` of the selections passed to
`rg_gui_draw_dialog` so far. -/
structure dialog_state (σ : Type) where
  world : σ
  header : Option (List Nat)
  options : List (rg_gui_option_t σ)
  options_count : Int
  sel : Int
  sel_old : Int
  last_key : Option rg_key_t
  frames : List Int

/-- Outcome of one pass of the `while (1)` loop of `rg_gui_dialog`: the loop goes
on, or it was left by `break` and the function returns `ret`. -/
inductive poll_result (σ : Type) where
  | running (st : dialog_state σ)
  | closed (ret : Int) (st : dialog_state σ)

/-- One row of the initialisation loop of `rg_gui_dialog`: the copy of the row,
the `RG_DIALOG_INIT` call of its callback on a value buffer holding the byte
0xFF, and the fallback to the row's own value when nothing was written. -/
def init_row {σ : Type} (w : σ) (o : rg_gui_option_t σ) : σ × rg_gui_option_t σ :=
  match o.update_cb with
  | none => (w, o)
  | some cb =>
    let r := cb w { row_of o with value := some [0xFF] } rg_gui_event_t.RG_DIALOG_INIT
    (r.1, { o with value := match r.2.2 with
                            | some t => some t
                            | none => o.value })

/-- The initialisation loop of `rg_gui_dialog` over the rows to copy. -/
def init_rows {σ : Type} : σ → List (rg_gui_option_t σ) → σ × List (rg_gui_option_t σ)
  | w, [] => (w, [])
  | w, o :: os =>
    let r := init_row w o
    let rs := init_rows r.1 os
    (rs.1, r.2 :: rs.2)

/-- A callback call `select = options[sel].update_cb(&options[sel], ev)` with the
bookkeeping around it (`last_key = key`, `sel_old = -1`); without a callback
`select` becomes `no_cb`. -/
def invoke_cb {σ : Type} (st : dialog_state σ) (o : rg_gui_option_t σ) (key : rg_key_t)
    (ev no_cb : rg_gui_event_t) : dialog_state σ × rg_gui_event_t :=
  match o.update_cb with
  | none => ({ st with last_key := some key }, no_cb)
  | some cb =>
    let r := cb st.world (row_of o) ev
    let o2 : rg_gui_option_t σ :=
      { o with value := match r.2.2 with
                        | some t => some t
                        | none => o.value }
    ({ st with world := r.1, options := st.options.set st.sel.toNat o2,
               last_key := some key, sel_old := -1 }, r.2.1)

open rg_gui_event_t rg_key_t in
/-- The first `if ... else if` chain of the `else` branch of a poll cycle
(Up, Down, B, Option, Menu), starting from `select = RG_DIALOG_VOID`.  Returns
the state and the value of `select`. -/
def dialog_move {σ : Type} (st : dialog_state σ) (joystick : List rg_key_t) :
    dialog_state σ × rg_gui_event_t :=
  if RG_KEY_UP ∈ joystick then
    ({ st with last_key := some RG_KEY_UP,
               sel := if st.sel - 1 < 0 then st.options_count - 1 else st.sel - 1 },
      RG_DIALOG_VOID)
  else if RG_KEY_DOWN ∈ joystick then
    ({ st with last_key := some RG_KEY_DOWN,
               sel := if st.sel + 1 > st.options_count - 1 then 0 else st.sel + 1 },
      RG_DIALOG_VOID)
  else if RG_KEY_B ∈ joystick then ({ st with last_key := some RG_KEY_B }, RG_DIALOG_DISMISS)
  else if RG_KEY_OPTION ∈ joystick then
    ({ st with last_key := some RG_KEY_OPTION }, RG_DIALOG_DISMISS)
  else if RG_KEY_MENU ∈ joystick then
    ({ st with last_key := some RG_KEY_MENU }, RG_DIALOG_DISMISS)
  else (st, RG_DIALOG_VOID)

open rg_gui_event_t rg_key_t in
/-- The second chain of the `else` branch (Left, Right, Start, A), entered when
the row `options[sel]` is neither disabled nor skip; `select` is the value left
by the first chain. -/
def dialog_action {σ : Type} (F : rg_dialog_flags) (st : dialog_state σ)
    (select : rg_gui_event_t) (joystick : List rg_key_t) :
    Option (dialog_state σ × rg_gui_event_t) :=
  match option_at st.options st.sel with
  | none => none
  | some o =>
    if o.flags ≠ F.RG_DIALOG_FLAG_DISABLED ∧ o.flags ≠ F.RG_DIALOG_FLAG_SKIP then
      if RG_KEY_LEFT ∈ joystick then some (invoke_cb st o RG_KEY_LEFT RG_DIALOG_PREV select)
      else if RG_KEY_RIGHT ∈ joystick then
        some (invoke_cb st o RG_KEY_RIGHT RG_DIALOG_NEXT select)
      else if RG_KEY_START ∈ joystick then
        some (invoke_cb st o RG_KEY_START RG_DIALOG_ALT select)
      else if RG_KEY_A ∈ joystick then
        some (invoke_cb st o RG_KEY_A RG_DIALOG_ENTER RG_DIALOG_CLOSE)
      else some (st, select)
    else some (st, select)

/-- The `else` branch of a poll cycle up to the tests of `select`. -/
def dialog_keys {σ : Type} (F : rg_dialog_flags) (st : dialog_state σ)
    (joystick : List rg_key_t) : Option (dialog_state σ × rg_gui_event_t) :=
  dialog_action F (dialog_move st joystick).1 (dialog_move st joystick).2 joystick

/-- The loop `while (options[sel].flags == RG_DIALOG_FLAG_SKIP && sel_old != sel)`,
at most `fuel` rounds; the `Int` argument is `sel`. -/
def skip_walk {σ : Type} (F : rg_dialog_flags) (options : List (rg_gui_option_t σ))
    (options_count : Int) (last_key : Option rg_key_t) (sel_old : Int) : Nat → Int → Option Int
  | 0, _ => none
  | fuel + 1, sel =>
    match option_at options sel with
    | none => none
    | some o =>
      if o.flags = F.RG_DIALOG_FLAG_SKIP ∧ sel_old ≠ sel then
        let s1 := sel + (if last_key = some rg_key_t.RG_KEY_DOWN then 1 else -1)
        let s2 := if s1 < 0 then options_count - 1 else s1
        let s3 := if s2 ≥ options_count then 0 else s2
        skip_walk F options options_count last_key sel_old fuel s3
      else some sel

/-- The tail `if (sel_old != sel) { ... }` of a poll cycle: the walk over skip
rows, the redraw and `sel_old = sel`.  The walk moves cyclically through the
rows, so a walk that has not stopped after one round per entry of `options`
never stops; this is the fuel given to `skip_walk`. -/
def dialog_redraw {σ : Type} (F : rg_dialog_flags) (st : dialog_state σ) :
    Option (dialog_state σ) :=
  if st.sel_old ≠ st.sel then
    (skip_walk F st.options st.options_count st.last_key st.sel_old
      (st.options.length + 1) st.sel).map
      fun s => { st with sel := s, sel_old := s, frames := st.frames ++ [s] }
  else some st

open rg_gui_event_t in
/-- One pass of the `while (1)` loop of `rg_gui_dialog` with the gamepad reading
`joystick`.  On `break` the function returns `sel < 0 ? sel : options[sel].id`. -/
def dialog_poll {σ : Type} (F : rg_dialog_flags) (st : dialog_state σ)
    (joystick : List rg_key_t) : Option (poll_result σ) :=
  match st.last_key with
  | some k =>
    (dialog_redraw F (if k ∈ joystick then st else { st with last_key := none })).map
      poll_result.running
  | none =>
    (dialog_keys F st joystick).bind fun r =>
      if r.2 = RG_DIALOG_DISMISS then
        some (poll_result.closed (-1) { r.1 with sel := -1 })
      else if r.2 = RG_DIALOG_CLOSE then
        (if r.1.sel < 0 then some (poll_result.closed r.1.sel r.1)
         else (option_at r.1.options r.1.sel).map fun o => poll_result.closed o.id r.1)
      else (dialog_redraw F r.1).map poll_result.running

/-- The `while (1)` loop of `rg_gui_dialog` run on the successive gamepad
readings; `none` also when the readings end before the dialog is left. -/
def dialog_loop {σ : Type} (F : rg_dialog_flags) :
    List (List rg_key_t) → dialog_state σ → Option (Int × dialog_state σ)
  | [], _ => none
  | joystick :: rest, st =>
    match dialog_poll F st joystick with
    | none => none
    | some (poll_result.closed ret st1) => some (ret, st1)
    | some (poll_result.running st1) => dialog_loop F rest st1

/-- The state of the dialog after the readings `js` when it is still open then. -/
def dialog_after {σ : Type} (F : rg_dialog_flags) :
    List (List rg_key_t) → dialog_state σ → Option (dialog_state σ)
  | [], st => some st
  | joystick :: rest, st =>
    match dialog_poll F st joystick with
    | some (poll_result.running st1) => dialog_after F rest st1
    | _ => none

/-- The state of `rg_gui_dialog(header, options_const, selected)` when it enters
its `while (1)` loop, the first frame drawn. -/
def dialog_open {σ : Type} (F : rg_dialog_flags) (world : σ) (header : Option (List Nat))
    (options_const : Option (List (rg_gui_option_t σ))) (selected : Int) :
    Option (dialog_state σ) :=
  (get_dialog_items_count F options_const).bind fun options_count =>
    match options_const with
    | none => none
    | some opts =>
      let sel0 := if selected < 0 then options_count + selected else selected
      if opts.length < options_count.toNat + 1 then none
      else
        let r := init_rows world (opts.take (options_count.toNat + 1))
        let sel := min (max 0 sel0) (options_count - 1)
        some ⟨r.1, header, r.2, options_count, sel, sel0, none, [sel]⟩

/-- The function `rg_gui_dialog(header, options_const, selected)`, run on the
gamepad readings of its poll cycles; returns the result and the final state. -/
def rg_gui_dialog {σ : Type} (F : rg_dialog_flags) (world : σ) (header : Option (List Nat))
    (options_const : Option (List (rg_gui_option_t σ))) (selected : Int)
    (readings : List (List rg_key_t)) : Option (Int × dialog_state σ) :=
  (dialog_open F world header options_const selected).bind (dialog_loop F readings)

/-- The option array of `rg_gui_confirm`. -/
def confirm_options (F : rg_dialog_flags) (σ : Type) (message : Option (List Nat)) :
    List (rg_gui_option_t σ) :=
  [⟨0, message, none, -1, none⟩,
   ⟨0, some [], none, -1, none⟩,
   ⟨1, some [89, 101, 115], none, 1, none⟩,
   ⟨0, some [78, 111, 32], none, 1, none⟩,
   RG_DIALOG_CHOICE_LAST F σ]

/-- The function `rg_gui_confirm(title, message, yes_selected)`. -/
def rg_gui_confirm {σ : Type} (F : rg_dialog_flags) (world : σ) (title : Option (List Nat))
    (message : Option (List Nat)) (yes_selected : Bool) (readings : List (List rg_key_t)) :
    Option Bool :=
  (rg_gui_dialog F world title
    (some (if message.isSome then confirm_options F σ message
           else (confirm_options F σ message).drop 1))
    (if yes_selected then -2 else -1) readings).map fun r => decide (r.1 = 1)

/-! ## Dialog layout: the scroll window of `rg_gui_draw_dialog` -/

/-- The loop `for (int i = ...; i < options_count; i++)` that computes `top_i` in
`rg_gui_draw_dialog`: `i` is the loop index, the list holds `row_height[i ..]`,
the two `Int` arguments are `yy` and `top_i`; `limit` is `box_y + box_height`. -/
def scroll_loop (y limit sel : Int) : Nat → List Int → Int → Int → Int
  | _, [], _, top_i => top_i
  | i, h :: rest, yy, top_i =>
    if yy + h ≥ limit then
      (if sel < (i : Int) then top_i else scroll_loop y limit sel (i + 1) rest y (i : Int))
    else scroll_loop y limit sel (i + 1) rest (yy + h) top_i

/-- The value of `top_i` computed by `rg_gui_draw_dialog` for the row heights
`row_height` (one entry per option), the top `y` of the first row, the bottom
`limit = box_y + box_height` of the box and the selection `sel`. -/
def scroll_top (row_height : List Int) (y limit sel : Int) : Int :=
  if 0 ≤ sel ∧ sel < (row_height.length : Int) then scroll_loop y limit sel 0 row_height y 0
  else 0

/-- Rows `t ..` of the list fit together inside the visible box height: laid out
from `y` they end above `limit`, the test of the painting loop. -/
def rows_fit (row_height : List Int) (y limit : Int) (t : Nat) : Prop :=
  y + (row_height.drop t).sum < limit

instance (row_height : List Int) (y limit : Int) (t : Nat) :
    Decidable (rows_fit row_height y limit t) := by
  unfold rows_fit
  infer_instance

/-- The rows `s .. i` of the list, laid out from `y`, reach the bottom `limit` of the
box: the test `yy >= box_y + box_height` at row `i` when the height has been
accumulated from row `s` on. -/
def page_reaches (row_height : List Int) (y limit : Int) (s i : Nat) : Prop :=
  y + ((row_height.take (i + 1)).drop s).sum ≥ limit

instance (row_height : List Int) (y limit : Int) (s i : Nat) :
    Decidable (page_reaches row_height y limit s i) := by
  unfold page_reaches
  infer_instance

/-- Row `i` ends the page whose accumulation starts at row `s`: it is the first row
from `s` on at which the accumulated height reaches the bottom of the box. -/
def page_end (row_height : List Int) (y limit : Int) (s i : Nat) : Prop :=
  s ≤ i ∧ i < row_height.length ∧ page_reaches row_height y limit s i ∧
    ∀ j, j < i → s ≤ j → ¬ page_reaches row_height y limit s j

instance (row_height : List Int) (y limit : Int) (s i : Nat) :
    Decidable (page_end row_height y limit s i) := by
  unfold page_end
  infer_instance

/-- Row `r` is a page break: the first page accumulates from row 0 and ends at the
first page break; after a page break `b` the accumulation starts again at row
`b + 1` and the page ends at the next page break. -/
inductive page_break (row_height : List Int) (y limit : Int) : Nat → Prop
  | first (r : Nat) : page_end row_height y limit 0 r → page_break row_height y limit r
  | next (b r : Nat) : page_break row_height y limit b →
      page_end row_height y limit (b + 1) r → page_break row_height y limit r

/-! ## Images: `rg_image_alloc`, `rg_image_load_from_memory` -/

/-- Image (`rg_image_t`): width, height and `width * height` pixels of 16 bits; a
pixel that has not been written completely is `none`. -/
structure rg_image_t where
  width : Nat
  height : Nat
  data : List (Option Nat)
deriving DecidableEq, Repr

/-- Decoded PNG (`LuImage` of the external `lupng` library), as far as it is
used: width, height, channels and the sample bytes. -/
structure LuImage where
  width : Nat
  height : Nat
  channels : Nat
  data : List Nat
deriving DecidableEq, Repr

/-- Result of `rg_image_load_from_memory`: an image, `NULL`, or the abort of the
failed `RG_ASSERT`. -/
inductive load_result where
  | image (img : rg_image_t)
  | no_image
  | aborted
deriving DecidableEq, Repr

/-- The function `rg_image_alloc(width, height)`; `mem_ok` tells whether `malloc`
succeeds for an image of that size.  The pixels are not initialised. -/
def rg_image_alloc (mem_ok : Nat → Nat → Bool) (width height : Nat) : Option rg_image_t :=
  if mem_ok width height then some ⟨width, height, List.replicate (width * height) none⟩
  else none

/-- Conversion of a value to a C `int` (32 bits, two's complement). -/
def to_int32 (x : Int) : Int := (x + 2 ^ 31) % 2 ^ 32 - 2 ^ 31

/-- The 16-bit little-endian value `((uint16_t *)data)[i]`. -/
def read_u16 (data : List Nat) (i : Nat) : Nat :=
  data.getD (2 * i) 0 % 256 + 256 * (data.getD (2 * i + 1) 0 % 256)

/-- Pixel `i` of an image buffer after `memcpy(img->data, data + 4, data_len - 4)`:
written when both of its bytes lie inside the `data_len - 4` bytes copied. -/
def copied_pixel (data : List Nat) (i : Nat) : Option Nat :=
  if 4 + 2 * i + 1 < data.length then some (read_u16 data (2 + i)) else none

/-- The RGB888 (or RGBA8888) to RGB565 conversion of pixel `i` of a decoded PNG. -/
def png_pixel (png : LuImage) (i : Nat) : Nat :=
  (((png.data.getD (i * png.channels) 0 >>> 3) &&& 0x1F) <<< 11) |||
  (((png.data.getD (i * png.channels + 1) 0 >>> 2) &&& 0x3F) <<< 5) |||
  ((png.data.getD (i * png.channels + 2) 0 >>> 3) &&& 0x1F)

/-- The function `rg_image_load_from_memory(data, data_len, flags)` on the buffer
`data` of `data_len = data.length` bytes.  `luPngReadMem` stands for the external
PNG decoder and `mem_ok` for the success of `malloc`.  The `int` and `size_t`
computations of `size_diff` have 32 bits, as on the target, and wrap. -/
def rg_image_load_from_memory (luPngReadMem : List Nat → Option LuImage)
    (mem_ok : Nat → Nat → Bool) (data : List Nat) : load_result :=
  if data.length < 16 then load_result.aborted
  else if data.take 4 = [0x89, 0x50, 0x4E, 0x47] then
    match luPngReadMem data with
    | none => load_result.no_image
    | some png =>
      match rg_image_alloc mem_ok png.width png.height with
      | none => load_result.no_image
      | some img =>
        load_result.image ⟨img.width, img.height,
          (List.range (img.width * img.height)).map (fun i => some (png_pixel png i))⟩
  else
    let img_width := read_u16 data 0
    let img_height := read_u16 data 1
    let size_diff :=
      to_int32 (to_int32 ((img_width : Int) * (img_height : Int) * 2 + 4) - (data.length : Int))
    if 0 ≤ size_diff ∧ size_diff ≤ 100 then
      match rg_image_alloc mem_ok img_width img_height with
      | none => load_result.no_image
      | some img =>
        load_result.image ⟨img.width, img.height,
          (List.range (img.width * img.height)).map (copied_pixel data)⟩
    else load_result.no_image

/-! ## Font selection: `rg_gui_set_font_type` -/

/-- The font table of `fonts/fonts.h`, which is not among the sources at hand:
the constant `RG_FONT_MAX` and the array `fonts`. -/
structure font_table where
  RG_FONT_MAX : Int
  fonts : List rg_font_t
deriving DecidableEq, Repr

/-- The state touched by `rg_gui_set_font_type`: the static `gui_font` and
`gui_initialized`, the number stored under `SETTING_FONTTYPE` by
`rg_settings_set_number` (if any) and the number of `RG_EVENT_REDRAW` events
sent so far. -/
structure font_state where
  gui_font : rg_gui_font_t
  gui_initialized : Bool
  setting : Option Int
  redraws : Nat
deriving DecidableEq, Repr

/-- The function `rg_gui_set_font_type(type)`: the returned flag and the state
afterwards; `none` when `fonts[type]` is read outside the table. -/
def rg_gui_set_font_type (T : font_table) (s : font_state) (type : Int) :
    Option (Bool × font_state) :=
  let type1 := if type < 0 then type + T.RG_FONT_MAX else type
  if type1 < 0 ∨ type1 > T.RG_FONT_MAX - 1 then some (false, s)
  else
    (T.fonts[type1.toNat]?).map fun font =>
      let points := if type1 < 3 then (8 + type1 * 4).toNat else font.height
      (true,
        { gui_font := ⟨type1.toNat, font, points, max font.width 4, points⟩
          gui_initialized := s.gui_initialized
          setting := some type1
          redraws := if s.gui_initialized then s.redraws + 1 else s.redraws })

/-! ## Blitting: `rg_gui_copy_buffer` -/

/-- What goes wrong in a run of `rg_gui_copy_buffer`: a read outside the source
buffer or a write outside the shadow buffer. -/
inductive copy_fault where
  | bad_read
  | bad_write
deriving DecidableEq, Repr

/-- Effect of `rg_gui_copy_buffer`: the shadow buffer after the copy, or the call
`rg_display_write(left, top, width, height, stride, buffer)` made when no shadow
buffer is active. -/
inductive copy_result where
  | buffered (screen_buffer : List Nat)
  | display (left top width height stride : Int)
deriving DecidableEq, Repr

/-- The 16-bit pixel read at byte offset `off` of the source buffer. -/
def read_pixel (buffer : List Nat) (off : Int) : Except copy_fault Nat :=
  if 0 ≤ off ∧ off.toNat + 1 < buffer.length then
    Except.ok (buffer.getD off.toNat 0 % 256 + 256 * (buffer.getD (off.toNat + 1) 0 % 256))
  else Except.error copy_fault.bad_read

/-- The store `screen_buffer[i] = v`. -/
def write_pixel (screen_buffer : List Nat) (i : Int) (v : Nat) : Except copy_fault (List Nat) :=
  if 0 ≤ i ∧ i < (screen_buffer.length : Int) then Except.ok (screen_buffer.set i.toNat v)
  else Except.error copy_fault.bad_write

/-- The loop `for (x = x0; x < x0 + n; ++x) if (src[x] != C_TRANSPARENT) dst[x] = src[x]`;
`src` is the byte offset of the row in the source buffer and `dst` the index of
its first pixel in the shadow buffer. -/
def copy_buffer_row (C_TRANSPARENT : Nat) (buffer : List Nat) (src dst : Int) :
    Nat → Int → List Nat → Except copy_fault (List Nat)
  | 0, _, sb => Except.ok sb
  | n + 1, x, sb =>
    match read_pixel buffer (src + 2 * x) with
    | Except.error e => Except.error e
    | Except.ok p =>
      if p ≠ C_TRANSPARENT then
        match write_pixel sb (dst + x) p with
        | Except.error e => Except.error e
        | Except.ok sb1 => copy_buffer_row C_TRANSPARENT buffer src dst n (x + 1) sb1
      else copy_buffer_row C_TRANSPARENT buffer src dst n (x + 1) sb

/-- The loop `for (y = y0; y < y0 + n; ++y)` over the rows. -/
def copy_buffer_rows (C_TRANSPARENT : Nat) (g : gui_state) (buffer : List Nat)
    (left top width stride : Int) : Nat → Int → List Nat → Except copy_fault (List Nat)
  | 0, _, sb => Except.ok sb
  | n + 1, y, sb =>
    match copy_buffer_row C_TRANSPARENT buffer (y * stride) ((top + y) * g.screen_width + left)
        width.toNat 0 sb with
    | Except.error e => Except.error e
    | Except.ok sb1 => copy_buffer_rows C_TRANSPARENT g buffer left top width stride n (y + 1) sb1

/-- The function `rg_gui_copy_buffer(left, top, width, height, stride, buffer)`;
`screen_buffer` is the shadow buffer when one is active and `C_TRANSPARENT` the
constant of `rg_gui.h`. -/
def rg_gui_copy_buffer (C_TRANSPARENT : Nat) (g : gui_state) (screen_buffer : Option (List Nat))
    (left top width height stride : Int) (buffer : List Nat) : Except copy_fault copy_result :=
  match screen_buffer with
  | some sb =>
    let left1 := if left < 0 then left + g.screen_width else left
    let top1 := if top < 0 then top + g.screen_height else top
    let stride1 := if stride < width then width * 2 else stride
    let width1 := min width (g.screen_width - left1)
    let height1 := min height (g.screen_height - top1)
    match copy_buffer_rows C_TRANSPARENT g buffer left1 top1 width1 stride1 height1.toNat 0 sb with
    | Except.error e => Except.error e
    | Except.ok sb1 => Except.ok (copy_result.buffered sb1)
  | none => Except.ok (copy_result.display left top width height stride)

/-! ## Images: `rg_image_save_to_file` -/

/-- The three bytes `dest[0]`, `dest[1]`, `dest[2]` stored for the pixel `p` by the
RGB565 to RGB888 loop of `rg_image_save_to_file`. -/
def rgb888_of_565 (p : Nat) : List Nat :=
  [(((p >>> 11) &&& 0x1F) <<< 3) % 256, (((p >>> 5) &&& 0x3F) <<< 2) % 256,
    ((p &&& 0x1F) <<< 3) % 256]

/-- The RGB565 to RGB888 loop over the pixels `src[i]`; `none` when a pixel that
was never written is read. -/
def save_pixels : List (Option Nat) → Option (List Nat)
  | [] => some []
  | none :: _ => none
  | some p :: rest => (save_pixels rest).map (fun out => rgb888_of_565 p ++ out)

/-- The `LuImage` that `rg_image_save_to_file` hands to `luPngWriteFile`: three
channels of 8 bits, filled by the conversion loop. -/
def save_image (img : rg_image_t) : Option LuImage :=
  if img.width * img.height ≤ img.data.length then
    (save_pixels (img.data.take (img.width * img.height))).map
      fun out => ⟨img.width, img.height, 3, out⟩
  else none

/-- The function `rg_image_save_to_file(filename, img, flags)`; `create_ok` tells
whether `luImageCreate` succeeds and `luPngWriteFile` whether the external
encoder reports `PNG_OK` for the image. -/
def rg_image_save_to_file (create_ok : Bool) (luPngWriteFile : LuImage → Bool)
    (img : rg_image_t) : Option Bool :=
  if create_ok then (save_image img).map luPngWriteFile else some false

/-! ## Dialog layout and painting: `rg_gui_draw_dialog` -/

/-- Colours of the dialogs (`rg_gui_theme_t`, the static `gui_theme`). -/
structure rg_gui_theme_t where
  box_background : Nat
  box_header : Nat
  box_border : Nat
  item_standard : Nat
  item_disabled : Nat
  scrollbar : Nat
deriving DecidableEq, Repr

/-- The value `(int)(0.82f * v)` of an `int` `v`: the conversion of `v` to single
precision, the product with the constant `0.82f` (which is 13757317 / 2^24) in
single precision, and the truncation towards zero. -/
def scale_082 (v : Int) : Int :=
  let c := f32_round v.natAbs 1
  let p := f32_round (13757317 * c.1) (2 ^ 24 * c.2)
  if v < 0 then -((p.1 / p.2 : Nat) : Int) else ((p.1 / p.2 : Nat) : Int)

/-- The measuring macro `TEXT_RECT(text, max)` is defined in `rg_gui.h`, which is not
among the sources; it is taken as a parameter of this type: the rectangle for
a text (`none` for `NULL`) and a maximal width, `none` when the measuring call
is undefined or does not return. -/
def text_rect_fn : Type := Option (List Nat) → Int → Option rg_rect_t

/-- The text drawing calls made by `rg_gui_draw_dialog`; the number of passes
given to the outer loop of `rg_gui_draw_text` exceeds the length of the text. -/
def draw_text_call (g : gui_state) (x_pos y_pos width : Int) (text : Option (List Nat))
    (color_fg color_bg : Nat) (flags : text_flags) : Option text_result :=
  rg_gui_draw_text g ((effective_text text).length + 1) x_pos y_pos width text color_fg
    color_bg flags

/-- The locals `label` and `value` of one pass of the measuring loop of
`rg_gui_draw_dialog`: the rectangles of the row's label and value (`{0}` for a
text that is absent). -/
def measure_row {σ : Type} (T : text_rect_fn) (max_inner_width : Int)
    (o : rg_gui_option_t σ) : Option (rg_rect_t × rg_rect_t) :=
  (match o.label with
    | some l => T (some l) max_inner_width
    | none => some ⟨0, 0⟩).bind fun label =>
    (match o.value with
      | some v => T (some v) (max_inner_width - label.width)
      | none => some ⟨0, 0⟩).map fun value => (label, value)

/-- The variables updated by the measuring loop of `rg_gui_draw_dialog`. -/
structure measure_state where
  inner_width : Int
  col1_width : Int
  col2_width : Int
  box_height : Int
  row_height : List Int
deriving DecidableEq, Repr

/-- The measuring loop of `rg_gui_draw_dialog` over the rows; `row_padding_y` is 1. -/
def measure_rows {σ : Type} (T : text_rect_fn) (max_inner_width : Int) :
    List (rg_gui_option_t σ) → measure_state → Option measure_state
  | [], a => some a
  | o :: rest, a =>
    (measure_row T max_inner_width o).bind fun lv =>
      let inner_width := if o.label.isSome then max a.inner_width lv.1.width else a.inner_width
      let col1_width := if o.value.isSome then max a.col1_width lv.1.width else a.col1_width
      let col2_width := if o.value.isSome then max a.col2_width lv.2.width else a.col2_width
      let rh := max lv.1.height lv.2.height + 1 * 2
      measure_rows T max_inner_width rest
        ⟨inner_width, col1_width, col2_width, a.box_height + rh, a.row_height ++ [rh]⟩

/-- The geometry computed by `rg_gui_draw_dialog` before it paints: the locals of
the same names, with `x` and `y` the position of the first row (below the
header when there is one). -/
structure dialog_layout where
  options_count : Int
  sep_width : Int
  font_height : Int
  max_box_width : Int
  max_box_height : Int
  inner_width : Int
  col1_width : Int
  col2_width : Int
  box_width : Int
  box_height : Int
  box_x : Int
  box_y : Int
  row_height : List Int
  x : Int
  y : Int
deriving DecidableEq, Repr

/-- The first part of `rg_gui_draw_dialog(header, options, sel)`, up to the position
of the first row: `box_padding` is 6, `row_padding_y` 1 and `row_padding_x` 8. -/
def layout_dialog {σ : Type} (g : gui_state) (F : rg_dialog_flags) (T : text_rect_fn)
    (header : Option (List Nat)) (options : List (rg_gui_option_t σ)) :
    Option dialog_layout :=
  (get_dialog_items_count F (some options)).bind fun options_count =>
  (T (some [58, 32]) 0).bind fun sep =>
  (T header 0).bind fun hdr =>
    let sep_width := sep.width
    let font_height : Int := (g.gui_font.height : Int)
    let max_box_width := scale_082 g.screen_width
    let max_box_height := scale_082 g.screen_height
    let max_inner_width := max_box_width - sep_width - (8 + 6) * 2
    if options.length < options_count.toNat then none
    else
      (measure_rows T max_inner_width (options.take options_count.toNat)
        ⟨hdr.width, -1, -1, 6 * 2 + (if header.isSome then font_height + 6 else 0), []⟩).map
        fun a =>
          let col1_width := min a.col1_width max_box_width
          let col2_clamped := min a.col2_width max_box_width
          let inner1 :=
            if col2_clamped ≥ 0 then max a.inner_width (col1_width + col2_clamped + sep_width)
            else a.inner_width
          let inner_width := min inner1 max_box_width
          let col2_width := inner_width - col1_width - sep_width
          let box_width := 6 * 2 + (inner_width + 8 * 2)
          let box_height := min a.box_height max_box_height
          let box_x := Int.tdiv (g.screen_width - box_width) 2
          let box_y := Int.tdiv (g.screen_height - box_height) 2
          let y := box_y + 6
          ⟨options_count, sep_width, font_height, max_box_width, max_box_height, inner_width,
            col1_width, col2_width, box_width, box_height, box_x, box_y, a.row_height,
            box_x + 6, if header.isSome then y + font_height + 6 else y⟩

/-- The painting loop `for (; i < options_count; i++)` of `rg_gui_draw_dialog`, at
most `n` passes from row `i` at height `y`: the rows painted, and `i` and `y`
when the loop is left. -/
def paint_rows {σ : Type} (g : gui_state) (theme : rg_gui_theme_t) (F : rg_dialog_flags)
    (options : List (rg_gui_option_t σ)) (sel : Int) (L : dialog_layout) :
    Nat → Int → Int → Option (List Int × Int × Int)
  | 0, i, y => some ([], i, y)
  | n + 1, i, y =>
    (option_at options i).bind fun o =>
    (if 0 ≤ i then L.row_height[i.toNat]? else none).bind fun rh =>
      let color :=
        if o.flags = F.RG_DIALOG_FLAG_NORMAL then theme.item_standard else theme.item_disabled
      let fg := if i = sel then theme.box_background else color
      let bg := if i = sel then color else theme.box_background
      let xx := L.x + 8
      let yy := y + 1
      if y + rh ≥ L.box_y + L.box_height then some ([], i, y)
      else
        (match o.value with
          | some v =>
            (draw_text_call g xx yy L.col1_width o.label fg bg ⟨false, false, false, false⟩).bind
              fun _ =>
            (draw_text_call g (xx + L.col1_width) yy L.sep_width (some [58, 32]) fg bg
              ⟨false, false, false, false⟩).bind fun _ =>
            (draw_text_call g (xx + L.col1_width + L.sep_width) yy L.col2_width (some v) fg bg
              ⟨false, false, true, false⟩).map fun (r : text_result) => r.rect.height
          | none =>
            (draw_text_call g xx yy L.inner_width o.label fg bg
              ⟨false, false, true, false⟩).map fun (r : text_result) => r.rect.height).bind fun height =>
          (paint_rows g theme F options sel L n (i + 1) (y + (height + 1 * 2))).map
            fun (r : List Int × Int × Int) => (i :: r.1, r.2)

/-- What `rg_gui_draw_dialog` puts on the screen, as far as represented: the
geometry, the top-of-window index `top_i`, the rows painted, and the values of
`i` and `y` after the painting loop. -/
structure dialog_frame where
  layout : dialog_layout
  top_i : Int
  painted : List Int
  next_i : Int
  y_end : Int
deriving DecidableEq, Repr

/-- The function `rg_gui_draw_dialog(header, options, sel)`.  The rectangle fills,
the scroll indicators and the flush are not represented. -/
def rg_gui_draw_dialog {σ : Type} (g : gui_state) (theme : rg_gui_theme_t)
    (F : rg_dialog_flags) (T : text_rect_fn) (header : Option (List Nat))
    (options : List (rg_gui_option_t σ)) (sel : Int) : Option dialog_frame :=
  (layout_dialog g F T header options).bind fun L =>
    (match header with
      | some h =>
        (draw_text_call g L.x (L.box_y + 6) (L.inner_width + 8 * 2) (some h) theme.box_header
          theme.box_background ⟨false, true, false, false⟩).map fun _ => ()
      | none => some ()).bind fun _ =>
      let top_i := scroll_top L.row_height L.y (L.box_y + L.box_height) sel
      (paint_rows g theme F options sel L (L.options_count - top_i).toNat top_i L.y).map
        fun (p : List Int × Int × Int) => ⟨L, top_i, p.1, p.2.1, p.2.2⟩

/-! ## The settings menu: `rg_gui_settings_menu`, `brightness_update_cb` -/

/-- Modelled from the spec: the display backlight behind the external get/set pair
`rg_display_get_backlight` and `rg_display_set_backlight` (`rg_display.c` is not
among the sources): the current level, which the setter replaces, and the
levels passed to the setter so far. -/
structure backlight_state where
  level : Int
  set_calls : List Int
deriving DecidableEq, Repr

/-- The text written by `sprintf(option->value, "%d%%", level)`. -/
def format_percent (level : Int) : List Nat :=
  (toString level).toList.map Char.toNat ++ [37]

open rg_gui_event_t in
/-- The callback `brightness_update_cb(option, event)`; `level & ~1` clears the
lowest bit of the two's complement number. -/
def brightness_update_cb (w : backlight_state) (_option : rg_gui_row) (event : rg_gui_event_t) :
    backlight_state × rg_gui_event_t × Option (List Nat) :=
  let prev_level := w.level
  let level1 := if event = RG_DIALOG_PREV then w.level - 10 else w.level
  let level2 := if event = RG_DIALOG_NEXT then level1 + 10 else level1
  let level := min (max (level2 - level2 % 2) 1) 100
  let w1 : backlight_state :=
    if level ≠ prev_level then ⟨level, w.set_calls ++ [level]⟩ else w
  (w1, RG_DIALOG_VOID, some (format_percent level))

/-- The application record (`rg_app_t` of `rg_system.h`, not among the sources),
as far as `rg_gui_settings_menu` reads it: `isLauncher` and `options`. -/
structure rg_app_t (σ : Type) where
  isLauncher : Bool
  options : Option (List (rg_gui_option_t σ))

/-- The update callbacks whose addresses `rg_gui_settings_menu` stores in its
rows. -/
structure settings_callbacks (σ : Type) where
  brightness_update_cb : σ → rg_gui_row → rg_gui_event_t → σ × rg_gui_event_t × Option (List Nat)
  volume_update_cb : σ → rg_gui_row → rg_gui_event_t → σ × rg_gui_event_t × Option (List Nat)
  audio_update_cb : σ → rg_gui_row → rg_gui_event_t → σ × rg_gui_event_t × Option (List Nat)
  disk_activity_cb : σ → rg_gui_row → rg_gui_event_t → σ × rg_gui_event_t × Option (List Nat)
  font_type_cb : σ → rg_gui_row → rg_gui_event_t → σ × rg_gui_event_t × Option (List Nat)
  scaling_update_cb : σ → rg_gui_row → rg_gui_event_t → σ × rg_gui_event_t × Option (List Nat)
  filter_update_cb : σ → rg_gui_row → rg_gui_event_t → σ × rg_gui_event_t × Option (List Nat)
  update_mode_update_cb :
    σ → rg_gui_row → rg_gui_event_t → σ × rg_gui_event_t × Option (List Nat)
  speedup_update_cb : σ → rg_gui_row → rg_gui_event_t → σ × rg_gui_event_t × Option (List Nat)

/-- The rows that `rg_gui_settings_menu` writes first: "Brightness" and "Volume",
then three rows in the launcher and four inside a game. -/
def settings_builtin_rows {σ : Type} (cbs : settings_callbacks σ) (isLauncher : Bool) :
    List (rg_gui_option_t σ) :=
  [⟨0, some [66, 114, 105, 103, 104, 116, 110, 101, 115, 115], some [53, 48, 37], 1, some cbs.brightness_update_cb⟩,
    ⟨0, some [86, 111, 108, 117, 109, 101, 32, 32, 32, 32], some [53, 48, 37], 1, some cbs.volume_update_cb⟩] ++
  (if isLauncher then
    [⟨0, some [65, 117, 100, 105, 111, 32, 111, 117, 116, 32], some [83, 112, 101, 97, 107, 101, 114], 1, some cbs.audio_update_cb⟩,
    ⟨0, some [68, 105, 115, 107, 32, 76, 69, 68, 32, 32, 32], some [46, 46, 46], 1, some cbs.disk_activity_cb⟩,
    ⟨0, some [70, 111, 110, 116, 32, 116, 121, 112, 101, 32, 32], some [46, 46, 46], 1, some cbs.font_type_cb⟩]
  else
    [⟨0, some [83, 99, 97, 108, 105, 110, 103], some [70, 117, 108, 108], 1, some cbs.scaling_update_cb⟩,
    ⟨0, some [70, 105, 108, 116, 101, 114], some [78, 111, 110, 101], 1, some cbs.filter_update_cb⟩,
    ⟨0, some [85, 112, 100, 97, 116, 101], some [80, 97, 114, 116, 105, 97, 108], 1, some cbs.update_mode_update_cb⟩,
    ⟨0, some [83, 112, 101, 101, 100], some [49, 120], 1, some cbs.speedup_update_cb⟩])

/-- The local array `options[24]` of `rg_gui_settings_menu` as filled through `opt`:
the built-in rows, the `extra_options` rows of the application and the
terminator; `none` when the count of the application's rows is undefined or
more than 24 entries are written. -/
def settings_menu_options {σ : Type} (F : rg_dialog_flags) (cbs : settings_callbacks σ)
    (app : rg_app_t σ) : Option (List (rg_gui_option_t σ)) :=
  (get_dialog_items_count F app.options).bind fun extra_options =>
    let extra : List (rg_gui_option_t σ) :=
      match app.options with
      | some l => l.take extra_options.toNat
      | none => []
    let all := settings_builtin_rows cbs app.isLauncher ++ extra ++ [RG_DIALOG_CHOICE_LAST F σ]
    if all.length ≤ 24 then some all else none

/-- The function `rg_gui_settings_menu()`, run on the gamepad readings of the poll
cycles of its dialog. -/
def rg_gui_settings_menu {σ : Type} (F : rg_dialog_flags) (cbs : settings_callbacks σ)
    (app : rg_app_t σ) (world : σ) (readings : List (List rg_key_t)) :
    Option (Int × dialog_state σ) :=
  (settings_menu_options F cbs app).bind fun options =>
    rg_gui_dialog F world (some [79, 112, 116, 105, 111, 110, 115]) (some options) 0 readings

/-! ## Rectangles: `rg_gui_draw_rect` -/

/-- A call `rg_gui_copy_buffer(left, top, width, height, 0, overlay_buffer)` made by
`rg_gui_draw_rect`; `pixel` is the 16-bit value that the first `width * height`
pixels of `overlay_buffer` hold at that moment. -/
structure rect_strip where
  left : Int
  top : Int
  width : Int
  height : Int
  pixel : Int
deriving DecidableEq, Repr

/-- The loop `for (int y = y0; y < height; y += 16)` that paints the interior of a
rectangle, at most `n` passes: the copy calls it makes. -/
def fill_strips (x_pos y_pos width height pixel : Int) : Nat → Int → List rect_strip
  | 0, _ => []
  | n + 1, y =>
    if y < height then
      ⟨x_pos, y_pos + y, width, min (height - y) 16, pixel⟩
        :: fill_strips x_pos y_pos width height pixel n (y + 16)
    else []

/-- The function `rg_gui_draw_rect(x_pos, y_pos, width, height, border_size,
border_color, fill_color)`: the copy calls made for the border and those made
for the interior, in order.  The type `rg_color_t` is declared in `rg_gui.h` (not
among the sources); colours are taken as C `int` values, of which -1 means no
fill, and are stored in `overlay_buffer` as 16-bit pixels.  The result is `none`
when more pixels are written than `overlay_buffer` holds. -/
def rg_gui_draw_rect (g : gui_state) (x_pos y_pos width height border_size : Int)
    (border_color fill_color : Int) : Option (List rect_strip × List rect_strip) :=
  if width ≤ 0 ∨ height ≤ 0 then some ([], [])
  else
    let x0 := if x_pos < 0 then x_pos + g.screen_width else x_pos
    let y0 := if y_pos < 0 then y_pos + g.screen_height else y_pos
    let border : Option (List rect_strip) :=
      if border_size > 0 then
        (if border_size * max width height ≤ overlay_capacity g then
          some [⟨x0, y0, width, border_size, border_color % 65536⟩,
            ⟨x0, y0 + height - border_size, width, border_size, border_color % 65536⟩,
            ⟨x0, y0, border_size, height, border_color % 65536⟩,
            ⟨x0 + width - border_size, y0, border_size, height, border_color % 65536⟩]
        else none)
      else some []
    let x1 := if border_size > 0 then x0 + border_size else x0
    let y1 := if border_size > 0 then y0 + border_size else y0
    let width1 := if border_size > 0 then width - border_size * 2 else width
    let height1 := if border_size > 0 then height - border_size * 2 else height
    border.bind fun bs =>
      if height1 > 0 ∧ fill_color ≠ -1 then
        (if 0 ≤ width1 * min height1 16 ∧ width1 * min height1 16 ≤ overlay_capacity g then
          some (bs, fill_strips x1 y1 width1 height1 (fill_color % 65536) height1.toNat 0)
        else none)
      else some (bs, [])

/-! ## Auxiliary notions for the text layout statements -/

/-- Sum of the glyph widths of the glyphs accepted on a line. -/
def glyphs_width (gl : List placed_glyph) : Int :=
  (gl.map fun p => (p.glyph.width : Int)).sum

/-- The characters of the glyphs accepted on a line, in order. -/
def line_chars (gl : List placed_glyph) : List Nat := gl.map fun p => p.chr

/-- Every character of `s` has a glyph in the active font, no wider than `dw`. -/
def glyphs_fit_width (g : gui_state) (dw : Int) (s : List Nat) : Prop :=
  ∀ c ∈ s, ∃ gl, gui_glyph g c = some gl ∧ (gl.width : Int) ≤ dw

/-- The characters of all lines, in order. -/
def lines_chars (ls : List text_line) : List Nat :=
  (ls.map fun l => line_chars l.glyphs).flatten

/-- Lines of a text, split at the newline characters. -/
def split_lines : List Nat → List (List Nat)
  | [] => [[]]
  | c :: s =>
    if c = 10 then [] :: split_lines s
    else
      match split_lines s with
      | [] => [[c]]
      | l :: ls => (c :: l) :: ls

/-- Width of the glyph of character `c` in the active font (0 where the glyph
lookup is undefined). -/
def glyph_width_of (g : gui_state) (c : Nat) : Int :=
  match gui_glyph g c with
  | some gl => (gl.width : Int)
  | none => 0

/-- Sum of the glyph widths of the characters of one line. -/
def line_width_sum (g : gui_state) (l : List Nat) : Int :=
  (l.map (glyph_width_of g)).sum

/-- Specification of the measured box width: the maximum, over the lines of the
text split at newline characters, of the sum of the line's glyph widths. -/
def max_line_width (g : gui_state) (s : List Nat) : Int :=
  ((split_lines s).map (line_width_sum g)).foldr max 0

/-- A synthetic monospaced font: fixed layout, 8 pixels wide, 1 row tall, 128
characters whose single row has all 8 pixels set. -/
def mono8_font : rg_font_t := ⟨0, 8, 1, 128, List.replicate 128 0xFF⟩

/-- A GUI state for the examples: a 320 x 240 screen and `mono8_font` selected as
font type 0, hence drawn at 8 points (an 8-pixel line height). -/
def demo_gui : gui_state := ⟨⟨0, mono8_font, 8, 8, 8⟩, 320, 240⟩

/-- Flag word with only `RG_TEXT_MULTILINE` set. -/
def flags_multiline : text_flags := ⟨false, false, true, false⟩

/-- Flag word 0. -/
def flags_none : text_flags := ⟨false, false, false, false⟩

/-- Running form of the measured width: the width of the widest line of `s`,
the first line starting with `lw` pixels already counted. -/
def measure_acc (g : gui_state) : Int → List Nat → Int
  | lw, [] => lw
  | lw, c :: s =>
    if c = 10 then max lw (measure_acc g 0 s) else measure_acc g (lw + glyph_width_of g c) s

/-! ## Auxiliary notions for the dialog statements -/

/-- The flags of row `i` of an option array, `none` outside the array. -/
def row_flags {σ : Type} (options : List (rg_gui_option_t σ)) (i : Int) : Option Int :=
  (option_at options i).map fun o => o.flags

/-- The id of row `i` of an option array, `none` outside the array. -/
def row_id {σ : Type} (options : List (rg_gui_option_t σ)) (i : Int) : Option Int :=
  (option_at options i).map fun o => o.id

/-- One round of the walk over skip rows: `sel += down ? 1 : -1` followed by the
two wrap-around tests. -/
def next_sel (options_count : Int) (down : Bool) (sel : Int) : Int :=
  let s1 := sel + (if down then 1 else -1)
  let s2 := if s1 < 0 then options_count - 1 else s1
  if s2 ≥ options_count then 0 else s2

/-- The selection after an Up press on `sel`: `if (--sel < 0) sel = options_count - 1`. -/
def sel_up (options_count sel : Int) : Int :=
  if sel - 1 < 0 then options_count - 1 else sel - 1

/-- The selection after a Down press on `sel`:
`if (++sel > options_count - 1) sel = 0`. -/
def sel_down (options_count sel : Int) : Int :=
  if sel + 1 > options_count - 1 then 0 else sel + 1

/-- Flag values used in the examples: disabled 0, normal 1, skip -1, last 0xF0F0. -/
def demo_flags : rg_dialog_flags := ⟨0, 1, -1, 0xF0F0⟩

/-- The first of the buttons Left, Right, Start, A that is down in a reading,
with the event tag the dialog passes to the row's callback for it. -/
def action_event (joystick : List rg_key_t) : Option (rg_key_t × rg_gui_event_t) :=
  if rg_key_t.RG_KEY_LEFT ∈ joystick then
    some (rg_key_t.RG_KEY_LEFT, rg_gui_event_t.RG_DIALOG_PREV)
  else if rg_key_t.RG_KEY_RIGHT ∈ joystick then
    some (rg_key_t.RG_KEY_RIGHT, rg_gui_event_t.RG_DIALOG_NEXT)
  else if rg_key_t.RG_KEY_START ∈ joystick then
    some (rg_key_t.RG_KEY_START, rg_gui_event_t.RG_DIALOG_ALT)
  else if rg_key_t.RG_KEY_A ∈ joystick then
    some (rg_key_t.RG_KEY_A, rg_gui_event_t.RG_DIALOG_ENTER)
  else none

/-- A reading in which one of the dismiss buttons B, Option, Menu is down. -/
def dismiss_pressed (joystick : List rg_key_t) : Prop :=
  rg_key_t.RG_KEY_B ∈ joystick ∨ rg_key_t.RG_KEY_OPTION ∈ joystick ∨
    rg_key_t.RG_KEY_MENU ∈ joystick

/-- A reading in which none of the buttons handled by the dialog is down. -/
def idle_reading (joystick : List rg_key_t) : Prop :=
  ∀ k ∈ joystick, k = rg_key_t.RG_KEY_SELECT

/-- A dialog state for the examples: the confirm dialog with a message, the
selection on the row "Yes". -/
def demo_dialog : dialog_state Unit :=
  ⟨(), none, confirm_options demo_flags Unit (some [72]), 4, 2, 2, none, [2]⟩

/-- An option list for the examples in which both rows are flagged skip. -/
def skip_options : List (rg_gui_option_t Unit) :=
  [⟨5, none, none, -1, none⟩, ⟨6, none, none, -1, none⟩, RG_DIALOG_CHOICE_LAST demo_flags Unit]

/-- The row "Yes" of the confirm dialog. -/
def confirm_yes_row (σ : Type) : rg_gui_option_t σ := ⟨1, some [89, 101, 115], none, 1, none⟩

/-- A dialog state for the examples: three selectable rows, the selection on
row 0. -/
def plain_dialog : dialog_state Unit :=
  ⟨(), none,
    [⟨10, none, none, 1, none⟩, ⟨11, none, none, 1, none⟩, ⟨12, none, none, 1, none⟩,
      RG_DIALOG_CHOICE_LAST demo_flags Unit],
    3, 0, 0, none, [0]⟩

/-! ## Auxiliary notions for the glyph decoder statements -/

/-- Bit number `k` of the payload that starts at position `pos` of the font
stream, counted from the most significant bit of each byte. -/
def payload_bit (data : List Nat) (pos k : Nat) : Bool :=
  (data.getD (pos + k / 8) 0 % 256).testBit (7 - k % 8)

/-- State of the unpacking loops of `get_glyph` before the pixel with running
number `k` of the record `r`: the position of `data`, the byte held in `ch`
with the bit selected by `mask`, and the bits set so far in the bitmap. -/
def unpack_inv (data : List Nat) (r : glyph_record) (k : Nat) (s : unpack_state) : Prop :=
  (k % 8 = 0 → s.pos = r.pos + k / 8) ∧
  (k % 8 ≠ 0 → s.pos = r.pos + k / 8 + 1 ∧ s.ch = data.getD (r.pos + k / 8) 0 % 256 ∧
    s.mask = 2 ^ (7 - k % 8)) ∧
  ∀ row bit, (bitmap_get s.bitmap row).testBit bit = true ↔
    ∃ j, j < k ∧ payload_bit data r.pos j = true ∧ row = r.adjYOffset + j / r.width ∧
      (bit : Int) = r.xOffset + ((j % r.width : Nat) : Int)

/-- A fixed-layout font of two characters with two rows each (rows 1, 2 and
3, 4) and width 0, for the examples. -/
def fixed2_font : rg_font_t := ⟨0, 0, 2, 2, [1, 2, 3, 4]⟩

/-- A fixed-layout font of height 14 with one character whose row `y` is `y`. -/
def fixed14_font : rg_font_t := ⟨0, 8, 14, 1, [0, 1, 2, 3, 4, 5, 6, 7, 8, 9, 10, 11, 12, 13]⟩

/-- A proportional font of height 4 with one glyph followed by the terminator:
`A` (65) at row offset 1, 3 pixels wide and 2 high, column offset 0, advance 4,
with the payload bits 110 100. -/
def prop_font : rg_font_t :=
  ⟨1, 0, 4, 0, [65, 1, 3, 2, 0, 4, 0xD0, 0xFF, 0, 0, 0, 0, 0]⟩

/-- The record of `A` in `prop_font`, as the scan leaves it. -/
def prop_font_record : glyph_record := ⟨65, 1, 3, 2, 0, 4, 6⟩

/-- A proportional font of height 1 whose glyph `A` sits at row offset 1, below
the font's height. -/
def low_prop_font : rg_font_t :=
  ⟨1, 0, 1, 0, [65, 1, 1, 1, 0, 1, 0x80, 0xFF, 0, 0, 0, 0, 0]⟩

/-- A font table with four entries, for the examples. -/
def demo_fonts : font_table := ⟨4, [mono8_font, mono8_font, mono8_font, fixed2_font]⟩

/-- A font state in which font 0 is active and nothing is stored yet. -/
def demo_font_state : font_state := ⟨⟨0, mono8_font, 8, 8, 8⟩, true, none, 0⟩

/-- A proportional font whose first record declares width 1 and height 0 and is
followed by the record of `B` (66) and by terminator bytes. -/
def skew_font : rg_font_t :=
  ⟨1, 0, 1, 0, [65, 0, 1, 0, 0, 1, 66, 0, 1, 1, 0, 2, 0x80,
    0xFF, 0xFF, 0xFF, 0xFF, 0xFF, 0xFF, 0xFF, 0xFF, 0xFF, 0xFF, 0xFF, 0xFF]⟩

/-- A screen of 4 x 2 pixels with the font of `demo_gui`. -/
def tiny_gui : gui_state := ⟨demo_gui.gui_font, 4, 2⟩

/-! ## Further examples for the dialog statements -/

/-- A selectable row without callback, for the examples. -/
def plain_row (σ : Type) (id : Int) : rg_gui_option_t σ := ⟨id, none, none, 1, none⟩

/-- An option list of sixteen selectable rows followed by the terminator. -/
def sixteen_options : List (rg_gui_option_t Unit) :=
  List.replicate 16 (plain_row Unit 7) ++ [RG_DIALOG_CHOICE_LAST demo_flags Unit]

/-- An option list whose first row is flagged skip and whose second row is
selectable. -/
def skip_first_options : List (rg_gui_option_t Unit) :=
  [⟨5, none, none, -1, none⟩, plain_row Unit 6, RG_DIALOG_CHOICE_LAST demo_flags Unit]

/-- Three selectable rows followed by the terminator (the rows of `plain_dialog`). -/
def plain_options : List (rg_gui_option_t Unit) :=
  [⟨10, none, none, 1, none⟩, ⟨11, none, none, 1, none⟩, ⟨12, none, none, 1, none⟩,
    RG_DIALOG_CHOICE_LAST demo_flags Unit]

/-- The dialog on `plain_options` opened on row 0 after one cycle with Up
pressed: the selection is on row 2 and Up is recorded as held. -/
def held_dialog : dialog_state Unit :=
  ⟨(), none, plain_options, 3, 2, 2, some rg_key_t.RG_KEY_UP, [0, 2]⟩

/-! ## Examples for the dialog layout statements -/

/-- A 320 x 240 screen whose active font has height 8 at its native size and no
character table, so that every glyph other than newline is blank and 8 pixels
wide. -/
def blank8_gui : gui_state := ⟨⟨0, ⟨0, 8, 8, 0, []⟩, 8, 8, 8⟩, 320, 240⟩

/-- Measuring by a dummy draw: `rg_gui_draw_text(-max, 0, 0, text, 0, 0, flags)`
with the flags `RG_TEXT_MULTILINE` and `RG_TEXT_DUMMY_DRAW`. -/
def measure_by_dummy_draw (g : gui_state) : text_rect_fn :=
  fun text max =>
    (draw_text_call g (-max) 0 0 text 0 0 ⟨false, false, true, true⟩).map
      fun (r : text_result) => r.rect

/-- A theme with six distinct colours. -/
def demo_theme : rg_gui_theme_t := ⟨1, 2, 3, 4, 5, 6⟩

/-- A selectable row without value whose label has the three lines "a", "b", "c". -/
def three_line_row : rg_gui_option_t Unit := ⟨0, some [97, 10, 98, 10, 99], none, 1, none⟩

/-- Fifteen rows of three lines each, followed by the terminator. -/
def tall_options : List (rg_gui_option_t Unit) :=
  List.replicate 15 three_line_row ++ [RG_DIALOG_CHOICE_LAST demo_flags Unit]

/-- One row without value whose label has 40 characters, followed by the
terminator. -/
def wide_options : List (rg_gui_option_t Unit) :=
  [⟨0, some (List.replicate 40 65), none, 1, none⟩, RG_DIALOG_CHOICE_LAST demo_flags Unit]

/-- A proportional font of height 1 whose glyph `A` has the row offset byte 0x80. -/
def high_offset_font : rg_font_t :=
  ⟨1, 0, 1, 0, [65, 0x80, 1, 1, 0, 1, 0x80, 0xFF, 0, 0, 0, 0, 0]⟩

/-- The value `min(max(level & ~1, 1), 100)` to which `brightness_update_cb`
brings a level. -/
def backlight_normal (level : Int) : Int := min (max (level - level % 2) 1) 100

/-- Callbacks that do nothing, for the examples. -/
def idle_callbacks : settings_callbacks Unit :=
  ⟨fun w _ _ => (w, rg_gui_event_t.RG_DIALOG_VOID, none),
   fun w _ _ => (w, rg_gui_event_t.RG_DIALOG_VOID, none),
   fun w _ _ => (w, rg_gui_event_t.RG_DIALOG_VOID, none),
   fun w _ _ => (w, rg_gui_event_t.RG_DIALOG_VOID, none),
   fun w _ _ => (w, rg_gui_event_t.RG_DIALOG_VOID, none),
   fun w _ _ => (w, rg_gui_event_t.RG_DIALOG_VOID, none),
   fun w _ _ => (w, rg_gui_event_t.RG_DIALOG_VOID, none),
   fun w _ _ => (w, rg_gui_event_t.RG_DIALOG_VOID, none),
   fun w _ _ => (w, rg_gui_event_t.RG_DIALOG_VOID, none)⟩

/-- The launcher with an option list of eleven selectable rows. -/
def eleven_row_app : rg_app_t Unit :=
  ⟨true, some (List.replicate 11 (plain_row Unit 7) ++ [RG_DIALOG_CHOICE_LAST demo_flags Unit])⟩

/-- The rows of a dialog together with the rectangles measured for their label
and value; `none` when a measuring call is undefined. -/
def measured_rows {σ : Type} (T : text_rect_fn) (max_inner_width : Int) :
    List (rg_gui_option_t σ) → Option (List (rg_gui_option_t σ × rg_rect_t × rg_rect_t))
  | [] => some []
  | o :: rest =>
    (measure_row T max_inner_width o).bind fun lv =>
      (measured_rows T max_inner_width rest).map fun ms => (o, lv) :: ms

/-- The widest of a start value and a list of widths. -/
def widest (start : Int) (ws : List Int) : Int := ws.foldl max start

/-- The label widths of the rows that have a label. -/
def label_widths {σ : Type} (ms : List (rg_gui_option_t σ × rg_rect_t × rg_rect_t)) :
    List Int :=
  ms.filterMap fun r => if r.1.label.isSome then some r.2.1.width else none

/-- The label widths of the rows that have a value (first column). -/
def col1_widths {σ : Type} (ms : List (rg_gui_option_t σ × rg_rect_t × rg_rect_t)) :
    List Int :=
  ms.filterMap fun r => if r.1.value.isSome then some r.2.1.width else none

/-- The value widths of the rows that have a value (second column). -/
def col2_widths {σ : Type} (ms : List (rg_gui_option_t σ × rg_rect_t × rg_rect_t)) :
    List Int :=
  ms.filterMap fun r => if r.1.value.isSome then some r.2.2.width else none

/-- The heights of the rows: the taller of label and value plus the padding. -/
def row_heights {σ : Type} (ms : List (rg_gui_option_t σ × rg_rect_t × rg_rect_t)) :
    List Int :=
  ms.map fun r => max r.2.1.height r.2.2.height + 2

/-- One selectable row with the label "a", followed by the terminator. -/
def one_row_options : List (rg_gui_option_t Unit) :=
  [⟨0, some [97], none, 1, none⟩, RG_DIALOG_CHOICE_LAST demo_flags Unit]

/-- The heights of the strips of a list of copy calls. -/
def strip_heights (strips : List rect_strip) : List Int := strips.map fun s => s.height

/-! ## Theorems: text layout -/

theorem draw_glyphs_fit (g : gui_state) (ml : Bool) (dw : Int) :
    ∀ (ptr : List Nat) (x : Int) (gl : List placed_glyph) (rest : List Nat),
      draw_glyphs g ml dw ptr x = some (gl, rest) →
      (∀ p ∈ gl, x ≤ p.x_offset ∧ p.x_offset < dw ∧ p.x_offset + (p.glyph.width : Int) ≤ dw ∧
        gui_glyph g p.chr = some p.glyph) ∧
      x + glyphs_width gl ≤ max x dw := by
  intro ptr
  induction ptr with
  | nil =>
    intro x gl rest h
    simp only [draw_glyphs] at h
    split at h
    · simp at h
    · simp only [Option.some.injEq, Prod.mk.injEq] at h
      obtain ⟨rfl, -⟩ := h
      simp [glyphs_width]
  | cons chr ptr ih =>
    intro x gl rest h
    simp only [draw_glyphs] at h
    split at h
    · rename_i hx
      cases hg : gui_glyph g chr with
      | none => simp [hg] at h
      | some glyph =>
        simp only [hg, Option.some_bind] at h
        split at h
        · simp only [Option.some.injEq, Prod.mk.injEq] at h
          obtain ⟨rfl, -⟩ := h
          simp [glyphs_width]
        · rename_i hfit
          split at h
          · simp only [Option.some.injEq, Prod.mk.injEq] at h
            obtain ⟨rfl, -⟩ := h
            have hw : (0 : Int) ≤ (glyph.width : Int) := Int.ofNat_nonneg _
            refine ⟨?_, ?_⟩
            · intro p hp
              simp only [List.mem_singleton] at hp
              subst hp
              exact ⟨le_refl _, hx, by simp only; omega, hg⟩
            · simp only [glyphs_width, List.map_cons, List.map_nil, List.sum_cons, List.sum_nil]
              have := le_max_right x dw
              omega
          · cases hr : draw_glyphs g ml dw ptr (x + (glyph.width : Int)) with
            | none => simp [hr] at h
            | some r =>
              simp only [hr, Option.map_some', Option.some.injEq, Prod.mk.injEq] at h
              obtain ⟨rfl, -⟩ := h
              have hw : (0 : Int) ≤ (glyph.width : Int) := Int.ofNat_nonneg _
              obtain ⟨h1, h2⟩ := ih (x + (glyph.width : Int)) r.1 r.2 hr
              refine ⟨?_, ?_⟩
              · intro p hp
                simp only [List.mem_cons] at hp
                rcases hp with rfl | hp
                · exact ⟨le_refl _, hx, by simp only; omega, hg⟩
                · obtain ⟨a, b, c⟩ := h1 p hp
                  exact ⟨by omega, b, c⟩
              · simp only [glyphs_width, List.map_cons, List.sum_cons] at h2 ⊢
                have e1 : max (x + (glyph.width : Int)) dw = dw := max_eq_right (by omega)
                have e2 : max x dw = dw := max_eq_right (by omega)
                rw [e1] at h2
                rw [e2]
                omega
    · simp only [Option.some.injEq, Prod.mk.injEq] at h
      obtain ⟨rfl, -⟩ := h
      simp [glyphs_width]

theorem line_text_width_bounds (g : gui_state) (dw : Int) :
    ∀ (line : List Nat) (x n : Int), line_text_width g dw line x = some n →
      x ≤ n ∧ n ≤ max x dw := by
  intro line
  induction line with
  | nil =>
    intro x n h
    simp only [line_text_width, Option.some.injEq] at h
    subst h
    exact ⟨le_refl _, le_max_left _ _⟩
  | cons chr line ih =>
    intro x n h
    simp only [line_text_width] at h
    split at h
    · rename_i hx
      cases hg : gui_glyph g chr with
      | none => simp [hg] at h
      | some glyph =>
        simp only [hg, Option.some_bind] at h
        have hw : (0 : Int) ≤ (glyph.width : Int) := Int.ofNat_nonneg _
        split at h
        · simp only [Option.some.injEq] at h
          subst h
          exact ⟨le_refl _, le_max_left _ _⟩
        · obtain ⟨a, b⟩ := ih _ _ h
          have e1 : max (x + (glyph.width : Int)) dw = dw := max_eq_right (by omega)
          have e2 : max x dw = dw := max_eq_right (by omega)
          rw [e1] at b
          rw [e2]
          exact ⟨by omega, b⟩
    · simp only [Option.some.injEq] at h
      subst h
      exact ⟨le_refl _, le_max_left _ _⟩

theorem line_start_bounds (g : gui_state) (flags : text_flags) (dw : Int) (ptr : List Nat)
    (x0 : Int) (h : line_start g flags dw ptr = some x0) :
    (0 ≤ dw → 0 ≤ x0) ∧ (dw ≤ 0 → dw ≤ x0) := by
  simp only [line_start] at h
  split at h
  · cases hn : line_text_width g dw ptr 0 with
    | none => simp [hn] at h
    | some n =>
      simp only [hn, Option.map_some', Option.some.injEq] at h
      obtain ⟨a, b⟩ := line_text_width_bounds g dw ptr 0 n hn
      split at h
      · subst h
        constructor
        · intro hdw
          have e : max (0 : Int) dw = dw := max_eq_right hdw
          rw [e] at b
          exact Int.tdiv_nonneg (by omega) (by norm_num)
        · intro hdw
          have e : max (0 : Int) dw = 0 := max_eq_left hdw
          rw [e] at b
          have hn0 : n = 0 := by omega
          subst hn0
          simp only [sub_zero]
          have h1 : Int.tdiv dw 2 = -((-dw) / 2) := by
            have h2 := Int.neg_tdiv (-dw) 2
            rw [neg_neg] at h2
            rw [h2, Int.tdiv_eq_ediv (by omega) (by norm_num)]
          rw [h1]
          omega
      · subst h
        constructor
        · intro hdw
          have e : max (0 : Int) dw = dw := max_eq_right hdw
          rw [e] at b
          omega
        · intro hdw
          have e : max (0 : Int) dw = 0 := max_eq_left hdw
          rw [e] at b
          omega
  · simp only [Option.some.injEq] at h
    subst h
    exact ⟨fun _ => le_refl _, fun hdw => hdw⟩

theorem draw_line_fit (g : gui_state) (flags : text_flags) (dw : Int) (ptr : List Nat)
    (gl : List placed_glyph) (rest : List Nat)
    (h : draw_line g flags dw ptr = some (gl, rest)) :
    (∀ p ∈ gl, gui_glyph g p.chr = some p.glyph ∧ 0 ≤ p.x_offset ∧
      p.x_offset + (p.glyph.width : Int) ≤ dw) ∧
    (0 < g.gui_font.height → glyphs_width gl ≤ dw) := by
  simp only [draw_line] at h
  split at h
  · rename_i hp
    cases hs : line_start g flags dw ptr with
    | none => simp [hs] at h
    | some x0 =>
      simp only [hs, Option.some_bind] at h
      obtain ⟨b1, b2⟩ := line_start_bounds g flags dw ptr x0 hs
      obtain ⟨f1, f2⟩ := draw_glyphs_fit g flags.multiline dw ptr x0 gl rest h
      refine ⟨?_, ?_⟩
      · intro p hpm
        obtain ⟨a, b, c, d⟩ := f1 p hpm
        refine ⟨d, ?_, c⟩
        rcases le_or_lt 0 dw with hdw | hdw
        · have := b1 hdw
          omega
        · have := b2 (le_of_lt hdw)
          omega
      · intro hfont
        have hdw : 0 ≤ dw := by
          by_contra hneg
          have h1 : dw < 0 := not_le.mp hneg
          have h2 : (0 : Int) < (g.gui_font.height : Int) := by exact_mod_cast hfont
          have h3 : dw * (g.gui_font.height : Int) < 0 := mul_neg_of_neg_of_pos h1 h2
          omega
        have hx0 := b1 hdw
        rcases le_or_lt x0 dw with hle | hgt
        · rw [max_eq_right hle] at f2
          omega
        · rw [max_eq_left (le_of_lt hgt)] at f2
          omega
  · simp at h

theorem draw_lines_fit (g : gui_state) (flags : text_flags) (dw : Int) (fg bg : Nat) :
    ∀ (fuel : Nat) (ptr : List Nat) (y : Int) (ls : List text_line) (yf : Int),
      draw_lines g flags dw fg bg fuel ptr y = some (ls, yf) →
      ∀ line ∈ ls,
        (∀ p ∈ line.glyphs, gui_glyph g p.chr = some p.glyph ∧ 0 ≤ p.x_offset ∧
          p.x_offset + (p.glyph.width : Int) ≤ dw) ∧
        (0 < g.gui_font.height → glyphs_width line.glyphs ≤ dw) := by
  intro fuel
  induction fuel with
  | zero =>
    intro ptr y ls yf h
    cases ptr with
    | nil =>
      simp only [draw_lines, Option.some.injEq, Prod.mk.injEq] at h
      obtain ⟨rfl, -⟩ := h
      simp
    | cons c ptr => simp [draw_lines] at h
  | succ fuel ih =>
    intro ptr y ls yf h
    cases ptr with
    | nil =>
      simp only [draw_lines, Option.some.injEq, Prod.mk.injEq] at h
      obtain ⟨rfl, -⟩ := h
      simp
    | cons c ptr =>
      simp only [draw_lines] at h
      cases hl : draw_line g flags dw (c :: ptr) with
      | none => simp [hl] at h
      | some r =>
        obtain ⟨gl, rest⟩ := r
        simp only [hl, Option.some_bind] at h
        have hfit := draw_line_fit g flags dw (c :: ptr) gl rest hl
        split at h
        · cases hr : draw_lines g flags dw fg bg fuel rest (y + (g.gui_font.height : Int)) with
          | none => simp [hr] at h
          | some r2 =>
            simp only [hr, Option.map_some', Option.some.injEq, Prod.mk.injEq] at h
            obtain ⟨rfl, -⟩ := h
            intro line hline
            simp only [List.mem_cons] at hline
            rcases hline with rfl | hline
            · exact hfit
            · exact ih rest _ r2.1 r2.2 hr line hline
        · simp only [Option.some.injEq, Prod.mk.injEq] at h
          obtain ⟨rfl, -⟩ := h
          intro line hline
          simp only [List.mem_singleton] at hline
          subst hline
          exact hfit

theorem text_draw_width_le (g : gui_state) (x_pos w : Int) : text_draw_width g x_pos w ≤ w := by
  simp only [text_draw_width]
  exact min_le_left _ _

/-- C1: on every output line of `rg_gui_draw_text` each glyph that is rendered (or
counted under the dummy-draw flag) is the glyph of its character and lies entirely
inside the line, between offset 0 and the draw width, which is the returned width
and at most the box width; and when the font height is positive the widths of the
glyphs of a line sum to at most the draw width, hence to at most the box width. -/
theorem draw_text_glyphs_fit (g : gui_state) (fuel : Nat) (x_pos y_pos width : Int)
    (text : Option (List Nat)) (color_fg color_bg : Nat) (flags : text_flags)
    (r : text_result)
    (h : rg_gui_draw_text g fuel x_pos y_pos width text color_fg color_bg flags = some r) :
    ∃ B, box_width g width text = some B ∧ r.rect.width = text_draw_width g x_pos B ∧
      r.rect.width ≤ B ∧
      ∀ line ∈ r.lines,
        (∀ p ∈ line.glyphs, gui_glyph g p.chr = some p.glyph ∧ 0 ≤ p.x_offset ∧
          p.x_offset + (p.glyph.width : Int) ≤ r.rect.width) ∧
        (0 < g.gui_font.height →
          glyphs_width line.glyphs ≤ r.rect.width ∧ glyphs_width line.glyphs ≤ B) := by
  simp only [rg_gui_draw_text] at h
  cases hb : box_width g width text with
  | none => simp [hb] at h
  | some B =>
    simp only [hb, Option.some_bind] at h
    cases hl : draw_lines g flags (text_draw_width g x_pos B) color_fg color_bg fuel
        (effective_text text) 0 with
    | none => simp [hl] at h
    | some res =>
      simp only [hl, Option.map_some', Option.some.injEq] at h
      subst h
      refine ⟨B, rfl, rfl, text_draw_width_le g x_pos B, ?_⟩
      intro line hline
      obtain ⟨a, b⟩ := draw_lines_fit g flags _ color_fg color_bg fuel _ 0 res.1 res.2 hl line hline
      refine ⟨a, fun hf => ⟨b hf, ?_⟩⟩
      have := text_draw_width_le g x_pos B
      have := b hf
      simp only at this ⊢
      omega

theorem rescale_width (font : rg_font_t) (points : Nat) (out : rg_glyph_t) :
    (rescale font points out).width = out.width := by
  simp only [rescale]
  split <;> rfl

theorem gui_glyph_newline (g : gui_state) (gl : rg_glyph_t) (h : gui_glyph g 10 = some gl) :
    gl.width = 0 := by
  simp only [gui_glyph, get_glyph, if_true, Option.bind_eq_bind, Option.some_bind,
    Option.some.injEq] at h
  rw [← h, rescale_width]

theorem draw_glyphs_consume (g : gui_state) (dw : Int) :
    ∀ (ptr : List Nat) (x : Int) (gl : List placed_glyph) (rest : List Nat),
      draw_glyphs g true dw ptr x = some (gl, rest) → line_chars gl ++ rest = ptr := by
  intro ptr
  induction ptr with
  | nil =>
    intro x gl rest h
    simp only [draw_glyphs] at h
    split at h
    · simp at h
    · simp only [Option.some.injEq, Prod.mk.injEq] at h
      obtain ⟨rfl, rfl⟩ := h
      rfl
  | cons chr ptr ih =>
    intro x gl rest h
    simp only [draw_glyphs] at h
    split at h
    · cases hg : gui_glyph g chr with
      | none => simp [hg] at h
      | some glyph =>
        simp only [hg, Option.some_bind] at h
        split at h
        · simp only [if_true, Option.some.injEq, Prod.mk.injEq] at h
          obtain ⟨rfl, rfl⟩ := h
          rfl
        · split at h
          · simp only [Option.some.injEq, Prod.mk.injEq] at h
            obtain ⟨rfl, rfl⟩ := h
            rfl
          · cases hr : draw_glyphs g true dw ptr (x + (glyph.width : Int)) with
            | none => simp [hr] at h
            | some r =>
              simp only [hr, Option.map_some', Option.some.injEq, Prod.mk.injEq] at h
              obtain ⟨rfl, rfl⟩ := h
              have := ih _ r.1 r.2 hr
              simp only [line_chars, List.map_cons, List.cons_append, List.cons.injEq, true_and]
              exact this
    · simp only [Option.some.injEq, Prod.mk.injEq] at h
      obtain ⟨rfl, rfl⟩ := h
      rfl

theorem draw_glyphs_cons (g : gui_state) (ml : Bool) (dw : Int) (chr : Nat) (ptr : List Nat)
    (x : Int) :
    draw_glyphs g ml dw (chr :: ptr) x =
      if x < dw then
        (gui_glyph g chr).bind fun gl =>
          if dw - x < (gl.width : Int) then
            some ([], if ml then chr :: ptr else ptr)
          else if ptr = [] ∨ ptr.head? = some 10 then
            some ([⟨x, chr, gl⟩], ptr)
          else
            (draw_glyphs g ml dw ptr (x + (gl.width : Int))).map
              fun r => (⟨x, chr, gl⟩ :: r.1, r.2)
      else some ([], chr :: ptr) := by
  simp only [draw_glyphs]

theorem draw_glyphs_progress (g : gui_state) (ml : Bool) (dw : Int) :
    ∀ (ptr : List Nat) (chr : Nat) (x : Int) (glyph : rg_glyph_t),
      (∀ c ∈ chr :: ptr, ∃ gl, gui_glyph g c = some gl) →
      gui_glyph g chr = some glyph → x < dw → (glyph.width : Int) ≤ dw - x →
      ∃ gl rest, draw_glyphs g ml dw (chr :: ptr) x = some (gl, rest) ∧ gl ≠ [] := by
  intro ptr
  induction ptr with
  | nil =>
    intro chr x glyph _ hg hx hw
    refine ⟨[⟨x, chr, glyph⟩], [], ?_, by simp⟩
    rw [draw_glyphs_cons]
    simp only [hx, if_true, hg, Option.some_bind]
    rw [if_neg (by omega)]
    simp
  | cons d ptr ih =>
    intro chr x glyph hall hg hx hw
    rw [draw_glyphs_cons]
    simp only [hx, if_true, hg, Option.some_bind]
    rw [if_neg (by omega)]
    by_cases hd : d = 10
    · subst hd
      exact ⟨[⟨x, chr, glyph⟩], 10 :: ptr, by simp, by simp⟩
    · have hne : ¬ (d :: ptr = [] ∨ (d :: ptr).head? = some 10) := by simp [hd]
      rw [if_neg hne]
      obtain ⟨gd, hgd⟩ := hall d (by simp)
      by_cases hx2 : x + (glyph.width : Int) < dw
      · by_cases hw2 : (gd.width : Int) ≤ dw - (x + (glyph.width : Int))
        · obtain ⟨gl, rest, h1, -⟩ := ih d (x + (glyph.width : Int)) gd
            (fun c hc => hall c (List.mem_cons_of_mem _ hc)) hgd hx2 hw2
          exact ⟨_, _, by rw [h1]; rfl, by simp⟩
        · refine ⟨[⟨x, chr, glyph⟩], if ml then d :: ptr else ptr, ?_, by simp⟩
          rw [draw_glyphs_cons]
          simp only [hx2, if_true, hgd, Option.some_bind]
          rw [if_pos (by omega)]
          rfl
      · refine ⟨[⟨x, chr, glyph⟩], d :: ptr, ?_, by simp⟩
        rw [draw_glyphs_cons]
        simp only [hx2, if_false]
        rfl

theorem line_text_width_total (g : gui_state) (dw : Int) :
    ∀ (line : List Nat) (x : Int), (∀ c ∈ line, ∃ gl, gui_glyph g c = some gl) →
      ∃ n, line_text_width g dw line x = some n := by
  intro line
  induction line with
  | nil => intro x _; exact ⟨x, rfl⟩
  | cons chr line ih =>
    intro x hall
    obtain ⟨gl, hgl⟩ := hall chr (by simp)
    simp only [line_text_width]
    split
    · simp only [hgl, Option.some_bind]
      split
      · exact ⟨x, rfl⟩
      · exact ih _ (fun c hc => hall c (List.mem_cons_of_mem _ hc))
    · exact ⟨x, rfl⟩

theorem line_text_width_first (g : gui_state) (dw : Int) (chr : Nat) (line : List Nat)
    (glyph : rg_glyph_t) (n : Int) (hg : gui_glyph g chr = some glyph) (hc : chr ≠ 10)
    (hdw : 0 < dw) (hw : (glyph.width : Int) ≤ dw)
    (h : line_text_width g dw (chr :: line) 0 = some n) : (glyph.width : Int) ≤ n := by
  simp only [line_text_width, hdw, hc, ne_eq, not_false_eq_true, and_self, if_true, hg,
    Option.some_bind, sub_zero, zero_add] at h
  rw [if_neg (by omega)] at h
  exact (line_text_width_bounds g dw line _ n h).1

theorem line_start_progress (g : gui_state) (flags : text_flags) (dw : Int) (chr : Nat)
    (ptr : List Nat) (glyph : rg_glyph_t)
    (hflags : flags.align_left = false ∨ flags.align_center = true)
    (hall : ∀ c ∈ chr :: ptr, ∃ gl, gui_glyph g c = some gl)
    (hg : gui_glyph g chr = some glyph) (hdw : 0 < dw) (hw : (glyph.width : Int) ≤ dw) :
    ∃ x0, line_start g flags dw (chr :: ptr) = some x0 ∧ x0 < dw ∧
      (glyph.width : Int) ≤ dw - x0 := by
  simp only [line_start]
  split
  · rename_i hal
    have hc : flags.align_center = true := by
      rcases hflags with h1 | h1
      · rcases hal with h2 | h2
        · rw [h1] at h2; exact absurd h2 (by simp)
        · exact h2
      · exact h1
    obtain ⟨n, hn⟩ := line_text_width_total g dw (chr :: ptr) 0 hall
    obtain ⟨a, b⟩ := line_text_width_bounds g dw (chr :: ptr) 0 n hn
    rw [max_eq_right (le_of_lt hdw)] at b
    refine ⟨Int.tdiv (dw - n) 2, by simp [hn, hc], ?_, ?_⟩
    · rw [Int.tdiv_eq_ediv (by omega) (by norm_num)]
      omega
    · rw [Int.tdiv_eq_ediv (by omega) (by norm_num)]
      by_cases h10 : chr = 10
      · subst h10
        have := gui_glyph_newline g glyph hg
        rw [this]
        simp only [Nat.cast_zero]
        omega
      · have := line_text_width_first g dw chr ptr glyph n hg h10 hdw hw hn
        omega
  · exact ⟨0, rfl, hdw, by omega⟩

theorem draw_line_progress (g : gui_state) (flags : text_flags) (dw : Int) (chr : Nat)
    (ptr : List Nat)
    (hflags : flags.align_left = false ∨ flags.align_center = true)
    (hall : glyphs_fit_width g dw (chr :: ptr)) (hdw : 0 < dw)
    (hcap : dw * (g.gui_font.height : Int) ≤ overlay_capacity g) :
    ∃ gl rest, draw_line g flags dw (chr :: ptr) = some (gl, rest) ∧ gl ≠ [] := by
  obtain ⟨glyph, hg, hw⟩ := hall chr (by simp)
  have hall2 : ∀ c ∈ chr :: ptr, ∃ gl, gui_glyph g c = some gl := fun c hc => by
    obtain ⟨gl, h1, -⟩ := hall c hc
    exact ⟨gl, h1⟩
  obtain ⟨x0, hx0, h1, h2⟩ := line_start_progress g flags dw chr ptr glyph hflags hall2 hg hdw hw
  obtain ⟨gl, rest, h3, h4⟩ :=
    draw_glyphs_progress g flags.multiline dw ptr chr x0 glyph hall2 hg h1 h2
  refine ⟨gl, rest, ?_, h4⟩
  have hp : 0 ≤ dw * (g.gui_font.height : Int) :=
    mul_nonneg (le_of_lt hdw) (Int.ofNat_nonneg _)
  simp only [draw_line, hp, hcap, and_self, if_true, hx0, Option.some_bind, h3]

theorem draw_line_consume (g : gui_state) (flags : text_flags) (dw : Int) (ptr : List Nat)
    (gl : List placed_glyph) (rest : List Nat) (hml : flags.multiline = true)
    (h : draw_line g flags dw ptr = some (gl, rest)) : line_chars gl ++ rest = ptr := by
  simp only [draw_line] at h
  split at h
  · cases hs : line_start g flags dw ptr with
    | none => simp [hs] at h
    | some x0 =>
      simp only [hs, Option.some_bind, hml] at h
      exact draw_glyphs_consume g dw ptr x0 gl rest h
  · simp at h

theorem draw_lines_multiline_total (g : gui_state) (flags : text_flags) (dw : Int)
    (fg bg : Nat) (hml : flags.multiline = true)
    (hflags : flags.align_left = false ∨ flags.align_center = true) (hdw : 0 < dw)
    (hcap : dw * (g.gui_font.height : Int) ≤ overlay_capacity g) :
    ∀ (fuel : Nat) (ptr : List Nat) (y : Int), ptr.length ≤ fuel →
      glyphs_fit_width g dw ptr →
      ∃ ls, draw_lines g flags dw fg bg fuel ptr y =
          some (ls, y + (ls.length : Int) * (g.gui_font.height : Int)) ∧
        lines_chars ls = ptr ∧ ∀ l ∈ ls, l.glyphs ≠ [] := by
  intro fuel
  induction fuel with
  | zero =>
    intro ptr y hlen _
    have : ptr = [] := List.length_eq_zero.mp (Nat.le_zero.mp hlen)
    subst this
    exact ⟨[], by simp [draw_lines], rfl, by simp⟩
  | succ fuel ih =>
    intro ptr y hlen hall
    cases ptr with
    | nil => exact ⟨[], by simp [draw_lines], rfl, by simp⟩
    | cons chr ptr =>
      obtain ⟨gl, rest, h1, h2⟩ := draw_line_progress g flags dw chr ptr hflags hall hdw hcap
      have h3 := draw_line_consume g flags dw (chr :: ptr) gl rest hml h1
      have hlen2 : rest.length ≤ fuel := by
        have h4 : (line_chars gl ++ rest).length = (chr :: ptr).length := by rw [h3]
        simp only [List.length_append, line_chars, List.length_map, List.length_cons] at h4 hlen
        have h5 : 0 < gl.length := List.length_pos.mpr h2
        omega
      have hall2 : glyphs_fit_width g dw rest := fun c hc =>
        hall c (by rw [← h3]; exact List.mem_append_right _ hc)
      obtain ⟨ls, h6, h7, h8⟩ := ih rest (y + (g.gui_font.height : Int)) hlen2 hall2
      refine ⟨⟨y, fg, bg, gl⟩ :: ls, ?_, ?_, ?_⟩
      · simp only [draw_lines, h1, Option.some_bind, hml, if_true, h6, Option.map_some',
          List.length_cons, Nat.cast_add, Nat.cast_one, Option.some.injEq, Prod.mk.injEq,
          true_and]
        ring
      · simp only [lines_chars, List.map_cons, List.flatten_cons] at h7 ⊢
        rw [h7, h3]
      · intro l hl
        simp only [List.mem_cons] at hl
        rcases hl with rfl | hl
        · exact h2
        · exact h8 l hl

theorem demo_gui_glyph (c : Nat) :
    ∃ gl, gui_glyph demo_gui c = some gl ∧ gl.width = if c = 10 then 0 else 8 := by
  by_cases h10 : c = 10
  · subst h10
    exact ⟨_, rfl, rfl⟩
  · by_cases hc : c < 128
    · have hrd : ∃ b, read_byte mono8_font.data (c * mono8_font.height + 0) = some b := by
        refine ⟨0xFF % 256, ?_⟩
        simp only [read_byte, mono8_font, mul_one, add_zero]
        rw [List.getElem?_replicate]
        simp [hc]
      obtain ⟨b, hb⟩ := hrd
      refine ⟨rescale mono8_font 8 ⟨8, 1, bitmap_set [] 0 b⟩, ?_, ?_⟩
      · have hch : c < mono8_font.chars := hc
        have e1 : copy_rows mono8_font c mono8_font.height 0 [] = some (bitmap_set [] 0 b) := by
          show copy_rows mono8_font c 1 0 [] = _
          simp only [copy_rows, hb, Option.some_bind]
        simp only [gui_glyph, get_glyph, demo_gui, h10, if_false, Option.bind_eq_bind]
        simp only [show mono8_font.type = 0 from rfl, if_true, hch, e1, Option.map_some',
          Option.some_bind]
        rfl
      · rw [rescale_width]
        simp [h10]
    · refine ⟨rescale mono8_font 8 ⟨8, 1, []⟩, ?_, ?_⟩
      · have hch : ¬ c < mono8_font.chars := hc
        simp only [gui_glyph, get_glyph, demo_gui, h10, if_false, Option.bind_eq_bind]
        simp only [show mono8_font.type = 0 from rfl, if_true, hch, if_false, Option.some_bind]
        rfl
      · rw [rescale_width]
        simp [h10]

theorem demo_gui_glyphs_fit (dw : Int) (hdw : 8 ≤ dw) (s : List Nat) :
    glyphs_fit_width demo_gui dw s := by
  intro c _
  obtain ⟨gl, h1, h2⟩ := demo_gui_glyph c
  refine ⟨gl, h1, ?_⟩
  rw [h2]
  split <;> simp <;> omega

/-- C2 (amended): with the multiline flag set, left alignment not in effect, a
positive draw width (the box width clamped to the screen edge) and every glyph of
the text no wider than the draw width, `rg_gui_draw_text` returns, and it consumes
the characters of the text (one space for an empty or null text) in order, each
exactly once: the characters placed on the successive lines, concatenated, equal
the text, and every line holds at least one glyph, so a glyph that did not fit
on a line is the first glyph of the next line. -/
theorem draw_text_multiline_consumes (g : gui_state) (fuel : Nat) (x_pos y_pos width : Int)
    (text : Option (List Nat)) (color_fg color_bg : Nat) (flags : text_flags) (B : Int)
    (hml : flags.multiline = true)
    (hflags : flags.align_left = false ∨ flags.align_center = true)
    (hB : box_width g width text = some B)
    (hdw : 0 < text_draw_width g x_pos B)
    (hfit : glyphs_fit_width g (text_draw_width g x_pos B) (effective_text text))
    (hcap : text_draw_width g x_pos B * (g.gui_font.height : Int) ≤ overlay_capacity g)
    (hfuel : (effective_text text).length ≤ fuel) :
    ∃ r, rg_gui_draw_text g fuel x_pos y_pos width text color_fg color_bg flags = some r ∧
      lines_chars r.lines = effective_text text ∧
      (∀ l ∈ r.lines, l.glyphs ≠ []) ∧
      r.rect.height = (r.lines.length : Int) * (g.gui_font.height : Int) := by
  obtain ⟨ls, h1, h2, h3⟩ := draw_lines_multiline_total g flags (text_draw_width g x_pos B)
    color_fg color_bg hml hflags hdw hcap fuel (effective_text text) 0 hfuel hfit
  have h4 : rg_gui_draw_text g fuel x_pos y_pos width text color_fg color_bg flags =
      some ⟨if x_pos < 0 then x_pos + g.screen_width else x_pos,
        if y_pos < 0 then y_pos + g.screen_height else y_pos,
        ⟨text_draw_width g x_pos B, 0 + (ls.length : Int) * (g.gui_font.height : Int)⟩, ls⟩ := by
    simp only [rg_gui_draw_text, hB, Option.some_bind, h1, Option.map_some']
  exact ⟨_, h4, h2, h3, by simp⟩

theorem draw_text_multiline_consumes_witness :
    ∃ r, rg_gui_draw_text demo_gui 5 0 0 20 (some [65, 66, 10, 67, 68]) 1 0 flags_multiline
        = some r ∧
      lines_chars r.lines = effective_text (some [65, 66, 10, 67, 68]) ∧
      (∀ l ∈ r.lines, l.glyphs ≠ []) ∧
      r.rect.height = (r.lines.length : Int) * (demo_gui.gui_font.height : Int) :=
  draw_text_multiline_consumes demo_gui 5 0 0 20 (some [65, 66, 10, 67, 68]) 1 0
    flags_multiline 20 rfl (Or.inl rfl) (by decide)
    (by simp [text_draw_width, demo_gui])
    (demo_gui_glyphs_fit _ (by simp [text_draw_width, demo_gui]) _)
    (by simp [text_draw_width, demo_gui, overlay_capacity]) (by decide)

theorem draw_lines_stuck (g : gui_state) (flags : text_flags) (dw : Int) (fg bg : Nat)
    (chr : Nat) (ptr : List Nat) (hml : flags.multiline = true)
    (h : draw_line g flags dw (chr :: ptr) = some ([], chr :: ptr)) :
    ∀ (fuel : Nat) (y : Int), draw_lines g flags dw fg bg fuel (chr :: ptr) y = none := by
  intro fuel
  induction fuel with
  | zero => intro y; rfl
  | succ fuel ih =>
    intro y
    simp only [draw_lines, h, Option.some_bind, hml, if_true, ih, Option.map_none']

set_option maxRecDepth 100000 in
/-- C2 (counterexample): three calls with the multiline flag in which every glyph
of the text is no wider than the box, none of which ever returns: the text
"\n" with width 0 (measured box width 0), the text "A" with box width 8
at `x_pos = 316` on the 320 pixel wide screen (draw width 4), and the text
"A\nB" with box width 16 under `RG_TEXT_ALIGN_LEFT`. -/
theorem draw_text_multiline_hangs :
    (box_width demo_gui 0 (some [10]) = some 0 ∧ glyphs_fit_width demo_gui 0 [10] ∧
      ∀ fuel, rg_gui_draw_text demo_gui fuel 0 0 0 (some [10]) 1 0 flags_multiline = none) ∧
    (box_width demo_gui 8 (some [65]) = some 8 ∧ glyphs_fit_width demo_gui 8 [65] ∧
      ∀ fuel, rg_gui_draw_text demo_gui fuel 316 0 8 (some [65]) 1 0 flags_multiline = none) ∧
    (box_width demo_gui 16 (some [65, 10, 66]) = some 16 ∧
      glyphs_fit_width demo_gui 16 [65, 10, 66] ∧
      ∀ fuel, rg_gui_draw_text demo_gui fuel 0 0 16 (some [65, 10, 66]) 1 0
        ⟨true, false, true, false⟩ = none) := by
  refine ⟨⟨by decide, ?_, ?_⟩, ⟨by decide, demo_gui_glyphs_fit 8 (le_refl _) _, ?_⟩,
    ⟨by decide, demo_gui_glyphs_fit 16 (by norm_num) _, ?_⟩⟩
  · intro c hc
    simp only [List.mem_singleton] at hc
    subst hc
    exact ⟨_, rfl, by decide⟩
  · intro fuel
    have h1 : box_width demo_gui 0 (some [10]) = some 0 := by decide
    have h2 : text_draw_width demo_gui 0 0 = 0 := by decide
    have h3 : effective_text (some [10]) = [10] := by decide
    have h4 : draw_line demo_gui flags_multiline 0 [10] = some ([], [10]) := by decide
    simp only [rg_gui_draw_text, h1, Option.some_bind, h2, h3,
      draw_lines_stuck demo_gui flags_multiline 0 1 0 10 [] rfl h4, Option.map_none']
  · intro fuel
    have h1 : box_width demo_gui 8 (some [65]) = some 8 := by decide
    have h2 : text_draw_width demo_gui 316 8 = 4 := by decide
    have h3 : effective_text (some [65]) = [65] := by decide
    have h4 : draw_line demo_gui flags_multiline 4 [65] = some ([], [65]) := by decide
    simp only [rg_gui_draw_text, h1, Option.some_bind, h2, h3,
      draw_lines_stuck demo_gui flags_multiline 4 1 0 65 [] rfl h4, Option.map_none']
  · intro fuel
    have h1 : box_width demo_gui 16 (some [65, 10, 66]) = some 16 := by decide
    have h2 : text_draw_width demo_gui 0 16 = 16 := by decide
    have h3 : effective_text (some [65, 10, 66]) = [65, 10, 66] := by decide
    have h4 : draw_line demo_gui ⟨true, false, true, false⟩ 16 [10, 66] = some ([], [10, 66]) := by
      decide
    have h5 : (draw_line demo_gui ⟨true, false, true, false⟩ 16 [65, 10, 66]).map Prod.snd
        = some [10, 66] := by decide
    simp only [rg_gui_draw_text, h1, Option.some_bind, h2, h3]
    cases fuel with
    | zero => rfl
    | succ fuel =>
      cases hd : draw_line demo_gui ⟨true, false, true, false⟩ 16 [65, 10, 66] with
      | none => simp [hd] at h5
      | some r =>
        obtain ⟨gl, rest⟩ := r
        simp only [hd, Option.map_some', Option.some.injEq] at h5
        subst h5
        simp only [draw_lines, hd, Option.some_bind, if_true,
          draw_lines_stuck demo_gui ⟨true, false, true, false⟩ 16 1 0 10 [66] rfl h4,
          Option.map_none']

theorem demo_draw_text_defined :
    ∃ r, rg_gui_draw_text demo_gui 5 0 0 20 (some [65, 66, 10, 67, 68]) 1 0 flags_multiline
      = some r := by
  obtain ⟨ls, h1, -⟩ := draw_lines_multiline_total demo_gui flags_multiline 20 1 0 rfl
    (Or.inl rfl) (by norm_num) (by simp [demo_gui, overlay_capacity]) 5 [65, 66, 10, 67, 68] 0
    (by simp) (demo_gui_glyphs_fit 20 (by norm_num) _)
  have hB : box_width demo_gui 20 (some [65, 66, 10, 67, 68]) = some 20 := by decide
  have hw : text_draw_width demo_gui 0 20 = 20 := by decide
  have he : effective_text (some [65, 66, 10, 67, 68]) = [65, 66, 10, 67, 68] := by decide
  simp only [rg_gui_draw_text, hB, Option.some_bind, hw, he, h1, Option.map_some']
  exact ⟨_, rfl⟩

theorem draw_text_glyphs_fit_witness :
    ∃ r, rg_gui_draw_text demo_gui 5 0 0 20 (some [65, 66, 10, 67, 68]) 1 0 flags_multiline
        = some r ∧
      ∃ B, box_width demo_gui 20 (some [65, 66, 10, 67, 68]) = some B ∧
        r.rect.width = text_draw_width demo_gui 0 B ∧ r.rect.width ≤ B ∧
        ∀ line ∈ r.lines,
          (∀ p ∈ line.glyphs, gui_glyph demo_gui p.chr = some p.glyph ∧ 0 ≤ p.x_offset ∧
            p.x_offset + (p.glyph.width : Int) ≤ r.rect.width) ∧
          (0 < demo_gui.gui_font.height →
            glyphs_width line.glyphs ≤ r.rect.width ∧ glyphs_width line.glyphs ≤ B) := by
  obtain ⟨r, h⟩ := demo_draw_text_defined
  exact ⟨r, h, draw_text_glyphs_fit demo_gui 5 0 0 20 (some [65, 66, 10, 67, 68]) 1 0
    flags_multiline r h⟩

theorem effective_text_ne_nil (text : Option (List Nat)) : effective_text text ≠ [] := by
  cases text with
  | none => simp [effective_text]
  | some t =>
    simp only [effective_text]
    split
    · simp
    · assumption

theorem draw_lines_height (g : gui_state) (flags : text_flags) (dw : Int) (fg bg : Nat) :
    ∀ (fuel : Nat) (ptr : List Nat) (y : Int) (ls : List text_line) (yf : Int),
      draw_lines g flags dw fg bg fuel ptr y = some (ls, yf) →
      yf = y + (ls.length : Int) * (g.gui_font.height : Int) ∧
      (ptr ≠ [] → 1 ≤ ls.length) ∧
      (flags.multiline = false → ptr ≠ [] → ls.length = 1) := by
  intro fuel
  induction fuel with
  | zero =>
    intro ptr y ls yf h
    cases ptr with
    | nil =>
      simp only [draw_lines, Option.some.injEq, Prod.mk.injEq] at h
      obtain ⟨rfl, rfl⟩ := h
      simp
    | cons c ptr => simp [draw_lines] at h
  | succ fuel ih =>
    intro ptr y ls yf h
    cases ptr with
    | nil =>
      simp only [draw_lines, Option.some.injEq, Prod.mk.injEq] at h
      obtain ⟨rfl, rfl⟩ := h
      simp
    | cons c ptr =>
      simp only [draw_lines] at h
      cases hl : draw_line g flags dw (c :: ptr) with
      | none => simp [hl] at h
      | some r =>
        simp only [hl, Option.some_bind] at h
        split at h
        · rename_i hml
          cases hr : draw_lines g flags dw fg bg fuel r.2 (y + (g.gui_font.height : Int)) with
          | none => simp [hr] at h
          | some r2 =>
            simp only [hr, Option.map_some', Option.some.injEq, Prod.mk.injEq] at h
            obtain ⟨rfl, rfl⟩ := h
            obtain ⟨h1, -, -⟩ := ih _ _ r2.1 r2.2 hr
            refine ⟨?_, by simp, ?_⟩
            · rw [h1]
              simp only [List.length_cons, Nat.cast_add, Nat.cast_one]
              ring
            · intro hf
              rw [hf] at hml
              exact absurd hml (by simp)
        · simp only [Option.some.injEq, Prod.mk.injEq] at h
          obtain ⟨rfl, rfl⟩ := h
          simp

theorem draw_glyphs_total (g : gui_state) (ml : Bool) (dw : Int) :
    ∀ (ptr : List Nat) (chr : Nat) (x : Int),
      (∀ c ∈ chr :: ptr, ∃ gl, gui_glyph g c = some gl) →
      ∃ res, draw_glyphs g ml dw (chr :: ptr) x = some res := by
  intro ptr
  induction ptr with
  | nil =>
    intro chr x hall
    obtain ⟨gl, hgl⟩ := hall chr (by simp)
    rw [draw_glyphs_cons]
    split
    · simp only [hgl, Option.some_bind]
      split
      · exact ⟨_, rfl⟩
      · simp
    · exact ⟨_, rfl⟩
  | cons d ptr ih =>
    intro chr x hall
    obtain ⟨gl, hgl⟩ := hall chr (by simp)
    rw [draw_glyphs_cons]
    split
    · simp only [hgl, Option.some_bind]
      split
      · exact ⟨_, rfl⟩
      · split
        · exact ⟨_, rfl⟩
        · obtain ⟨res, hres⟩ := ih d (x + (gl.width : Int))
            (fun c hc => hall c (List.mem_cons_of_mem _ hc))
          exact ⟨_, by rw [hres]; rfl⟩
    · exact ⟨_, rfl⟩

theorem measure_width_total (g : gui_state) :
    ∀ (s : List Nat) (lw w : Int), (∀ c ∈ s, ∃ gl, gui_glyph g c = some gl) →
      ∃ B, measure_width g s lw w = some B := by
  intro s
  induction s with
  | nil => intro lw w _; exact ⟨w, rfl⟩
  | cons c s ih =>
    intro lw w hall
    obtain ⟨gl, hgl⟩ := hall c (by simp)
    simp only [measure_width, hgl, Option.some_bind]
    split
    · exact ih _ _ (fun c hc => hall c (List.mem_cons_of_mem _ hc))
    · exact ih _ _ (fun c hc => hall c (List.mem_cons_of_mem _ hc))

theorem draw_text_single_line_total (g : gui_state) (fuel : Nat) (x_pos y_pos width : Int)
    (text : Option (List Nat)) (fg bg : Nat) (flags : text_flags) (B : Int)
    (hml : flags.multiline = false) (hfuel : 0 < fuel)
    (hall : ∀ c ∈ effective_text text, ∃ gl, gui_glyph g c = some gl)
    (hB : box_width g width text = some B)
    (hcap : 0 ≤ text_draw_width g x_pos B * (g.gui_font.height : Int) ∧
      text_draw_width g x_pos B * (g.gui_font.height : Int) ≤ overlay_capacity g) :
    ∃ r, rg_gui_draw_text g fuel x_pos y_pos width text fg bg flags = some r := by
  have hne := effective_text_ne_nil text
  cases hs : effective_text text with
  | nil => exact absurd hs hne
  | cons chr ptr =>
    rw [hs] at hall
    obtain ⟨n, hn⟩ := line_text_width_total g (text_draw_width g x_pos B) (chr :: ptr) 0 hall
    have hstart : ∃ x0, line_start g flags (text_draw_width g x_pos B) (chr :: ptr) = some x0 := by
      simp only [line_start]
      split
      · exact ⟨_, by rw [hn]; rfl⟩
      · exact ⟨_, rfl⟩
    obtain ⟨x0, hx0⟩ := hstart
    obtain ⟨res, hres⟩ := draw_glyphs_total g flags.multiline (text_draw_width g x_pos B) ptr chr
      x0 hall
    obtain ⟨k, rfl⟩ : ∃ k, fuel = k + 1 := ⟨fuel - 1, by omega⟩
    rw [hml] at hres
    simp only [rg_gui_draw_text, hB, Option.some_bind, hs, draw_lines, draw_line, hcap, and_self,
      if_true, hx0, hres, hml, Bool.false_eq_true, if_false, Option.map_some']
    exact ⟨_, rfl⟩

set_option maxRecDepth 100000 in
/-- C5 (amended): whenever `rg_gui_draw_text` returns, the rectangle is
`(min B (screen_width - x), L * fontHeight)`, where `B` is the box width (the
requested width, or the measured width when 0 was requested), `x` is `x_pos`
taken screen-relative when negative, and `L` is the number of lines; without the
multiline flag `L` is 1 whatever the text, and the call does return (for any
positive fuel) as soon as every character of the text has a glyph and the
cleared area fits the compose buffer; and the text "AB\nCD" drawn with the
multiline flag at an 8-pixel line height gives two lines and height 16. -/
theorem draw_text_rect (g : gui_state) (fuel : Nat) (x_pos y_pos width : Int)
    (text : Option (List Nat)) (color_fg color_bg : Nat) (flags : text_flags) :
    (∀ r, rg_gui_draw_text g fuel x_pos y_pos width text color_fg color_bg flags = some r →
      ∃ B, box_width g width text = some B ∧
        r.rect = ⟨min B (g.screen_width - (if x_pos < 0 then x_pos + g.screen_width else x_pos)),
          (r.lines.length : Int) * (g.gui_font.height : Int)⟩ ∧
        1 ≤ r.lines.length ∧
        (flags.multiline = false → r.lines.length = 1)) ∧
    (flags.multiline = false → 0 < fuel →
      (∀ c ∈ effective_text text, ∃ gl, gui_glyph g c = some gl) →
      (∀ B, box_width g width text = some B →
        0 ≤ text_draw_width g x_pos B * (g.gui_font.height : Int) ∧
        text_draw_width g x_pos B * (g.gui_font.height : Int) ≤ overlay_capacity g) →
      ∃ r, rg_gui_draw_text g fuel x_pos y_pos width text color_fg color_bg flags = some r ∧
        r.lines.length = 1 ∧ r.rect.height = (g.gui_font.height : Int)) ∧
    (rg_gui_draw_text demo_gui 2 0 0 0 (some [65, 66, 10, 67, 68]) 1 0 flags_multiline).map
      (fun r => (r.rect, r.lines.length)) = some (⟨16, 16⟩, 2) := by
  have part1 : ∀ r,
      rg_gui_draw_text g fuel x_pos y_pos width text color_fg color_bg flags = some r →
      ∃ B, box_width g width text = some B ∧
        r.rect = ⟨min B (g.screen_width - (if x_pos < 0 then x_pos + g.screen_width else x_pos)),
          (r.lines.length : Int) * (g.gui_font.height : Int)⟩ ∧
        1 ≤ r.lines.length ∧
        (flags.multiline = false → r.lines.length = 1) := by
    intro r h
    simp only [rg_gui_draw_text] at h
    cases hb : box_width g width text with
    | none => simp [hb] at h
    | some B =>
      simp only [hb, Option.some_bind] at h
      cases hl : draw_lines g flags (text_draw_width g x_pos B) color_fg color_bg fuel
          (effective_text text) 0 with
      | none => simp [hl] at h
      | some res =>
        simp only [hl, Option.map_some', Option.some.injEq] at h
        subst h
        obtain ⟨h1, h2, h3⟩ := draw_lines_height g flags _ color_fg color_bg fuel _ 0 res.1 res.2 hl
        refine ⟨B, rfl, ?_, h2 (effective_text_ne_nil text),
          fun hf => h3 hf (effective_text_ne_nil text)⟩
        simp only [text_draw_width, h1, zero_add]
  refine ⟨part1, ?_, by decide⟩
  intro hml hfuel hall hcap
  obtain ⟨B, hB⟩ : ∃ B, box_width g width text = some B := by
    simp only [box_width]
    split
    · exact measure_width_total g _ _ _ hall
    · exact ⟨_, rfl⟩
  obtain ⟨r, hr⟩ := draw_text_single_line_total g fuel x_pos y_pos width text color_fg color_bg
    flags B hml hfuel hall hB (hcap B hB)
  obtain ⟨B2, -, h2, -, h4⟩ := part1 r hr
  refine ⟨r, hr, h4 hml, ?_⟩
  rw [h2, h4 hml]
  simp

set_option maxRecDepth 100000 in
theorem draw_text_rect_witness :
    ∃ r, rg_gui_draw_text demo_gui 1 0 0 0 none 1 0 flags_none = some r ∧
      r.lines.length = 1 ∧ r.rect.height = (demo_gui.gui_font.height : Int) :=
  (draw_text_rect demo_gui 1 0 0 0 none 1 0 flags_none).2.1 rfl (by decide)
    (fun c _ => (demo_gui_glyph c).imp fun _ h => h.1)
    (by
      intro B hB
      have h8 : box_width demo_gui 0 none = some 8 := by decide
      rw [h8] at hB
      simp only [Option.some.injEq] at hB
      subst hB
      decide)

set_option maxRecDepth 100000 in
/-- C5 (counterexample): on the 320 pixel wide screen the text "A" drawn at
`x_pos = 316` with box width 8 returns the rectangle (4, 8): the returned width
is the draw width 4, not the box width 8. -/
theorem draw_text_rect_clamped :
    box_width demo_gui 8 (some [65]) = some 8 ∧
    (rg_gui_draw_text demo_gui 1 316 0 8 (some [65]) 1 0 flags_none).map (fun r => r.rect)
      = some ⟨4, 8⟩ := by
  decide

theorem glyph_width_of_eq (g : gui_state) (c : Nat) (gl : rg_glyph_t)
    (h : gui_glyph g c = some gl) : glyph_width_of g c = (gl.width : Int) := by
  simp only [glyph_width_of, h]

theorem glyph_width_of_nonneg (g : gui_state) (c : Nat) : 0 ≤ glyph_width_of g c := by
  simp only [glyph_width_of]
  split
  · exact Int.ofNat_nonneg _
  · exact le_refl _

theorem line_width_sum_nonneg (g : gui_state) (l : List Nat) : 0 ≤ line_width_sum g l := by
  induction l with
  | nil => simp [line_width_sum]
  | cons c l ih =>
    simp only [line_width_sum, List.map_cons, List.sum_cons] at ih ⊢
    have := glyph_width_of_nonneg g c
    omega

theorem measure_width_acc (g : gui_state) :
    ∀ (s : List Nat) (lw w : Int), (∀ c ∈ s, ∃ gl, gui_glyph g c = some gl) → 0 ≤ lw →
      s ≠ [] → measure_width g s lw w = some (max w (measure_acc g lw s)) := by
  intro s
  induction s with
  | nil => intro lw w _ _ h; exact absurd rfl h
  | cons c s ih =>
    intro lw w hall hlw _
    obtain ⟨gl, hgl⟩ := hall c (by simp)
    have hw := glyph_width_of_eq g c gl hgl
    have hall2 : ∀ c ∈ s, ∃ gl, gui_glyph g c = some gl :=
      fun c hc => hall c (List.mem_cons_of_mem _ hc)
    simp only [measure_width, hgl, Option.some_bind]
    by_cases h10 : c = 10
    · subst h10
      have hz : gl.width = 0 := gui_glyph_newline g gl hgl
      simp only [hz, Nat.cast_zero, add_zero, true_or, if_true, measure_acc]
      cases s with
      | nil =>
        simp only [measure_width, measure_acc, Option.some.injEq]
        rw [max_eq_left hlw, max_comm]
      | cons d s =>
        rw [ih 0 (max lw w) hall2 (le_refl _) (by simp)]
        congr 1
        rw [max_comm lw w, max_assoc]
    · cases s with
      | nil =>
        simp only [h10, or_true, if_true, measure_width, measure_acc, if_false, hw,
          Option.some.injEq]
        rw [max_comm]
      | cons d s =>
        have hne : ¬ (c = 10 ∨ d :: s = []) := by simp [h10]
        rw [if_neg hne, ih _ w hall2 (by have := Int.ofNat_nonneg gl.width; omega) (by simp)]
        simp only [measure_acc, h10, if_false, hw]

theorem measure_acc_split (g : gui_state) :
    ∀ (s : List Nat) (lw : Int), 0 ≤ lw →
      measure_acc g lw s =
        match split_lines s with
        | [] => lw
        | l :: ls => max (lw + line_width_sum g l) ((ls.map (line_width_sum g)).foldr max 0) := by
  intro s
  induction s with
  | nil =>
    intro lw hlw
    simp only [measure_acc, split_lines, line_width_sum, List.map_nil, List.sum_nil, add_zero,
      List.foldr_nil]
    rw [max_eq_left hlw]
  | cons c s ih =>
    intro lw hlw
    by_cases h10 : c = 10
    · subst h10
      simp only [measure_acc, split_lines, if_true]
      have h0 := ih 0 (le_refl _)
      rw [h0]
      cases hs : split_lines s with
      | nil =>
        simp only [line_width_sum, List.map_nil, List.sum_nil, add_zero, List.foldr_nil]
      | cons l ls =>
        simp only [line_width_sum, List.map_nil, List.sum_nil, add_zero, List.map_cons,
          List.foldr_cons, zero_add]
    · simp only [measure_acc, split_lines, h10, if_false]
      have h1 := ih (lw + glyph_width_of g c) (by have := glyph_width_of_nonneg g c; omega)
      rw [h1]
      cases hs : split_lines s with
      | nil =>
        simp only [line_width_sum, List.map_cons, List.map_nil, List.sum_cons, List.sum_nil,
          add_zero, List.foldr_nil]
        have := glyph_width_of_nonneg g c
        rw [max_eq_left (by omega)]
      | cons l ls =>
        simp only [line_width_sum, List.map_cons, List.sum_cons, add_assoc]

theorem max_line_width_eq_acc (g : gui_state) (s : List Nat) :
    max_line_width g s = measure_acc g 0 s := by
  rw [measure_acc_split g s 0 (le_refl _)]
  simp only [max_line_width]
  cases split_lines s with
  | nil => rfl
  | cons l ls => simp only [List.map_cons, List.foldr_cons, zero_add]

theorem max_line_width_nonneg (g : gui_state) (s : List Nat) : 0 ≤ max_line_width g s := by
  simp only [max_line_width]
  cases split_lines s with
  | nil => simp
  | cons l ls =>
    simp only [List.map_cons, List.foldr_cons]
    exact le_trans (line_width_sum_nonneg g l) (le_max_left _ _)

set_option maxRecDepth 100000 in
/-- C6 (amended): when `rg_gui_draw_text` is called with width 0 and every character
of the text has a glyph, the box width it uses is the maximum, over the lines of
the text split at newline characters, of the sum of that line's glyph widths,
where an empty or null text is first replaced by a single space; for "AB\nCD" in
the monospaced 8-pixel-wide font this is 16. -/
theorem box_width_measured (g : gui_state) (text : Option (List Nat))
    (hall : ∀ c ∈ effective_text text, ∃ gl, gui_glyph g c = some gl) :
    box_width g 0 text = some (max_line_width g (effective_text text)) ∧
    box_width demo_gui 0 (some [65, 66, 10, 67, 68]) = some 16 := by
  refine ⟨?_, by decide⟩
  simp only [box_width, if_true]
  rw [measure_width_acc g _ 0 0 hall (le_refl _) (effective_text_ne_nil text),
    ← max_line_width_eq_acc, max_eq_right (max_line_width_nonneg g _)]

theorem box_width_measured_witness :
    box_width demo_gui 0 (some [65, 66, 10, 67, 68])
      = some (max_line_width demo_gui (effective_text (some [65, 66, 10, 67, 68]))) ∧
    box_width demo_gui 0 (some [65, 66, 10, 67, 68]) = some 16 :=
  box_width_measured demo_gui (some [65, 66, 10, 67, 68])
    (fun c _ => (demo_gui_glyph c).imp fun _ h => h.1)

set_option maxRecDepth 100000 in
/-- C6 (counterexample): for the empty text (and for a null text) the box width
used with width 0 is 8, the width of one space, while the maximum over the lines
of the text of the summed glyph widths is 0. -/
theorem box_width_empty_text :
    box_width demo_gui 0 (some []) = some 8 ∧ box_width demo_gui 0 none = some 8 ∧
    max_line_width demo_gui [] = 0 := by
  decide

/-! ## Theorems: dialog navigation -/

theorem option_at_set_flags {σ : Type} (options : List (rg_gui_option_t σ)) (k : Int)
    (o o2 : rg_gui_option_t σ) (hk : option_at options k = some o) (hf : o2.flags = o.flags)
    (i : Int) : row_flags (options.set k.toNat o2) i = row_flags options i := by
  simp only [row_flags, option_at] at hk ⊢
  by_cases hi : 0 ≤ i
  · by_cases hkk : 0 ≤ k
    · simp only [hi, hkk, if_true] at hk ⊢
      by_cases hik : k.toNat = i.toNat
      · rw [hik] at hk ⊢
        have hlt : i.toNat < options.length := by
          rcases Nat.lt_or_ge i.toNat options.length with h | h
          · exact h
          · rw [List.getElem?_eq_none h] at hk
            exact absurd hk (by simp)
        rw [List.getElem?_set_self hlt, hk]
        simp [hf]
      · rw [List.getElem?_set_ne hik]
    · simp [hkk] at hk
  · simp [hi]

theorem option_at_set_id {σ : Type} (options : List (rg_gui_option_t σ)) (k : Int)
    (o o2 : rg_gui_option_t σ) (hk : option_at options k = some o) (hf : o2.id = o.id)
    (i : Int) : row_id (options.set k.toNat o2) i = row_id options i := by
  simp only [row_id, option_at] at hk ⊢
  by_cases hi : 0 ≤ i
  · by_cases hkk : 0 ≤ k
    · simp only [hi, hkk, if_true] at hk ⊢
      by_cases hik : k.toNat = i.toNat
      · rw [hik] at hk ⊢
        have hlt : i.toNat < options.length := by
          rcases Nat.lt_or_ge i.toNat options.length with h | h
          · exact h
          · rw [List.getElem?_eq_none h] at hk
            exact absurd hk (by simp)
        rw [List.getElem?_set_self hlt, hk]
        simp [hf]
      · rw [List.getElem?_set_ne hik]
    · simp [hkk] at hk
  · simp [hi]

theorem invoke_cb_fields {σ : Type} (st : dialog_state σ) (o : rg_gui_option_t σ)
    (key : rg_key_t) (ev nc : rg_gui_event_t) (ho : option_at st.options st.sel = some o) :
    (invoke_cb st o key ev nc).1.sel = st.sel ∧
    (invoke_cb st o key ev nc).1.options_count = st.options_count ∧
    (invoke_cb st o key ev nc).1.frames = st.frames ∧
    (invoke_cb st o key ev nc).1.last_key = some key ∧
    (invoke_cb st o key ev nc).1.options.length = st.options.length ∧
    (∀ i, row_flags (invoke_cb st o key ev nc).1.options i = row_flags st.options i) ∧
    ((invoke_cb st o key ev nc).1.sel_old = st.sel_old ∨
      ((invoke_cb st o key ev nc).1.sel_old = -1 ∧
        row_flags st.options st.sel = some o.flags)) ∧
    (∀ i, row_id (invoke_cb st o key ev nc).1.options i = row_id st.options i) ∧
    (o.update_cb = none →
      invoke_cb st o key ev nc = ({ st with last_key := some key }, nc)) ∧
    (∀ cb, o.update_cb = some cb →
      (invoke_cb st o key ev nc).2 = (cb st.world (row_of o) ev).2.1) := by
  simp only [invoke_cb]
  cases hcb : o.update_cb with
  | none => simp
  | some cb =>
    simp only [List.length_set, true_and]
    refine ⟨?_, Or.inr (by simp [row_flags, ho]), ?_, by simp, by simp⟩
    · intro i
      refine option_at_set_flags st.options st.sel o _ ho ?_ i
      rfl
    · intro i
      refine option_at_set_id st.options st.sel o _ ho ?_ i
      rfl

theorem skip_walk_succ {σ : Type} (F : rg_dialog_flags) (options : List (rg_gui_option_t σ))
    (N : Int) (lk : Option rg_key_t) (so : Int) (fuel : Nat) (sel : Int) :
    skip_walk F options N lk so (fuel + 1) sel =
      match row_flags options sel with
      | none => none
      | some f =>
        if f = F.RG_DIALOG_FLAG_SKIP ∧ so ≠ sel then
          skip_walk F options N lk so fuel
            (next_sel N (decide (lk = some rg_key_t.RG_KEY_DOWN)) sel)
        else some sel := by
  simp only [skip_walk, row_flags, next_sel]
  cases option_at options sel with
  | none => rfl
  | some o =>
    simp only [Option.map_some']
    by_cases hd : lk = some rg_key_t.RG_KEY_DOWN <;> simp [hd]

theorem next_sel_range (N : Int) (down : Bool) (sel : Int) (hN : 1 ≤ N)
    (h : 0 ≤ sel ∧ sel < N) : 0 ≤ next_sel N down sel ∧ next_sel N down sel < N := by
  simp only [next_sel]
  cases down <;> simp only [Bool.false_eq_true, if_false, if_true] <;>
    split <;> split <;> omega

theorem next_sel_iterate (N : Int) (down : Bool) (sel : Int) (hN : 1 ≤ N)
    (h : 0 ≤ sel ∧ sel < N) :
    ∀ k : Nat, (k : Int) ≤ N →
      (next_sel N down)^[k] sel =
        if down then (if sel + k < N then sel + k else sel + k - N)
        else (if (k : Int) ≤ sel then sel - k else sel - k + N) := by
  intro k
  induction k with
  | zero =>
    intro _
    cases down <;> simp <;> omega
  | succ k ih =>
    intro hk
    rw [Function.iterate_succ_apply', ih (by push_cast at hk; omega)]
    simp only [next_sel]
    push_cast at hk ⊢
    cases down
    · simp only [Bool.false_eq_true, if_false]
      split <;> split <;> split <;> split <;> omega
    · simp only [if_true]
      split <;> split <;> split <;> split <;> omega

theorem row_flags_defined {σ : Type} (options : List (rg_gui_option_t σ)) (N : Int)
    (hlen : N ≤ options.length) (i : Int) (hi : 0 ≤ i ∧ i < N) :
    ∃ f, row_flags options i = some f := by
  simp only [row_flags, option_at, hi.1, if_true]
  have hlt : i.toNat < options.length := by omega
  rw [List.getElem?_eq_getElem hlt]
  exact ⟨_, rfl⟩

theorem skip_walk_follow {σ : Type} (F : rg_dialog_flags) (options : List (rg_gui_option_t σ))
    (N : Int) (lk : Option rg_key_t) (so : Int) :
    ∀ (m fuel : Nat) (sel : Int), m < fuel →
      (∀ k < m, row_flags options
          ((next_sel N (decide (lk = some rg_key_t.RG_KEY_DOWN)))^[k] sel)
          = some F.RG_DIALOG_FLAG_SKIP ∧
        so ≠ (next_sel N (decide (lk = some rg_key_t.RG_KEY_DOWN)))^[k] sel) →
      (∃ f, row_flags options ((next_sel N (decide (lk = some rg_key_t.RG_KEY_DOWN)))^[m] sel)
          = some f ∧
        ¬ (f = F.RG_DIALOG_FLAG_SKIP ∧
          so ≠ (next_sel N (decide (lk = some rg_key_t.RG_KEY_DOWN)))^[m] sel)) →
      skip_walk F options N lk so fuel sel
        = some ((next_sel N (decide (lk = some rg_key_t.RG_KEY_DOWN)))^[m] sel) := by
  intro m
  induction m with
  | zero =>
    intro fuel sel hf _ hstop
    obtain ⟨fuel, rfl⟩ : ∃ n, fuel = n + 1 := ⟨fuel - 1, by omega⟩
    obtain ⟨f, h1, h2⟩ := hstop
    simp only [Function.iterate_zero, id_eq] at h1 h2
    rw [skip_walk_succ, h1]
    simp only [Function.iterate_zero, id_eq]
    rw [if_neg h2]
  | succ m ih =>
    intro fuel sel hf hskip hstop
    obtain ⟨fuel, rfl⟩ : ∃ n, fuel = n + 1 := ⟨fuel - 1, by omega⟩
    have h0 := hskip 0 (Nat.succ_pos m)
    simp only [Function.iterate_zero, id_eq] at h0
    rw [skip_walk_succ, h0.1]
    simp only
    rw [if_pos ⟨trivial, h0.2⟩, Function.iterate_succ_apply]
    apply ih fuel _ (by omega)
    · intro k hk
      have := hskip (k + 1) (by omega)
      rw [Function.iterate_succ_apply] at this
      exact this
    · rw [Function.iterate_succ_apply] at hstop
      exact hstop

theorem next_sel_iterate_range (N : Int) (down : Bool) (hN : 1 ≤ N) :
    ∀ (k : Nat) (sel : Int), 0 ≤ sel ∧ sel < N →
      0 ≤ (next_sel N down)^[k] sel ∧ (next_sel N down)^[k] sel < N := by
  intro k
  induction k with
  | zero => intro sel h; exact h
  | succ k ih =>
    intro sel h
    rw [Function.iterate_succ_apply]
    exact ih _ (next_sel_range N down sel hN h)

theorem next_sel_reach (N : Int) (down : Bool) (sel t : Int) (hN : 1 ≤ N)
    (hsel : 0 ≤ sel ∧ sel < N) (ht : 0 ≤ t ∧ t < N) :
    ∃ K : Nat, (K : Int) < N ∧ (next_sel N down)^[K] sel = t := by
  cases down with
  | false =>
    refine ⟨(if t ≤ sel then sel - t else sel - t + N).toNat, ?_, ?_⟩
    · split <;> omega
    · rw [next_sel_iterate N false sel hN hsel _ (by split <;> omega)]
      simp only [Bool.false_eq_true, if_false]
      split <;> split <;> omega
  | true =>
    refine ⟨(if sel ≤ t then t - sel else t - sel + N).toNat, ?_, ?_⟩
    · split <;> omega
    · rw [next_sel_iterate N true sel hN hsel _ (by split <;> omega)]
      simp only [if_true]
      split <;> split <;> omega

theorem next_sel_return (N : Int) (down : Bool) (so : Int) (hN : 1 ≤ N)
    (hso : 0 ≤ so ∧ so < N) (m : Nat) (hm : (m : Int) < N)
    (h : (next_sel N down)^[m] (next_sel N down so) = so) : (m : Int) = N - 1 := by
  rw [next_sel_iterate N down _ hN (next_sel_range N down so hN hso) m (le_of_lt hm)] at h
  simp only [next_sel] at h
  cases down
  · simp only [Bool.false_eq_true, if_false] at h
    split at h <;> split at h <;> split at h <;> omega
  · simp only [if_true] at h
    split at h <;> split at h <;> split at h <;> omega

theorem skip_walk_rests {σ : Type} (F : rg_dialog_flags) (options : List (rg_gui_option_t σ))
    (N : Int) (lk : Option rg_key_t) (so : Int) (fuel : Nat) (sel : Int)
    (hN : 1 ≤ N) (hlen : N ≤ options.length) (hsel : 0 ≤ sel ∧ sel < N)
    (hfuel : N ≤ fuel)
    (ht : ∃ t f, 0 ≤ t ∧ t < N ∧ row_flags options t = some f ∧ f ≠ F.RG_DIALOG_FLAG_SKIP)
    (hso : so < 0 ∨ N ≤ so ∨
      sel = next_sel N (decide (lk = some rg_key_t.RG_KEY_DOWN)) so) :
    ∃ s f, skip_walk F options N lk so fuel sel = some s ∧ 0 ≤ s ∧ s < N ∧
      row_flags options s = some f ∧ f ≠ F.RG_DIALOG_FLAG_SKIP := by
  classical
  obtain ⟨t, ft, ht0, htN, htf, htskip⟩ := ht
  obtain ⟨K, hKN, hK⟩ :=
    next_sel_reach N (decide (lk = some rg_key_t.RG_KEY_DOWN)) sel t hN hsel ⟨ht0, htN⟩
  have hP : ∃ k, ∃ f,
      row_flags options ((next_sel N (decide (lk = some rg_key_t.RG_KEY_DOWN)))^[k] sel)
        = some f ∧
      ¬ (f = F.RG_DIALOG_FLAG_SKIP ∧
        so ≠ (next_sel N (decide (lk = some rg_key_t.RG_KEY_DOWN)))^[k] sel) :=
    ⟨K, ft, by rw [hK]; exact htf, fun h => htskip h.1⟩
  have hmK : Nat.find hP ≤ K :=
    Nat.find_min' hP ⟨ft, by rw [hK]; exact htf, fun h => htskip h.1⟩
  have hstop := Nat.find_spec hP
  have hbefore : ∀ k < Nat.find hP,
      row_flags options ((next_sel N (decide (lk = some rg_key_t.RG_KEY_DOWN)))^[k] sel)
        = some F.RG_DIALOG_FLAG_SKIP ∧
      so ≠ (next_sel N (decide (lk = some rg_key_t.RG_KEY_DOWN)))^[k] sel := by
    intro k hk
    have hnot := Nat.find_min hP hk
    obtain ⟨f, hf⟩ := row_flags_defined options N hlen _
      (next_sel_iterate_range N (decide (lk = some rg_key_t.RG_KEY_DOWN)) hN k sel hsel)
    by_contra hcon
    apply hnot
    refine ⟨f, hf, fun h => hcon ?_⟩
    rw [hf, h.1]
    exact ⟨rfl, h.2⟩
  have hwalk := skip_walk_follow F options N lk so (Nat.find hP) fuel sel (by omega) hbefore hstop
  obtain ⟨f, hf, hnf⟩ := hstop
  have hrange := next_sel_iterate_range N (decide (lk = some rg_key_t.RG_KEY_DOWN)) hN
    (Nat.find hP) sel hsel
  refine ⟨_, f, hwalk, hrange.1, hrange.2, hf, ?_⟩
  intro hskip
  have hso2 : so = (next_sel N (decide (lk = some rg_key_t.RG_KEY_DOWN)))^[Nat.find hP] sel := by
    by_contra hne
    exact hnf ⟨hskip, hne⟩
  rcases hso with h | h | h
  · omega
  · omega
  · have hsor : 0 ≤ so ∧ so < N := by rw [hso2]; exact hrange
    have e1 : (next_sel N (decide (lk = some rg_key_t.RG_KEY_DOWN)))^[Nat.find hP]
        (next_sel N (decide (lk = some rg_key_t.RG_KEY_DOWN)) so) = so := by
      rw [← h]
      exact hso2.symm
    have hm := next_sel_return N _ so hN hsor (Nat.find hP) (by omega) e1
    have hKm : K = Nat.find hP := by omega
    have e2 : (next_sel N (decide (lk = some rg_key_t.RG_KEY_DOWN)))^[Nat.find hP] sel = t := by
      rw [← hKm]
      exact hK
    rw [e2, htf] at hf
    simp only [Option.some.injEq] at hf
    exact htskip (hf.trans hskip)

open rg_key_t rg_gui_event_t in
theorem dialog_move_fields {σ : Type} (st : dialog_state σ) (j : List rg_key_t) :
    (dialog_move st j).1.sel =
      (if RG_KEY_UP ∈ j then sel_up st.options_count st.sel
       else if RG_KEY_DOWN ∈ j then sel_down st.options_count st.sel else st.sel) ∧
    (dialog_move st j).1.options = st.options ∧
    (dialog_move st j).1.options_count = st.options_count ∧
    (dialog_move st j).1.frames = st.frames ∧
    (dialog_move st j).1.sel_old = st.sel_old ∧
    (dialog_move st j).1.world = st.world ∧
    (RG_KEY_UP ∈ j → (dialog_move st j).1.last_key = some RG_KEY_UP) ∧
    (RG_KEY_UP ∉ j → RG_KEY_DOWN ∈ j → (dialog_move st j).1.last_key = some RG_KEY_DOWN) ∧
    (RG_KEY_UP ∈ j ∨ RG_KEY_DOWN ∈ j → (dialog_move st j).2 = RG_DIALOG_VOID) ∧
    (RG_KEY_UP ∉ j → RG_KEY_DOWN ∉ j →
      (RG_KEY_B ∈ j ∨ RG_KEY_OPTION ∈ j ∨ RG_KEY_MENU ∈ j) →
      (dialog_move st j).2 = RG_DIALOG_DISMISS ∧ (dialog_move st j).1.last_key ≠ none) := by
  simp only [dialog_move, sel_up, sel_down]
  by_cases hu : RG_KEY_UP ∈ j
  · simp [hu]
  · by_cases hd : RG_KEY_DOWN ∈ j
    · simp [hu, hd]
    · by_cases hb : RG_KEY_B ∈ j
      · simp [hu, hd, hb]
      · by_cases ho : RG_KEY_OPTION ∈ j
        · simp [hu, hd, hb, ho]
        · by_cases hm : RG_KEY_MENU ∈ j
          · simp [hu, hd, hb, ho, hm]
          · simp [hu, hd, hb, ho, hm]

open rg_key_t rg_gui_event_t in
theorem dialog_action_spec {σ : Type} (F : rg_dialog_flags) (st : dialog_state σ)
    (sel0 : rg_gui_event_t) (j : List rg_key_t) (o : rg_gui_option_t σ)
    (ho : option_at st.options st.sel = some o) :
    ∃ st1 select, dialog_action F st sel0 j = some (st1, select) ∧
      st1.sel = st.sel ∧ st1.options_count = st.options_count ∧ st1.frames = st.frames ∧
      st1.options.length = st.options.length ∧
      (∀ i, row_flags st1.options i = row_flags st.options i) ∧
      (st1.sel_old = st.sel_old ∨
        (st1.sel_old = -1 ∧ o.flags ≠ F.RG_DIALOG_FLAG_SKIP)) ∧
      (st1.last_key = st.last_key ∨
        (st1.last_key ≠ none ∧ o.flags ≠ F.RG_DIALOG_FLAG_SKIP)) ∧
      ((RG_KEY_LEFT ∉ j ∧ RG_KEY_RIGHT ∉ j ∧ RG_KEY_START ∉ j ∧ RG_KEY_A ∉ j) ∨
        o.flags = F.RG_DIALOG_FLAG_DISABLED ∨ o.flags = F.RG_DIALOG_FLAG_SKIP →
        st1 = st ∧ select = sel0) ∧
      (∀ i, row_id st1.options i = row_id st.options i) := by
  simp only [dialog_action, ho]
  by_cases hsel : o.flags ≠ F.RG_DIALOG_FLAG_DISABLED ∧ o.flags ≠ F.RG_DIALOG_FLAG_SKIP
  · rw [if_pos hsel]
    have key : ∀ (k : rg_key_t) (ev nc : rg_gui_event_t),
        ∃ st1 select, some (invoke_cb st o k ev nc) = some (st1, select) ∧
          st1.sel = st.sel ∧ st1.options_count = st.options_count ∧ st1.frames = st.frames ∧
          st1.options.length = st.options.length ∧
          (∀ i, row_flags st1.options i = row_flags st.options i) ∧
          (st1.sel_old = st.sel_old ∨
            (st1.sel_old = -1 ∧ o.flags ≠ F.RG_DIALOG_FLAG_SKIP)) ∧
          (st1.last_key = st.last_key ∨
            (st1.last_key ≠ none ∧ o.flags ≠ F.RG_DIALOG_FLAG_SKIP)) ∧
          (∀ i, row_id st1.options i = row_id st.options i) := by
      intro k ev nc
      obtain ⟨a, b, c, d, e, f, g, hid, -, -⟩ := invoke_cb_fields st o k ev nc ho
      refine ⟨(invoke_cb st o k ev nc).1, (invoke_cb st o k ev nc).2, rfl, a, b, c, e, f, ?_,
        Or.inr ⟨by rw [d]; simp, hsel.2⟩, hid⟩
      rcases g with g | g
      · exact Or.inl g
      · exact Or.inr ⟨g.1, hsel.2⟩
    have hdis : ¬ (o.flags = F.RG_DIALOG_FLAG_DISABLED ∨ o.flags = F.RG_DIALOG_FLAG_SKIP) := by
      intro h
      rcases h with h | h
      · exact hsel.1 h
      · exact hsel.2 h
    by_cases hl : RG_KEY_LEFT ∈ j
    · rw [if_pos hl]
      obtain ⟨st1, select, h1, h2⟩ := key RG_KEY_LEFT RG_DIALOG_PREV sel0
      exact ⟨st1, select, h1, h2.1, h2.2.1, h2.2.2.1, h2.2.2.2.1, h2.2.2.2.2.1, h2.2.2.2.2.2.1,
        h2.2.2.2.2.2.2.1, fun h => by
          rcases h with h | h
          · exact absurd hl h.1
          · exact absurd h hdis, h2.2.2.2.2.2.2.2⟩
    · rw [if_neg hl]
      by_cases hr : RG_KEY_RIGHT ∈ j
      · rw [if_pos hr]
        obtain ⟨st1, select, h1, h2⟩ := key RG_KEY_RIGHT RG_DIALOG_NEXT sel0
        exact ⟨st1, select, h1, h2.1, h2.2.1, h2.2.2.1, h2.2.2.2.1, h2.2.2.2.2.1,
          h2.2.2.2.2.2.1, h2.2.2.2.2.2.2.1, fun h => by
            rcases h with h | h
            · exact absurd hr h.2.1
            · exact absurd h hdis, h2.2.2.2.2.2.2.2⟩
      · rw [if_neg hr]
        by_cases hs : RG_KEY_START ∈ j
        · rw [if_pos hs]
          obtain ⟨st1, select, h1, h2⟩ := key RG_KEY_START RG_DIALOG_ALT sel0
          exact ⟨st1, select, h1, h2.1, h2.2.1, h2.2.2.1, h2.2.2.2.1, h2.2.2.2.2.1,
            h2.2.2.2.2.2.1, h2.2.2.2.2.2.2.1, fun h => by
              rcases h with h | h
              · exact absurd hs h.2.2.1
              · exact absurd h hdis, h2.2.2.2.2.2.2.2⟩
        · rw [if_neg hs]
          by_cases ha : RG_KEY_A ∈ j
          · rw [if_pos ha]
            obtain ⟨st1, select, h1, h2⟩ := key RG_KEY_A RG_DIALOG_ENTER RG_DIALOG_CLOSE
            exact ⟨st1, select, h1, h2.1, h2.2.1, h2.2.2.1, h2.2.2.2.1, h2.2.2.2.2.1,
              h2.2.2.2.2.2.1, h2.2.2.2.2.2.2.1, fun h => by
                rcases h with h | h
                · exact absurd ha h.2.2.2
                · exact absurd h hdis, h2.2.2.2.2.2.2.2⟩
          · rw [if_neg ha]
            exact ⟨st, sel0, rfl, rfl, rfl, rfl, rfl, fun _ => rfl, Or.inl rfl, Or.inl rfl,
              fun _ => ⟨rfl, rfl⟩, fun _ => rfl⟩
  · rw [if_neg hsel]
    exact ⟨st, sel0, rfl, rfl, rfl, rfl, rfl, fun _ => rfl, Or.inl rfl, Or.inl rfl,
      fun _ => ⟨rfl, rfl⟩, fun _ => rfl⟩

theorem option_at_of_row_flags {σ : Type} (options : List (rg_gui_option_t σ)) (i f : Int)
    (h : row_flags options i = some f) : ∃ o, option_at options i = some o ∧ o.flags = f := by
  simp only [row_flags] at h
  cases ho : option_at options i with
  | none => simp [ho] at h
  | some o =>
    simp only [ho, Option.map_some', Option.some.injEq] at h
    exact ⟨o, rfl, h⟩

theorem skip_walk_stay {σ : Type} (F : rg_dialog_flags) (options : List (rg_gui_option_t σ))
    (N : Int) (lk : Option rg_key_t) (so : Int) (fuel : Nat) (sel f : Int)
    (h : row_flags options sel = some f) (hf : f ≠ F.RG_DIALOG_FLAG_SKIP) :
    skip_walk F options N lk so (fuel + 1) sel = some sel := by
  rw [skip_walk_succ, h]
  simp only
  rw [if_neg (fun hh => hf hh.1)]

open rg_key_t rg_gui_event_t in
theorem dialog_nav_step {σ : Type} (F : rg_dialog_flags) (st : dialog_state σ)
    (j : List rg_key_t)
    (hN : 1 ≤ st.options_count) (hlen : st.options_count ≤ st.options.length)
    (hsel : 0 ≤ st.sel ∧ st.sel < st.options_count)
    (hold : st.sel_old = st.sel ∨ st.sel_old < 0 ∨ st.options_count ≤ st.sel_old)
    (hkey : st.last_key = none)
    (hnav : RG_KEY_UP ∈ j ∨ RG_KEY_DOWN ∈ j)
    (hrow : ∃ t f, 0 ≤ t ∧ t < st.options_count ∧ row_flags st.options t = some f ∧
      f ≠ F.RG_DIALOG_FLAG_SKIP) :
    ∃ r, dialog_poll F st j = some r ∧
      (∀ st1, r = poll_result.running st1 →
        0 ≤ st1.sel ∧ st1.sel < st1.options_count ∧
        (∃ f, row_flags st1.options st1.sel = some f ∧ f ≠ F.RG_DIALOG_FLAG_SKIP) ∧
        st1.sel_old = st1.sel ∧
        (st1.frames = st.frames ++ [st1.sel] ∨ (st1.frames = st.frames ∧ st1.sel = st.sel)) ∧
        (∀ f, row_flags st.options (dialog_move st j).1.sel = some f →
          f ≠ F.RG_DIALOG_FLAG_SKIP → st1.sel = (dialog_move st j).1.sel)) ∧
      ((RG_KEY_LEFT ∉ j ∧ RG_KEY_RIGHT ∉ j ∧ RG_KEY_START ∉ j ∧ RG_KEY_A ∉ j) →
        ∃ st1, r = poll_result.running st1) := by
  obtain ⟨m1, m2, m3, m4, m5, -, m7, m8, m9, -⟩ := dialog_move_fields st j
  have hmsel : 0 ≤ (dialog_move st j).1.sel ∧ (dialog_move st j).1.sel < st.options_count := by
    rw [m1]
    simp only [sel_up, sel_down]
    split
    · split <;> omega
    · split
      · split <;> omega
      · exact hsel
  obtain ⟨fm, hfm⟩ := row_flags_defined (dialog_move st j).1.options st.options_count
    (by rw [m2]; exact hlen) _ hmsel
  obtain ⟨o, ho, hof⟩ := option_at_of_row_flags _ _ _ hfm
  obtain ⟨st1, select, hact, a1, a2, a3, a4, a5, a6, a7, a8, -⟩ :=
    dialog_action_spec F (dialog_move st j).1 (dialog_move st j).2 j o ho
  have hvoid : (RG_KEY_LEFT ∉ j ∧ RG_KEY_RIGHT ∉ j ∧ RG_KEY_START ∉ j ∧ RG_KEY_A ∉ j) →
      select = RG_DIALOG_VOID := fun h => by
    rw [(a8 (Or.inl h)).2]
    exact m9 hnav
  have hkeys : dialog_keys F st j = some (st1, select) := hact
  have hs1 : 0 ≤ st1.sel ∧ st1.sel < st.options_count := by rw [a1]; exact hmsel
  have hflags : ∀ i, row_flags st1.options i = row_flags st.options i := by
    intro i
    rw [a5 i, m2]
  obtain ⟨f1, hf1⟩ := row_flags_defined st.options st.options_count hlen _ hs1
  simp only [dialog_poll, hkey, hkeys, Option.some_bind]
  by_cases hdis : select = RG_DIALOG_DISMISS
  · rw [if_pos hdis]
    refine ⟨_, rfl, fun _ h => (by cases h), fun h => ?_⟩
    rw [hvoid h] at hdis
    cases hdis
  · rw [if_neg hdis]
    by_cases hclose : select = RG_DIALOG_CLOSE
    · rw [if_pos hclose, if_neg (by omega)]
      obtain ⟨o1, ho1, -⟩ := option_at_of_row_flags st1.options st1.sel f1 (by rw [hflags]; exact hf1)
      rw [ho1]
      refine ⟨_, rfl, fun _ h => (by cases h), fun h => ?_⟩
      rw [hvoid h] at hclose
      cases hclose
    · rw [if_neg hclose]
      simp only [dialog_redraw]
      by_cases hne : st1.sel_old ≠ st1.sel
      · rw [if_pos hne]
        have hwalk : ∃ s f, skip_walk F st1.options st1.options_count st1.last_key st1.sel_old
            (st1.options.length + 1) st1.sel = some s ∧ 0 ≤ s ∧ s < st.options_count ∧
            row_flags st1.options s = some f ∧ f ≠ F.RG_DIALOG_FLAG_SKIP ∧
            (∀ f, row_flags st.options (dialog_move st j).1.sel = some f →
              f ≠ F.RG_DIALOG_FLAG_SKIP → s = (dialog_move st j).1.sel) := by
          by_cases hskip : f1 = F.RG_DIALOG_FLAG_SKIP
          · have hofs : o.flags = F.RG_DIALOG_FLAG_SKIP := by
              have h1 : row_flags st.options st1.sel = some o.flags := by
                rw [a1, ← m2, hfm, hof]
              rw [hf1] at h1
              simp only [Option.some.injEq] at h1
              rw [← h1]
              exact hskip
            have hso : st1.sel_old = st.sel_old := by
              rcases a6 with h | h
              · rw [h, m5]
              · exact absurd hofs h.2
            have hlk : st1.last_key = (dialog_move st j).1.last_key := by
              rcases a7 with h | h
              · exact h
              · exact absurd hofs h.2
            have hrow2 : ∃ t f, 0 ≤ t ∧ t < st1.options_count ∧
                row_flags st1.options t = some f ∧ f ≠ F.RG_DIALOG_FLAG_SKIP := by
              obtain ⟨t, f, h1, h2, h3, h4⟩ := hrow
              exact ⟨t, f, h1, by rw [a2, m3]; exact h2, by rw [hflags]; exact h3, h4⟩
            have hcount : st1.options_count = st.options_count := by rw [a2, m3]
            have hlen1 : (st1.options.length : Int) = st.options.length := by rw [a4, m2]
            obtain ⟨s, f, w1, w2, w3, w4, w5⟩ := skip_walk_rests F st1.options st1.options_count
              st1.last_key st1.sel_old (st1.options.length + 1) st1.sel (by omega) (by omega)
              (by omega) (by push_cast; omega) hrow2 (by
                rw [hso, hcount]
                rcases hold with h | h | h
                · right; right
                  rw [h, a1, m1, hlk]
                  by_cases hu : RG_KEY_UP ∈ j
                  · rw [m7 hu, if_pos hu]
                    have hdec : decide (some RG_KEY_UP = some RG_KEY_DOWN) = false := by decide
                    simp only [sel_up, next_sel, hdec, Bool.false_eq_true, if_false]
                    split_ifs <;> omega
                  · have hd : RG_KEY_DOWN ∈ j := by
                      rcases hnav with h | h
                      · exact absurd h hu
                      · exact h
                    rw [m8 hu hd, if_neg hu, if_pos hd]
                    simp only [sel_down, next_sel, decide_True, if_true]
                    split_ifs <;> omega
                · exact Or.inl h
                · exact Or.inr (Or.inl h))
            refine ⟨s, f, w1, w2, by omega, w4, w5, ?_⟩
            intro f2 hf2 hns
            rw [← a1, hf1] at hf2
            simp only [Option.some.injEq] at hf2
            exact absurd (hf2 ▸ hskip) hns
          · exact ⟨st1.sel, f1, skip_walk_stay F _ _ _ _ _ _ f1 (by rw [hflags]; exact hf1) hskip,
              hs1.1, hs1.2, by rw [hflags]; exact hf1, hskip, fun _ _ _ => a1⟩
        obtain ⟨s, f, w1, w2, w3, w4, w5, w6⟩ := hwalk
        rw [w1]
        refine ⟨_, rfl, ?_, fun _ => ⟨_, rfl⟩⟩
        intro st2 h
        simp only [Option.map_some', Option.some.injEq, poll_result.running.injEq] at h
        subst h
        refine ⟨w2, by simp only; rw [a2, m3]; exact w3, ⟨f, w4, w5⟩, rfl, Or.inl ?_, w6⟩
        simp only
        rw [a3, m4]
      · rw [if_neg hne]
        refine ⟨_, rfl, ?_, fun _ => ⟨_, rfl⟩⟩
        intro st2 h
        simp only [Option.map_some', Option.some.injEq, poll_result.running.injEq] at h
        subst h
        have heq : st1.sel_old = st1.sel := not_not.mp hne
        have hso : st1.sel_old = st.sel_old := by
          rcases a6 with h | h
          · rw [h, m5]
          · omega
        have hsame : st.sel_old = st.sel := by
          rcases hold with h | h | h
          · exact h
          · omega
          · omega
        have hmoved : (dialog_move st j).1.sel = st.sel := by omega
        have hone : st.options_count = 1 ∧ st.sel = 0 := by
          rw [m1] at hmoved
          by_cases hu : RG_KEY_UP ∈ j
          · rw [if_pos hu] at hmoved
            simp only [sel_up] at hmoved
            split_ifs at hmoved <;> omega
          · have hd : RG_KEY_DOWN ∈ j := by
              rcases hnav with h | h
              · exact absurd h hu
              · exact h
            rw [if_neg hu, if_pos hd] at hmoved
            simp only [sel_down] at hmoved
            split_ifs at hmoved <;> omega
        obtain ⟨t, f, h1, h2, h3, h4⟩ := hrow
        have ht : t = st1.sel := by omega
        refine ⟨hs1.1, by rw [a2, m3]; exact hs1.2, ⟨f, by rw [hflags, ← ht]; exact h3, h4⟩, heq,
          Or.inr ⟨by rw [a3, m4], by omega⟩, fun _ _ _ => a1⟩

open rg_key_t in
/-- C3 (amended): in `rg_gui_dialog`, for every option list with at least one row
that is not flagged skip and for any in-range starting selection, a poll cycle
with Up or Down pressed runs to its end, and if the dialog stays open the
resting selection (the one drawn last and kept for the next poll) is in range
and is not a row flagged skip. -/
theorem dialog_nav_rests_off_skip {σ : Type} (F : rg_dialog_flags) (st : dialog_state σ)
    (j : List rg_key_t)
    (hN : 1 ≤ st.options_count) (hlen : st.options_count ≤ st.options.length)
    (hsel : 0 ≤ st.sel ∧ st.sel < st.options_count)
    (hold : st.sel_old = st.sel ∨ st.sel_old < 0 ∨ st.options_count ≤ st.sel_old)
    (hkey : st.last_key = none)
    (hnav : RG_KEY_UP ∈ j ∨ RG_KEY_DOWN ∈ j)
    (hrow : ∃ t f, 0 ≤ t ∧ t < st.options_count ∧ row_flags st.options t = some f ∧
      f ≠ F.RG_DIALOG_FLAG_SKIP) :
    ∃ r, dialog_poll F st j = some r ∧
      ∀ st1, r = poll_result.running st1 →
        0 ≤ st1.sel ∧ st1.sel < st1.options_count ∧
        (∃ f, row_flags st1.options st1.sel = some f ∧ f ≠ F.RG_DIALOG_FLAG_SKIP) ∧
        st1.sel_old = st1.sel ∧
        (st1.frames = st.frames ++ [st1.sel] ∨
          (st1.frames = st.frames ∧ st1.sel = st.sel)) := by
  obtain ⟨r, h1, h2, -⟩ := dialog_nav_step F st j hN hlen hsel hold hkey hnav hrow
  refine ⟨r, h1, fun st1 h => ?_⟩
  obtain ⟨a, b, c, d, e, -⟩ := h2 st1 h
  exact ⟨a, b, c, d, e⟩

open rg_key_t in
theorem dialog_nav_rests_off_skip_witness :
    ∃ r, dialog_poll demo_flags demo_dialog [RG_KEY_UP] = some r ∧
      ∀ st1, r = poll_result.running st1 →
        0 ≤ st1.sel ∧ st1.sel < st1.options_count ∧
        (∃ f, row_flags st1.options st1.sel = some f ∧
          f ≠ demo_flags.RG_DIALOG_FLAG_SKIP) ∧
        st1.sel_old = st1.sel ∧
        (st1.frames = demo_dialog.frames ++ [st1.sel] ∨
          (st1.frames = demo_dialog.frames ∧ st1.sel = demo_dialog.sel)) :=
  dialog_nav_rests_off_skip demo_flags demo_dialog [RG_KEY_UP] (by decide) (by decide)
    (by decide) (Or.inl rfl) rfl (Or.inl (by decide)) ⟨2, 1, by decide, by decide, rfl, by decide⟩

open rg_key_t in
/-- C3 (counterexample): in the dialog opened on a list whose two rows are both
flagged skip, with row 0 selected, a Down press (and likewise an Up press)
leaves the dialog open with the resting selection on row 0, a row flagged skip,
which is also the frame drawn. -/
theorem dialog_all_skip_rests_on_skip :
    ((dialog_open demo_flags () none (some skip_options) 0).bind
        (dialog_after demo_flags [[RG_KEY_DOWN]])).map
      (fun s => (s.sel, s.sel_old, s.frames, row_flags s.options s.sel))
      = some (0, 0, [0, 0], some demo_flags.RG_DIALOG_FLAG_SKIP) ∧
    ((dialog_open demo_flags () none (some skip_options) 0).bind
        (dialog_after demo_flags [[RG_KEY_UP]])).map
      (fun s => (s.sel, s.sel_old, s.frames, row_flags s.options s.sel))
      = some (0, 0, [0, 0], some demo_flags.RG_DIALOG_FLAG_SKIP) := by
  decide

open rg_key_t in
/-- C9: in `rg_gui_dialog` with N >= 1 rows none of which is flagged skip, a poll
cycle with Up pressed runs to its end and, when the dialog stays open (as it
does when none of Left, Right, Start, A is down), the selection has moved from
row 0 to row N-1 and from any other row by -1; with Down pressed (and Up not)
it has moved from row N-1 to row 0 and from any other row by +1. -/
theorem dialog_up_down_wraps {σ : Type} (F : rg_dialog_flags) (st : dialog_state σ)
    (j : List rg_key_t)
    (hN : 1 ≤ st.options_count) (hlen : st.options_count ≤ st.options.length)
    (hsel : 0 ≤ st.sel ∧ st.sel < st.options_count)
    (hold : st.sel_old = st.sel ∨ st.sel_old < 0 ∨ st.options_count ≤ st.sel_old)
    (hkey : st.last_key = none)
    (hnoskip : ∀ i f, 0 ≤ i → i < st.options_count → row_flags st.options i = some f →
      f ≠ F.RG_DIALOG_FLAG_SKIP) :
    (RG_KEY_UP ∈ j →
      ∃ r, dialog_poll F st j = some r ∧
        (∀ st1, r = poll_result.running st1 →
          st1.sel = if st.sel = 0 then st.options_count - 1 else st.sel - 1) ∧
        ((RG_KEY_LEFT ∉ j ∧ RG_KEY_RIGHT ∉ j ∧ RG_KEY_START ∉ j ∧ RG_KEY_A ∉ j) →
          ∃ st1, r = poll_result.running st1)) ∧
    (RG_KEY_UP ∉ j → RG_KEY_DOWN ∈ j →
      ∃ r, dialog_poll F st j = some r ∧
        (∀ st1, r = poll_result.running st1 →
          st1.sel = if st.sel = st.options_count - 1 then 0 else st.sel + 1) ∧
        ((RG_KEY_LEFT ∉ j ∧ RG_KEY_RIGHT ∉ j ∧ RG_KEY_START ∉ j ∧ RG_KEY_A ∉ j) →
          ∃ st1, r = poll_result.running st1)) := by
  obtain ⟨f0, hf0⟩ := row_flags_defined st.options st.options_count hlen 0 ⟨le_refl _, by omega⟩
  have hrow : ∃ t f, 0 ≤ t ∧ t < st.options_count ∧ row_flags st.options t = some f ∧
      f ≠ F.RG_DIALOG_FLAG_SKIP :=
    ⟨0, f0, le_refl _, by omega, hf0, hnoskip 0 f0 (le_refl _) (by omega) hf0⟩
  have hmove := (dialog_move_fields st j).1
  constructor
  · intro hu
    obtain ⟨r, h1, h2, h3⟩ := dialog_nav_step F st j hN hlen hsel hold hkey (Or.inl hu) hrow
    refine ⟨r, h1, fun st1 h => ?_, h3⟩
    obtain ⟨-, -, -, -, -, h4⟩ := h2 st1 h
    rw [if_pos hu] at hmove
    have hm : 0 ≤ (dialog_move st j).1.sel ∧ (dialog_move st j).1.sel < st.options_count := by
      rw [hmove]
      simp only [sel_up]
      split_ifs <;> omega
    obtain ⟨f, hf⟩ := row_flags_defined st.options st.options_count hlen _ hm
    rw [h4 f hf (hnoskip _ f hm.1 hm.2 hf), hmove]
    simp only [sel_up]
    split_ifs <;> omega
  · intro hu hd
    obtain ⟨r, h1, h2, h3⟩ := dialog_nav_step F st j hN hlen hsel hold hkey (Or.inr hd) hrow
    refine ⟨r, h1, fun st1 h => ?_, h3⟩
    obtain ⟨-, -, -, -, -, h4⟩ := h2 st1 h
    rw [if_neg hu, if_pos hd] at hmove
    have hm : 0 ≤ (dialog_move st j).1.sel ∧ (dialog_move st j).1.sel < st.options_count := by
      rw [hmove]
      simp only [sel_down]
      split_ifs <;> omega
    obtain ⟨f, hf⟩ := row_flags_defined st.options st.options_count hlen _ hm
    rw [h4 f hf (hnoskip _ f hm.1 hm.2 hf), hmove]
    simp only [sel_down]
    split_ifs <;> omega

theorem dialog_loop_append {σ : Type} (F : rg_dialog_flags) :
    ∀ (pre rest : List (List rg_key_t)) (st st1 : dialog_state σ),
      dialog_after F pre st = some st1 →
      dialog_loop F (pre ++ rest) st = dialog_loop F rest st1 := by
  intro pre
  induction pre with
  | nil =>
    intro rest st st1 h
    simp only [dialog_after, Option.some.injEq] at h
    subst h
    rfl
  | cons j pre ih =>
    intro rest st st1 h
    simp only [dialog_after] at h
    simp only [List.cons_append, dialog_loop]
    cases hp : dialog_poll F st j with
    | none => simp [hp] at h
    | some r =>
      cases r with
      | running st2 =>
        simp only [hp] at h
        exact ih rest st2 st1 h
      | closed ret st2 => simp [hp] at h

theorem rg_gui_dialog_after {σ : Type} (F : rg_dialog_flags) (world : σ)
    (header : Option (List Nat)) (options_const : Option (List (rg_gui_option_t σ)))
    (selected : Int) (pre rest : List (List rg_key_t)) (st : dialog_state σ)
    (h : (dialog_open F world header options_const selected).bind (dialog_after F pre)
      = some st) :
    rg_gui_dialog F world header options_const selected (pre ++ rest) = dialog_loop F rest st := by
  simp only [rg_gui_dialog]
  cases ho : dialog_open F world header options_const selected with
  | none => simp [ho] at h
  | some st0 =>
    simp only [ho, Option.some_bind] at h ⊢
    exact dialog_loop_append F pre rest st0 st h

open rg_gui_event_t in
theorem dialog_poll_dismiss {σ : Type} (F : rg_dialog_flags) (st st1 : dialog_state σ)
    (j : List rg_key_t) (hkey : st.last_key = none)
    (h : dialog_keys F st j = some (st1, RG_DIALOG_DISMISS)) :
    dialog_poll F st j = some (poll_result.closed (-1) { st1 with sel := -1 }) := by
  simp only [dialog_poll, hkey, h, Option.some_bind, if_true]

open rg_gui_event_t in
theorem dialog_keys_readable {σ : Type} (F : rg_dialog_flags) (st st1 : dialog_state σ)
    (j : List rg_key_t) (select : rg_gui_event_t)
    (h : dialog_keys F st j = some (st1, select)) :
    ∃ o1, option_at st1.options st1.sel = some o1 ∧ 0 ≤ st1.sel ∧
      st1.sel = (dialog_move st j).1.sel ∧
      row_id st1.options st1.sel = row_id st.options st1.sel := by
  simp only [dialog_keys] at h
  cases ho : option_at (dialog_move st j).1.options (dialog_move st j).1.sel with
  | none => simp [dialog_action, ho] at h
  | some o =>
    obtain ⟨st2, sel2, h1, a1, -, -, -, a5, -, -, -, a9⟩ :=
      dialog_action_spec F (dialog_move st j).1 (dialog_move st j).2 j o ho
    rw [h1] at h
    simp only [Option.some.injEq, Prod.mk.injEq] at h
    obtain ⟨rfl, rfl⟩ := h
    have hnn : 0 ≤ (dialog_move st j).1.sel := by
      by_contra hneg
      simp [option_at, hneg] at ho
    have hfl : row_flags st2.options st2.sel = some o.flags := by
      rw [a5, a1]
      simp [row_flags, ho]
    obtain ⟨o1, ho1, -⟩ := option_at_of_row_flags _ _ _ hfl
    refine ⟨o1, ho1, by rw [a1]; exact hnn, a1, ?_⟩
    rw [a9, (dialog_move_fields st j).2.1]

open rg_gui_event_t in
theorem dialog_poll_close {σ : Type} (F : rg_dialog_flags) (st st1 : dialog_state σ)
    (j : List rg_key_t) (hkey : st.last_key = none)
    (h : dialog_keys F st j = some (st1, RG_DIALOG_CLOSE)) :
    ∃ o1, option_at st1.options st1.sel = some o1 ∧
      dialog_poll F st j = some (poll_result.closed o1.id st1) := by
  obtain ⟨o1, ho1, hnn, -, -⟩ := dialog_keys_readable F st st1 j _ h
  refine ⟨o1, ho1, ?_⟩
  simp only [dialog_poll, hkey, h, Option.some_bind, if_true]
  have hlt : ¬ st1.sel < 0 := by omega
  rw [ho1, if_neg hlt]
  rfl

open rg_key_t rg_gui_event_t in
theorem dialog_action_no_cb {σ : Type} (F : rg_dialog_flags) (st : dialog_state σ)
    (sel0 : rg_gui_event_t) (j : List rg_key_t) (o : rg_gui_option_t σ)
    (ho : option_at st.options st.sel = some o) (hcb : o.update_cb = none) :
    ∃ st1 select, dialog_action F st sel0 j = some (st1, select) ∧
      st1.options = st.options ∧ st1.sel = st.sel ∧ st1.options_count = st.options_count ∧
      st1.sel_old = st.sel_old ∧ st1.frames = st.frames ∧ st1.world = st.world ∧
      st1.header = st.header ∧
      (RG_KEY_A ∉ j → select = sel0) ∧
      (select = RG_DIALOG_CLOSE ∨ select = sel0) ∧
      (o.flags ≠ F.RG_DIALOG_FLAG_DISABLED → o.flags ≠ F.RG_DIALOG_FLAG_SKIP →
        RG_KEY_LEFT ∉ j → RG_KEY_RIGHT ∉ j → RG_KEY_START ∉ j → RG_KEY_A ∈ j →
        select = RG_DIALOG_CLOSE) := by
  simp only [dialog_action, ho, invoke_cb, hcb]
  by_cases hsel : o.flags ≠ F.RG_DIALOG_FLAG_DISABLED ∧ o.flags ≠ F.RG_DIALOG_FLAG_SKIP
  · rw [if_pos hsel]
    by_cases hl : RG_KEY_LEFT ∈ j
    · rw [if_pos hl]
      exact ⟨_, _, rfl, rfl, rfl, rfl, rfl, rfl, rfl, rfl, fun _ => rfl, Or.inr rfl,
        fun _ _ h => absurd hl h⟩
    · rw [if_neg hl]
      by_cases hr : RG_KEY_RIGHT ∈ j
      · rw [if_pos hr]
        exact ⟨_, _, rfl, rfl, rfl, rfl, rfl, rfl, rfl, rfl, fun _ => rfl, Or.inr rfl,
          fun _ _ _ h => absurd hr h⟩
      · rw [if_neg hr]
        by_cases hs : RG_KEY_START ∈ j
        · rw [if_pos hs]
          exact ⟨_, _, rfl, rfl, rfl, rfl, rfl, rfl, rfl, rfl, fun _ => rfl, Or.inr rfl,
            fun _ _ _ _ h => absurd hs h⟩
        · rw [if_neg hs]
          by_cases ha : RG_KEY_A ∈ j
          · rw [if_pos ha]
            exact ⟨_, _, rfl, rfl, rfl, rfl, rfl, rfl, rfl, rfl, fun h => absurd ha h,
              Or.inl rfl, fun _ _ _ _ _ _ => rfl⟩
          · rw [if_neg ha]
            exact ⟨_, _, rfl, rfl, rfl, rfl, rfl, rfl, rfl, rfl, fun _ => rfl, Or.inr rfl,
              fun _ _ _ _ _ h => absurd h ha⟩
  · rw [if_neg hsel]
    exact ⟨_, _, rfl, rfl, rfl, rfl, rfl, rfl, rfl, rfl, fun _ => rfl, Or.inr rfl,
      fun h1 h2 => absurd ⟨h1, h2⟩ hsel⟩

open rg_key_t rg_gui_event_t in
theorem dialog_action_cb {σ : Type} (F : rg_dialog_flags) (st : dialog_state σ)
    (sel0 : rg_gui_event_t) (j : List rg_key_t) (o : rg_gui_option_t σ)
    (cb : σ → rg_gui_row → rg_gui_event_t → σ × rg_gui_event_t × Option (List Nat))
    (k : rg_key_t) (ev : rg_gui_event_t)
    (ho : option_at st.options st.sel = some o) (hcb : o.update_cb = some cb)
    (hd : o.flags ≠ F.RG_DIALOG_FLAG_DISABLED) (hs : o.flags ≠ F.RG_DIALOG_FLAG_SKIP)
    (hev : action_event j = some (k, ev)) :
    ∃ st1, dialog_action F st sel0 j = some (st1, (cb st.world (row_of o) ev).2.1) := by
  simp only [dialog_action, ho]
  rw [if_pos ⟨hd, hs⟩]
  simp only [action_event] at hev
  by_cases hl : RG_KEY_LEFT ∈ j
  · rw [if_pos hl] at hev ⊢
    simp only [Option.some.injEq, Prod.mk.injEq] at hev
    obtain ⟨rfl, rfl⟩ := hev
    have h := (invoke_cb_fields st o RG_KEY_LEFT RG_DIALOG_PREV sel0 ho).2.2.2.2.2.2.2.2.2 cb hcb
    exact ⟨(invoke_cb st o RG_KEY_LEFT RG_DIALOG_PREV sel0).1, by rw [← h]⟩
  · rw [if_neg hl] at hev ⊢
    by_cases hr : RG_KEY_RIGHT ∈ j
    · rw [if_pos hr] at hev ⊢
      simp only [Option.some.injEq, Prod.mk.injEq] at hev
      obtain ⟨rfl, rfl⟩ := hev
      have h := (invoke_cb_fields st o RG_KEY_RIGHT RG_DIALOG_NEXT sel0 ho).2.2.2.2.2.2.2.2.2 cb hcb
      exact ⟨(invoke_cb st o RG_KEY_RIGHT RG_DIALOG_NEXT sel0).1, by rw [← h]⟩
    · rw [if_neg hr] at hev ⊢
      by_cases hst : RG_KEY_START ∈ j
      · rw [if_pos hst] at hev ⊢
        simp only [Option.some.injEq, Prod.mk.injEq] at hev
        obtain ⟨rfl, rfl⟩ := hev
        have h := (invoke_cb_fields st o RG_KEY_START RG_DIALOG_ALT sel0 ho).2.2.2.2.2.2.2.2.2 cb hcb
        exact ⟨(invoke_cb st o RG_KEY_START RG_DIALOG_ALT sel0).1, by rw [← h]⟩
      · rw [if_neg hst] at hev ⊢
        by_cases ha : RG_KEY_A ∈ j
        · rw [if_pos ha] at hev ⊢
          simp only [Option.some.injEq, Prod.mk.injEq] at hev
          obtain ⟨rfl, rfl⟩ := hev
          have h := (invoke_cb_fields st o RG_KEY_A RG_DIALOG_ENTER RG_DIALOG_CLOSE ho).2.2.2.2.2.2.2.2.2 cb hcb
          exact ⟨(invoke_cb st o RG_KEY_A RG_DIALOG_ENTER RG_DIALOG_CLOSE).1, by rw [← h]⟩
        · rw [if_neg ha] at hev
          cases hev

open rg_key_t rg_gui_event_t in
theorem dialog_move_dismiss {σ : Type} (st : dialog_state σ) (j : List rg_key_t)
    (hu : RG_KEY_UP ∉ j) (hd : RG_KEY_DOWN ∉ j) :
    (dialog_move st j).1.sel = st.sel ∧ (dialog_move st j).1.options = st.options ∧
    (dialog_move st j).1.world = st.world ∧
    (dismiss_pressed j → (dialog_move st j).2 = RG_DIALOG_DISMISS) ∧
    (¬ dismiss_pressed j → dialog_move st j = (st, RG_DIALOG_VOID)) := by
  obtain ⟨m1, m2, -, -, -, m6, -, -, -, m10⟩ := dialog_move_fields st j
  rw [if_neg hu, if_neg hd] at m1
  refine ⟨m1, m2, m6, fun h => (m10 hu hd h).1, fun h => ?_⟩
  simp only [dismiss_pressed, not_or] at h
  simp only [dialog_move, hu, hd, h.1, h.2.1, h.2.2, if_false]

theorem dialog_loop_closed {σ : Type} (F : rg_dialog_flags) (st st1 : dialog_state σ)
    (j : List rg_key_t) (rest : List (List rg_key_t)) (ret : Int)
    (h : dialog_poll F st j = some (poll_result.closed ret st1)) :
    dialog_loop F (j :: rest) st = some (ret, st1) := by
  simp only [dialog_loop, h]

open rg_key_t in
theorem action_event_none (j : List rg_key_t) (h : action_event j = none) :
    RG_KEY_LEFT ∉ j ∧ RG_KEY_RIGHT ∉ j ∧ RG_KEY_START ∉ j ∧ RG_KEY_A ∉ j := by
  simp only [action_event] at h
  split_ifs at h with h1 h2 h3 h4
  exact ⟨h1, h2, h3, h4⟩

open rg_key_t rg_gui_event_t in
theorem action_event_enter (j : List rg_key_t)
    (h : action_event j = some (RG_KEY_A, RG_DIALOG_ENTER)) :
    RG_KEY_LEFT ∉ j ∧ RG_KEY_RIGHT ∉ j ∧ RG_KEY_START ∉ j ∧ RG_KEY_A ∈ j := by
  simp only [action_event] at h
  split_ifs at h with h1 h2 h3 h4
  · simp at h
  · simp at h
  · simp at h
  · exact ⟨h1, h2, h3, h4⟩

open rg_key_t rg_gui_event_t in
/-- C8: at any point of an `rg_gui_dialog` call where no key is recorded as held,
a poll cycle whose `select` is Dismiss makes the call return -1, whichever row
is selected: this is the case when B, Option or Menu is down (Up and Down not,
and no Left/Right/Start/A acting on a selectable row), and when the callback of
the selected row returns Dismiss.  A poll cycle whose `select` is Close makes
the call return the id of the row selected in that cycle, as when A is pressed
on a selectable row that has no callback. -/
theorem dialog_return_value {σ : Type} (F : rg_dialog_flags) (world : σ)
    (header : Option (List Nat)) (options_const : Option (List (rg_gui_option_t σ)))
    (selected : Int) (pre rest : List (List rg_key_t)) (j : List rg_key_t)
    (st : dialog_state σ)
    (hopen : (dialog_open F world header options_const selected).bind (dialog_after F pre)
      = some st)
    (hkey : st.last_key = none) :
    (∀ st1, dialog_keys F st j = some (st1, RG_DIALOG_DISMISS) →
      (rg_gui_dialog F world header options_const selected (pre ++ j :: rest)).map Prod.fst
        = some (-1)) ∧
    (∀ st1, dialog_keys F st j = some (st1, RG_DIALOG_CLOSE) →
      ∃ id, row_id st.options st1.sel = some id ∧ st1.sel = (dialog_move st j).1.sel ∧
        (rg_gui_dialog F world header options_const selected (pre ++ j :: rest)).map Prod.fst
          = some id) ∧
    (∀ o, option_at st.options st.sel = some o → dismiss_pressed j →
      RG_KEY_UP ∉ j → RG_KEY_DOWN ∉ j →
      (action_event j = none ∨ o.flags = F.RG_DIALOG_FLAG_DISABLED ∨
        o.flags = F.RG_DIALOG_FLAG_SKIP) →
      (rg_gui_dialog F world header options_const selected (pre ++ j :: rest)).map Prod.fst
        = some (-1)) ∧
    (∀ o cb k ev, option_at st.options (dialog_move st j).1.sel = some o →
      o.update_cb = some cb → o.flags ≠ F.RG_DIALOG_FLAG_DISABLED →
      o.flags ≠ F.RG_DIALOG_FLAG_SKIP → action_event j = some (k, ev) →
      (cb st.world (row_of o) ev).2.1 = RG_DIALOG_DISMISS →
      (rg_gui_dialog F world header options_const selected (pre ++ j :: rest)).map Prod.fst
        = some (-1)) ∧
    (∀ o, option_at st.options (dialog_move st j).1.sel = some o →
      o.update_cb = none → o.flags ≠ F.RG_DIALOG_FLAG_DISABLED →
      o.flags ≠ F.RG_DIALOG_FLAG_SKIP → action_event j = some (RG_KEY_A, RG_DIALOG_ENTER) →
      (rg_gui_dialog F world header options_const selected (pre ++ j :: rest)).map Prod.fst
        = some o.id) := by
  have hrun := rg_gui_dialog_after F world header options_const selected pre (j :: rest) st hopen
  have hdismiss : ∀ st1, dialog_keys F st j = some (st1, RG_DIALOG_DISMISS) →
      (rg_gui_dialog F world header options_const selected (pre ++ j :: rest)).map Prod.fst
        = some (-1) := by
    intro st1 h
    rw [hrun, dialog_loop_closed F st _ j rest (-1) (dialog_poll_dismiss F st st1 j hkey h)]
    rfl
  have hclose : ∀ st1, dialog_keys F st j = some (st1, RG_DIALOG_CLOSE) →
      ∃ id, row_id st.options st1.sel = some id ∧ st1.sel = (dialog_move st j).1.sel ∧
        (rg_gui_dialog F world header options_const selected (pre ++ j :: rest)).map Prod.fst
          = some id := by
    intro st1 h
    obtain ⟨o1, ho1, hp⟩ := dialog_poll_close F st st1 j hkey h
    obtain ⟨o2, ho2, -, hm, hid⟩ := dialog_keys_readable F st st1 j _ h
    refine ⟨o1.id, ?_, hm, ?_⟩
    · rw [← hid]
      simp [row_id, ho1]
    · rw [hrun, dialog_loop_closed F st _ j rest _ hp]
      rfl
  have hmopt := (dialog_move_fields st j).2.1
  have hmworld := (dialog_move_fields st j).2.2.2.2.2.1
  refine ⟨hdismiss, hclose, ?_, ?_, ?_⟩
  · intro o ho hd hu hdn hcase
    obtain ⟨m1, m2, -, m4, -⟩ := dialog_move_dismiss st j hu hdn
    have ho2 : option_at (dialog_move st j).1.options (dialog_move st j).1.sel = some o := by
      rw [m1, m2]
      exact ho
    obtain ⟨st1, select, hact, -, -, -, -, -, -, -, a8, -⟩ :=
      dialog_action_spec F (dialog_move st j).1 (dialog_move st j).2 j o ho2
    have hsel : select = RG_DIALOG_DISMISS := by
      have h1 : select = (dialog_move st j).2 := by
        rcases hcase with h | h | h
        · exact (a8 (Or.inl (action_event_none j h))).2
        · exact (a8 (Or.inr (Or.inl h))).2
        · exact (a8 (Or.inr (Or.inr h))).2
      rw [h1, m4 hd]
    subst hsel
    exact hdismiss st1 hact
  · intro o cb k ev ho hcb hdis hskip hev hret
    have ho2 : option_at (dialog_move st j).1.options (dialog_move st j).1.sel = some o := by
      rw [hmopt]
      exact ho
    obtain ⟨st1, hact⟩ := dialog_action_cb F (dialog_move st j).1 (dialog_move st j).2 j o cb k ev
      ho2 hcb hdis hskip hev
    rw [hmworld, hret] at hact
    exact hdismiss st1 hact
  · intro o ho hcb hdis hskip hev
    have ho2 : option_at (dialog_move st j).1.options (dialog_move st j).1.sel = some o := by
      rw [hmopt]
      exact ho
    obtain ⟨e1, e2, e3, e4⟩ := action_event_enter j hev
    obtain ⟨st1, select, hact, b1, b2, -, -, -, -, -, -, -, b11⟩ :=
      dialog_action_no_cb F (dialog_move st j).1 (dialog_move st j).2 j o ho2 hcb
    have hsel := b11 hdis hskip e1 e2 e3 e4
    subst hsel
    obtain ⟨id, h1, h2, h3⟩ := hclose st1 hact
    rw [h3]
    rw [h2] at h1
    simp only [row_id, ho, Option.map_some', Option.some.injEq] at h1
    rw [h1]

theorem skip_walk_range {σ : Type} (F : rg_dialog_flags) (options : List (rg_gui_option_t σ))
    (N : Int) (lk : Option rg_key_t) (so : Int) (hN : 1 ≤ N) :
    ∀ (fuel : Nat) (sel s : Int), skip_walk F options N lk so fuel sel = some s →
      0 ≤ sel ∧ sel < N → 0 ≤ s ∧ s < N := by
  intro fuel
  induction fuel with
  | zero => intro sel s h; simp [skip_walk] at h
  | succ fuel ih =>
    intro sel s h hsel
    rw [skip_walk_succ] at h
    cases hf : row_flags options sel with
    | none => simp [hf] at h
    | some f =>
      simp only [hf] at h
      split at h
      · exact ih _ s h (next_sel_range N _ sel hN hsel)
      · simp only [Option.some.injEq] at h
        rw [← h]
        exact hsel

theorem dialog_redraw_inv {σ : Type} (F : rg_dialog_flags) (st st1 : dialog_state σ)
    (hN : 1 ≤ st.options_count) (hsel : 0 ≤ st.sel ∧ st.sel < st.options_count)
    (h : dialog_redraw F st = some st1) :
    st1.options = st.options ∧ st1.options_count = st.options_count ∧
    st1.world = st.world ∧ st1.header = st.header ∧
    0 ≤ st1.sel ∧ st1.sel < st.options_count := by
  simp only [dialog_redraw] at h
  split at h
  · cases hw : skip_walk F st.options st.options_count st.last_key st.sel_old
        (st.options.length + 1) st.sel with
    | none => simp [hw] at h
    | some s =>
      simp only [hw, Option.map_some', Option.some.injEq] at h
      subst h
      have := skip_walk_range F st.options st.options_count st.last_key st.sel_old hN _ _ _ hw hsel
      exact ⟨rfl, rfl, rfl, rfl, this.1, this.2⟩
  · simp only [Option.some.injEq] at h
    subst h
    exact ⟨rfl, rfl, rfl, rfl, hsel.1, hsel.2⟩

theorem option_at_mem {σ : Type} (options : List (rg_gui_option_t σ)) (i : Int)
    (o : rg_gui_option_t σ) (h : option_at options i = some o) : o ∈ options := by
  simp only [option_at] at h
  split at h
  · exact List.getElem?_mem h
  · simp at h

theorem option_at_defined {σ : Type} (options : List (rg_gui_option_t σ)) (N : Int)
    (hlen : N ≤ options.length) (i : Int) (hi : 0 ≤ i ∧ i < N) :
    ∃ o, option_at options i = some o := by
  obtain ⟨f, hf⟩ := row_flags_defined options N hlen i hi
  obtain ⟨o, ho, -⟩ := option_at_of_row_flags options i f hf
  exact ⟨o, ho⟩

theorem dialog_move_range {σ : Type} (st : dialog_state σ) (j : List rg_key_t)
    (hN : 1 ≤ st.options_count) (hsel : 0 ≤ st.sel ∧ st.sel < st.options_count) :
    0 ≤ (dialog_move st j).1.sel ∧ (dialog_move st j).1.sel < st.options_count := by
  rw [(dialog_move_fields st j).1]
  simp only [sel_up, sel_down]
  split_ifs <;> omega

open rg_gui_event_t in
theorem dialog_poll_no_cb_inv {σ : Type} (F : rg_dialog_flags) (st st1 : dialog_state σ)
    (j : List rg_key_t) (hN : 1 ≤ st.options_count)
    (hlen : st.options_count ≤ st.options.length)
    (hsel : 0 ≤ st.sel ∧ st.sel < st.options_count)
    (hcb : ∀ o ∈ st.options, o.update_cb = none)
    (h : dialog_poll F st j = some (poll_result.running st1)) :
    st1.options = st.options ∧ st1.options_count = st.options_count ∧
    st1.world = st.world ∧ st1.header = st.header ∧
    0 ≤ st1.sel ∧ st1.sel < st.options_count := by
  simp only [dialog_poll] at h
  cases hk : st.last_key with
  | some k =>
    simp only [hk] at h
    cases hr : dialog_redraw F (if k ∈ j then st else { st with last_key := none }) with
    | none => simp [hr] at h
    | some s =>
      simp only [hr, Option.map_some', Option.some.injEq, poll_result.running.injEq] at h
      subst h
      by_cases hkj : k ∈ j
      · rw [if_pos hkj] at hr
        exact dialog_redraw_inv F st s hN hsel hr
      · rw [if_neg hkj] at hr
        exact dialog_redraw_inv F { st with last_key := none } s hN hsel hr
  | none =>
    simp only [hk] at h
    obtain ⟨m1, m2, m3, m4, m5, m6, -⟩ := dialog_move_fields st j
    have hm := dialog_move_range st j hN hsel
    obtain ⟨o, ho⟩ := option_at_defined (dialog_move st j).1.options st.options_count
      (by rw [m2]; exact hlen) _ hm
    have hocb : o.update_cb = none := hcb o (by rw [← m2]; exact option_at_mem _ _ _ ho)
    obtain ⟨st2, select, hact, b1, b2, b3, -, -, b6, b7, -⟩ :=
      dialog_action_no_cb F (dialog_move st j).1 (dialog_move st j).2 j o ho hocb
    have hkeys : dialog_keys F st j = some (st2, select) := hact
    simp only [hkeys, Option.some_bind] at h
    split at h
    · simp at h
    · split at h
      · split at h
        · simp at h
        · cases hoo : option_at st2.options st2.sel with
          | none => simp [hoo] at h
          | some o2 => simp [hoo] at h
      · cases hr : dialog_redraw F st2 with
        | none => simp [hr] at h
        | some s =>
          simp only [hr, Option.map_some', Option.some.injEq, poll_result.running.injEq] at h
          subst h
          obtain ⟨c1, c2, c3, c4, c5, c6⟩ := dialog_redraw_inv F st2 s (by rw [b3, m3]; exact hN)
            (by rw [b2, b3, m3]; exact hm) hr
          refine ⟨by rw [c1, b1, m2], by rw [c2, b3, m3], by rw [c3, b6, m6], ?_, c5,
            by rw [b3, m3] at c6; exact c6⟩
          rw [c4, b7]
          simp only [dialog_move]
          split_ifs <;> rfl

theorem dialog_after_no_cb_inv {σ : Type} (F : rg_dialog_flags) :
    ∀ (pre : List (List rg_key_t)) (st st1 : dialog_state σ),
      1 ≤ st.options_count → st.options_count ≤ st.options.length →
      0 ≤ st.sel ∧ st.sel < st.options_count →
      (∀ o ∈ st.options, o.update_cb = none) →
      dialog_after F pre st = some st1 →
      st1.options = st.options ∧ st1.options_count = st.options_count ∧
      st1.world = st.world ∧ st1.header = st.header ∧
      0 ≤ st1.sel ∧ st1.sel < st.options_count := by
  intro pre
  induction pre with
  | nil =>
    intro st st1 _ _ hsel _ h
    simp only [dialog_after, Option.some.injEq] at h
    subst h
    exact ⟨rfl, rfl, rfl, rfl, hsel.1, hsel.2⟩
  | cons j pre ih =>
    intro st st1 hN hlen hsel hcb h
    simp only [dialog_after] at h
    cases hp : dialog_poll F st j with
    | none => simp [hp] at h
    | some r =>
      cases r with
      | closed ret st2 => simp [hp] at h
      | running st2 =>
        simp only [hp] at h
        obtain ⟨a1, a2, a3, a4, a5, a6⟩ := dialog_poll_no_cb_inv F st st2 j hN hlen hsel hcb hp
        obtain ⟨b1, b2, b3, b4, b5, b6⟩ := ih st2 st1 (by rw [a2]; exact hN)
          (by rw [a1, a2]; exact hlen) (by rw [a2]; exact ⟨a5, a6⟩) (by rw [a1]; exact hcb) h
        exact ⟨by rw [b1, a1], by rw [b2, a2], by rw [b3, a3], by rw [b4, a4], b5,
          by rw [a2] at b6; exact b6⟩

theorem confirm_open {σ : Type} (F : rg_dialog_flags) (hL1 : F.RG_DIALOG_FLAG_LAST ≠ -1)
    (hL2 : F.RG_DIALOG_FLAG_LAST ≠ 1) (world : σ) (title message : Option (List Nat))
    (yes : Bool) :
    ∃ st, dialog_open F world title
        (some (if message.isSome then confirm_options F σ message
               else (confirm_options F σ message).drop 1))
        (if yes then -2 else -1) = some st ∧
      st.last_key = none ∧ st.sel_old = st.sel ∧ 1 ≤ st.options_count ∧
      st.options_count ≤ st.options.length ∧ 0 ≤ st.sel ∧ st.sel < st.options_count ∧
      (∀ o ∈ st.options, o.update_cb = none) ∧
      (yes = true → option_at st.options st.sel = some (confirm_yes_row σ)) := by
  have h1 : ¬ ((-1 : Int) = F.RG_DIALOG_FLAG_LAST) := fun h => hL1 h.symm
  have h2 : ¬ ((1 : Int) = F.RG_DIALOG_FLAG_LAST) := fun h => hL2 h.symm
  cases message with
  | none =>
    cases yes
    · refine ⟨⟨world, title, (confirm_options F σ none).drop 1, 3, 2, 2, none, [2]⟩, ?_, rfl, rfl,
        by norm_num, by simp [confirm_options], by norm_num, by norm_num, ?_, by simp⟩
      · simp [dialog_open, get_dialog_items_count, count_items, confirm_options,
          RG_DIALOG_CHOICE_LAST, init_rows, init_row, h1, h2]
      · intro o ho
        simp only [confirm_options, RG_DIALOG_CHOICE_LAST, List.drop_succ_cons, List.drop_zero,
          List.mem_cons, List.mem_singleton, List.not_mem_nil, or_false] at ho
        rcases ho with rfl | rfl | rfl | rfl <;> rfl
    · refine ⟨⟨world, title, (confirm_options F σ none).drop 1, 3, 1, 1, none, [1]⟩, ?_, rfl, rfl,
        by norm_num, by simp [confirm_options], by norm_num, by norm_num, ?_, fun _ => rfl⟩
      · simp [dialog_open, get_dialog_items_count, count_items, confirm_options,
          RG_DIALOG_CHOICE_LAST, init_rows, init_row, h1, h2]
      · intro o ho
        simp only [confirm_options, RG_DIALOG_CHOICE_LAST, List.drop_succ_cons, List.drop_zero,
          List.mem_cons, List.mem_singleton, List.not_mem_nil, or_false] at ho
        rcases ho with rfl | rfl | rfl | rfl <;> rfl
  | some m =>
    cases yes
    · refine ⟨⟨world, title, confirm_options F σ (some m), 4, 3, 3, none, [3]⟩, ?_, rfl, rfl,
        by norm_num, by simp [confirm_options], by norm_num, by norm_num, ?_, by simp⟩
      · simp [dialog_open, get_dialog_items_count, count_items, confirm_options,
          RG_DIALOG_CHOICE_LAST, init_rows, init_row, h1, h2]
      · intro o ho
        simp only [confirm_options, RG_DIALOG_CHOICE_LAST,
          List.mem_cons, List.mem_singleton, List.not_mem_nil, or_false] at ho
        rcases ho with rfl | rfl | rfl | rfl | rfl <;> rfl
    · refine ⟨⟨world, title, confirm_options F σ (some m), 4, 2, 2, none, [2]⟩, ?_, rfl, rfl,
        by norm_num, by simp [confirm_options], by norm_num, by norm_num, ?_, fun _ => rfl⟩
      · simp [dialog_open, get_dialog_items_count, count_items, confirm_options,
          RG_DIALOG_CHOICE_LAST, init_rows, init_row, h1, h2]
      · intro o ho
        simp only [confirm_options, RG_DIALOG_CHOICE_LAST,
          List.mem_cons, List.mem_singleton, List.not_mem_nil, or_false] at ho
        rcases ho with rfl | rfl | rfl | rfl | rfl <;> rfl

open rg_key_t rg_gui_event_t in
theorem dialog_poll_idle {σ : Type} (F : rg_dialog_flags) (st : dialog_state σ)
    (j : List rg_key_t) (o : rg_gui_option_t σ) (hkey : st.last_key = none)
    (hold : st.sel_old = st.sel) (ho : option_at st.options st.sel = some o)
    (hj : idle_reading j) : dialog_poll F st j = some (poll_result.running st) := by
  have hn : ∀ k : rg_key_t, k ≠ RG_KEY_SELECT → k ∉ j := fun k hk hmem => hk (hj k hmem)
  have hmove : dialog_move st j = (st, RG_DIALOG_VOID) :=
    (dialog_move_dismiss st j (hn _ (by decide)) (hn _ (by decide))).2.2.2.2 (by
      simp only [dismiss_pressed, not_or]
      exact ⟨hn _ (by decide), hn _ (by decide), hn _ (by decide)⟩)
  obtain ⟨st1, select, hact, -, -, -, -, -, -, -, a8, -⟩ :=
    dialog_action_spec F st RG_DIALOG_VOID j o ho
  obtain ⟨rfl, rfl⟩ := a8 (Or.inl ⟨hn _ (by decide), hn _ (by decide), hn _ (by decide),
    hn _ (by decide)⟩)
  have hkeys : dialog_keys F st1 j = some (st1, RG_DIALOG_VOID) := by
    simp only [dialog_keys, hmove]
    exact hact
  simp only [dialog_poll, hkey, hkeys, Option.some_bind, dialog_redraw, hold, ne_eq,
    not_true_eq_false, if_false, Option.map_some', reduceCtorEq]

theorem dialog_after_idle {σ : Type} (F : rg_dialog_flags) (st : dialog_state σ)
    (o : rg_gui_option_t σ) (hkey : st.last_key = none) (hold : st.sel_old = st.sel)
    (ho : option_at st.options st.sel = some o) :
    ∀ pre : List (List rg_key_t), (∀ r ∈ pre, idle_reading r) →
      dialog_after F pre st = some st := by
  intro pre
  induction pre with
  | nil => intro _; rfl
  | cons j pre ih =>
    intro h
    simp only [dialog_after, dialog_poll_idle F st j o hkey hold ho (h j (by simp))]
    exact ih (fun r hr => h r (List.mem_cons_of_mem _ hr))

open rg_key_t rg_gui_event_t in
/-- C7: for flag values under which the literals of `rg_gui_confirm` mean what they
are used for (1 is neither the disabled nor the skip nor the last flag, and -1
is not the last flag), `rg_gui_confirm(title, message, true)` followed by polls
without any handled button and then a press of A (no Up, Down, Left, Right or
Start with it) returns true, for a null and for a non-null message; and
whatever `yes_selected` was and wherever the cursor has been moved, a poll in
which no key is recorded as held and B, Option or Menu is down (Up, Down and A
not) makes `rg_gui_confirm` return false. -/
theorem confirm_outcome {σ : Type} (F : rg_dialog_flags)
    (hL1 : F.RG_DIALOG_FLAG_LAST ≠ -1) (hL2 : F.RG_DIALOG_FLAG_LAST ≠ 1)
    (hD : F.RG_DIALOG_FLAG_DISABLED ≠ 1) (hS : F.RG_DIALOG_FLAG_SKIP ≠ 1)
    (world : σ) (title message : Option (List Nat)) :
    (∀ (pre rest : List (List rg_key_t)) (j : List rg_key_t),
      (∀ r ∈ pre, idle_reading r) → RG_KEY_A ∈ j → RG_KEY_UP ∉ j → RG_KEY_DOWN ∉ j →
      RG_KEY_LEFT ∉ j → RG_KEY_RIGHT ∉ j → RG_KEY_START ∉ j →
      rg_gui_confirm F world title message true (pre ++ j :: rest) = some true) ∧
    (∀ (yes : Bool) (pre rest : List (List rg_key_t)) (j : List rg_key_t)
      (st : dialog_state σ),
      (dialog_open F world title
          (some (if message.isSome then confirm_options F σ message
                 else (confirm_options F σ message).drop 1))
          (if yes then -2 else -1)).bind (dialog_after F pre) = some st →
      st.last_key = none → dismiss_pressed j → RG_KEY_UP ∉ j → RG_KEY_DOWN ∉ j →
      RG_KEY_A ∉ j →
      rg_gui_confirm F world title message yes (pre ++ j :: rest) = some false) := by
  constructor
  · intro pre rest j hpre ha hu hd hl hr hs
    obtain ⟨st0, hopen, c1, c2, c3, c4, c5, c6, c7, c8⟩ :=
      confirm_open F hL1 hL2 world title message true
    have hyes := c8 rfl
    have hafter := dialog_after_idle F st0 _ c1 c2 hyes pre hpre
    have hreach : (dialog_open F world title
          (some (if message.isSome then confirm_options F σ message
                 else (confirm_options F σ message).drop 1))
          (if true = true then -2 else -1)).bind (dialog_after F pre) = some st0 := by
      rw [hopen]
      exact hafter
    have hrun := rg_gui_dialog_after F world title _ _ pre (j :: rest) st0 hreach
    obtain ⟨m1, m2, -⟩ := dialog_move_dismiss st0 j hu hd
    have ho2 : option_at (dialog_move st0 j).1.options (dialog_move st0 j).1.sel
        = some (confirm_yes_row σ) := by
      rw [m1, m2]
      exact hyes
    obtain ⟨st1, select, hact, b1, b2, -, -, -, -, -, -, -, b11⟩ :=
      dialog_action_no_cb F (dialog_move st0 j).1 (dialog_move st0 j).2 j _ ho2 rfl
    have hsel := b11 (fun h => hD h.symm) (fun h => hS h.symm) hl hr hs ha
    subst hsel
    obtain ⟨o1, ho1, hp⟩ := dialog_poll_close F st0 st1 j c1 hact
    rw [b1, b2, m1, m2, hyes] at ho1
    simp only [Option.some.injEq] at ho1
    subst ho1
    have hg : rg_gui_confirm F world title message true (pre ++ j :: rest) =
        (rg_gui_dialog F world title
          (some (if message.isSome then confirm_options F σ message
                 else (confirm_options F σ message).drop 1))
          (if true = true then -2 else -1) (pre ++ j :: rest)).map
          fun r => decide (r.1 = 1) := rfl
    rw [hg, hrun, dialog_loop_closed F st0 st1 j rest _ hp]
    rfl
  · intro yes pre rest j st hreach hkey hdis hu hd ha
    obtain ⟨st0, hopen, c1, c2, c3, c4, c5, c6, c7, c8⟩ :=
      confirm_open F hL1 hL2 world title message yes
    have hafter : dialog_after F pre st0 = some st := by
      rw [hopen] at hreach
      exact hreach
    obtain ⟨i1, i2, -, -, i5, i6⟩ :=
      dialog_after_no_cb_inv F pre st0 st c3 c4 ⟨c5, c6⟩ c7 hafter
    have hrun := rg_gui_dialog_after F world title _ _ pre (j :: rest) st hreach
    obtain ⟨m1, m2, -, m4, -⟩ := dialog_move_dismiss st j hu hd
    obtain ⟨o, ho⟩ := option_at_defined st.options st0.options_count
      (by rw [i1]; exact c4) st.sel ⟨i5, i6⟩
    have ho2 : option_at (dialog_move st j).1.options (dialog_move st j).1.sel = some o := by
      rw [m1, m2]
      exact ho
    have hocb : o.update_cb = none := c7 o (by rw [← i1]; exact option_at_mem _ _ _ ho)
    obtain ⟨st1, select, hact, -, -, -, -, -, -, -, b9, -⟩ :=
      dialog_action_no_cb F (dialog_move st j).1 (dialog_move st j).2 j o ho2 hocb
    have hsel : select = RG_DIALOG_DISMISS := by rw [b9 ha, m4 hdis]
    subst hsel
    have hg : rg_gui_confirm F world title message yes (pre ++ j :: rest) =
        (rg_gui_dialog F world title
          (some (if message.isSome then confirm_options F σ message
                 else (confirm_options F σ message).drop 1))
          (if yes then -2 else -1) (pre ++ j :: rest)).map
          fun r => decide (r.1 = 1) := rfl
    rw [hg, hrun, dialog_loop_closed F st _ j rest (-1) (dialog_poll_dismiss F st st1 j hkey hact)]
    rfl


open rg_key_t in
theorem confirm_outcome_witness :
    (demo_flags.RG_DIALOG_FLAG_LAST ≠ -1 ∧ demo_flags.RG_DIALOG_FLAG_LAST ≠ 1 ∧
      demo_flags.RG_DIALOG_FLAG_DISABLED ≠ 1 ∧ demo_flags.RG_DIALOG_FLAG_SKIP ≠ 1) ∧
    rg_gui_confirm demo_flags () none (some [72]) true ([[], []] ++ [RG_KEY_A] :: []) = some true ∧
    rg_gui_confirm demo_flags () none none true ([[], []] ++ [RG_KEY_A] :: []) = some true :=
  ⟨by decide,
    (confirm_outcome demo_flags (by decide) (by decide) (by decide) (by decide) () none
      (some [72])).1 [[], []] [] [RG_KEY_A] (fun r hr k hk => by
        simp only [List.mem_cons, List.mem_singleton, List.not_mem_nil, or_false, or_self] at hr
        subst hr
        simp at hk) (by decide) (by decide) (by decide) (by decide) (by decide) (by decide),
    (confirm_outcome demo_flags (by decide) (by decide) (by decide) (by decide) () none
      none).1 [[], []] [] [RG_KEY_A] (fun r hr k hk => by
        simp only [List.mem_cons, List.mem_singleton, List.not_mem_nil, or_false, or_self] at hr
        subst hr
        simp at hk) (by decide) (by decide) (by decide) (by decide) (by decide) (by decide)⟩

open rg_key_t in
theorem dialog_return_value_witness :
    (rg_gui_dialog demo_flags () none (some (confirm_options demo_flags Unit (some [72]))) (-2)
      ([] ++ [RG_KEY_B] :: [])).map Prod.fst = some (-1) :=
  (dialog_return_value demo_flags () none (some (confirm_options demo_flags Unit (some [72])))
    (-2) [] [] [RG_KEY_B] demo_dialog (by rfl) rfl).2.2.1 (confirm_yes_row Unit) (by rfl)
    (Or.inl (by decide)) (by decide) (by decide) (Or.inl rfl)

open rg_key_t in
theorem dialog_up_down_wraps_witness :
    ∃ r, dialog_poll demo_flags plain_dialog [RG_KEY_UP] = some r ∧
      (∀ st1, r = poll_result.running st1 →
        st1.sel = if plain_dialog.sel = 0 then plain_dialog.options_count - 1
          else plain_dialog.sel - 1) ∧
      ((RG_KEY_LEFT ∉ [RG_KEY_UP] ∧ RG_KEY_RIGHT ∉ [RG_KEY_UP] ∧ RG_KEY_START ∉ [RG_KEY_UP] ∧
          RG_KEY_A ∉ [RG_KEY_UP]) →
        ∃ st1, r = poll_result.running st1) :=
  (dialog_up_down_wraps demo_flags plain_dialog [RG_KEY_UP] (by decide) (by decide) (by decide)
    (Or.inl rfl) rfl (by
      intro i f h0 h3 hf
      have hi : i = 0 ∨ i = 1 ∨ i = 2 := by
        have : plain_dialog.options_count = 3 := rfl
        omega
      rcases hi with rfl | rfl | rfl <;>
        · simp only [row_flags, option_at, plain_dialog] at hf
          simp at hf
          subst hf
          decide)).1 (by decide)

/-! ## Theorems: scroll window and image loading -/

theorem scroll_loop_last (y limit : Int) :
    ∀ (rest pre : List Int) (yy top : Int),
      y + (pre ++ rest).sum ≥ limit → pre ++ rest ≠ [] →
      ((top = 0 ∧ yy = y + pre.sum ∧ (pre = [] ∨ yy < limit)) ∨
        (0 ≤ top ∧ top < pre.length ∧ yy = y + (pre.drop (top.toNat + 1)).sum ∧
          (top.toNat + 1 = pre.length ∨ yy < limit) ∧
          ∃ s : Nat, s ≤ top.toNat ∧ y + ((pre.take (top.toNat + 1)).drop s).sum ≥ limit)) →
      0 ≤ scroll_loop y limit (((pre ++ rest).length : Int) - 1) pre.length rest yy top ∧
        scroll_loop y limit (((pre ++ rest).length : Int) - 1) pre.length rest yy top
          < (pre ++ rest).length ∧
        ((scroll_loop y limit (((pre ++ rest).length : Int) - 1) pre.length rest yy top).toNat + 1
            < (pre ++ rest).length →
          y + ((pre ++ rest).drop
            ((scroll_loop y limit (((pre ++ rest).length : Int) - 1) pre.length rest yy
              top).toNat + 1)).sum < limit) ∧
        ∃ s : Nat,
          s ≤ (scroll_loop y limit (((pre ++ rest).length : Int) - 1) pre.length rest yy
            top).toNat ∧
          y + (((pre ++ rest).take
            ((scroll_loop y limit (((pre ++ rest).length : Int) - 1) pre.length rest yy
              top).toNat + 1)).drop s).sum ≥ limit := by
  intro rest
  induction rest with
  | nil =>
    intro pre yy top hsum hne hinv
    simp only [List.append_nil] at hsum hne
    simp only [scroll_loop, List.append_nil]
    rcases hinv with ⟨h1, h2, h3⟩ | ⟨h1, h2, h3, h4, s, h5, h6⟩
    · rcases h3 with h3 | h3
      · exact absurd h3 hne
      · omega
    · refine ⟨h1, h2, ?_, s, h5, h6⟩
      intro hlt
      rcases h4 with h4 | h4
      · omega
      · omega
  | cons h rest ih =>
    intro pre yy top hsum hne hinv
    have e1 : pre ++ h :: rest = (pre ++ [h]) ++ rest := by simp
    have e2 : (pre ++ [h]).length = pre.length + 1 := by simp
    have hsel : ¬ (((pre ++ h :: rest).length : Int) - 1 < (pre.length : Int)) := by
      simp only [List.length_append, List.length_cons]
      push_cast
      omega
    simp only [scroll_loop]
    by_cases hov : yy + h ≥ limit
    · rw [if_pos hov, if_neg hsel]
      have key := ih (pre ++ [h]) y (pre.length : Int) (by rw [← e1]; exact hsum)
        (by simp) (Or.inr ⟨by omega, by rw [e2]; push_cast; omega, by simp,
          Or.inl (by simp), by
            rcases hinv with ⟨h1, h2, h3⟩ | ⟨h1, h2, h3, h4, s, h5, h6⟩
            · refine ⟨0, by omega, ?_⟩
              simp only [Int.toNat_ofNat, List.drop_zero]
              rw [List.take_of_length_le (by simp)]
              simp only [List.sum_append, List.sum_cons, List.sum_nil, add_zero]
              omega
            · refine ⟨top.toNat + 1, by simp only [Int.toNat_ofNat]; omega, ?_⟩
              simp only [Int.toNat_ofNat]
              rw [List.take_of_length_le (by simp)]
              rw [List.drop_append_of_le_length (by omega)]
              simp only [List.sum_append, List.sum_cons, List.sum_nil, add_zero]
              omega⟩)
      rw [← e1, e2] at key
      exact key
    · rw [if_neg hov]
      have key := ih (pre ++ [h]) (yy + h) top (by rw [← e1]; exact hsum) (by simp) (by
        rcases hinv with ⟨h1, h2, h3⟩ | ⟨h1, h2, h3, h4, s, h5, h6⟩
        · left
          refine ⟨h1, ?_, Or.inr (by omega)⟩
          simp only [List.sum_append, List.sum_cons, List.sum_nil, add_zero]
          omega
        · right
          refine ⟨h1, by rw [e2]; push_cast; omega, ?_, Or.inr (by omega), s, h5, ?_⟩
          · rw [List.drop_append_of_le_length (by omega)]
            simp only [List.sum_append, List.sum_cons, List.sum_nil, add_zero]
            omega
          · rw [List.take_append_of_le_length (by omega)]
            exact h6)
      rw [← e1, e2] at key
      exact key

/-- When the rows from `i` on are `h :: rest`, row `i` exists and is `h`. -/
theorem drop_cons_parts (l : List Int) (i : Nat) (h : Int) (rest : List Int)
    (hd : l.drop i = h :: rest) :
    i < l.length ∧ l.take (i + 1) = l.take i ++ [h] ∧ l.drop (i + 1) = rest := by
  have hi : i < l.length := by
    by_contra hc
    rw [List.drop_eq_nil_of_le (by omega)] at hd
    cases hd
  have e := List.drop_eq_getElem_cons hi
  rw [e] at hd
  have h1 : l[i] = h := (List.cons.inj hd).1
  have h2 : l.drop (i + 1) = rest := (List.cons.inj hd).2
  refine ⟨hi, ?_, h2⟩
  rw [List.take_succ, List.getElem?_eq_getElem hi, h1]
  rfl

/-- The test at row `i` of a page that starts at row `s`, in terms of the height accumulated
before row `i`. -/
theorem page_reaches_step (l : List Int) (y limit : Int) (s i : Nat) (h : Int)
    (ht : l.take (i + 1) = l.take i ++ [h]) (hi : i < l.length) (hs : s ≤ i) :
    page_reaches l y limit s i ↔ y + ((l.take i).drop s).sum + h ≥ limit := by
  unfold page_reaches
  rw [ht, List.drop_append_of_le_length (by rw [List.length_take]; omega)]
  simp only [List.sum_append, List.sum_cons, List.sum_nil, add_zero]
  omega

/-- A page that starts at row `s` ends at one row only. -/
theorem page_end_unique (l : List Int) (y limit : Int) (s a b : Nat)
    (ha : page_end l y limit s a) (hb : page_end l y limit s b) : a = b := by
  obtain ⟨a1, _, a3, a4⟩ := ha
  obtain ⟨b1, _, b3, b4⟩ := hb
  rcases Nat.lt_trichotomy a b with h | h | h
  · exact absurd a3 (b4 a h a1)
  · exact h
  · exact absurd b3 (a4 b h b1)

/-- No page break lies before the end of the first page. -/
theorem page_break_first_le (l : List Int) (y limit : Int) (b : Nat)
    (hb : page_end l y limit 0 b) : ∀ a, page_break l y limit a → b ≤ a := by
  intro a ha
  induction ha with
  | first r hr => exact le_of_eq (page_end_unique l y limit 0 b r hb hr)
  | next c r _ hr ih => have := hr.1; omega

/-- Between two page breaks `a < b` the page that starts after `a` ends at or before `b`. -/
theorem page_break_next (l : List Int) (y limit : Int) :
    ∀ (b a : Nat), page_break l y limit a → page_break l y limit b → a < b →
      ∃ c, page_end l y limit (a + 1) c ∧ c ≤ b := by
  intro b
  induction b using Nat.strong_induction_on with
  | _ b ih =>
    intro a ha hb hab
    cases hb with
    | first _ hr =>
      have := page_break_first_le l y limit b hr a ha
      omega
    | next b' _ hb' hr =>
      rcases Nat.lt_trichotomy a b' with h | h | h
      · obtain ⟨c, hc, hcb⟩ := ih b' (by have := hr.1; omega) a ha hb' h
        exact ⟨c, hc, by have := hr.1; omega⟩
      · subst h
        exact ⟨b, hr, le_rfl⟩
      · obtain ⟨c, hc, hca⟩ := ih a hab b' hb' ha h
        have := page_end_unique l y limit (b' + 1) c b hc hr
        omega

/-- A page break after which the accumulated height never reaches the bottom of the box is
the greatest page break. -/
theorem page_break_last (l : List Int) (y limit : Int) (t : Nat)
    (ht : page_break l y limit t)
    (hlast : ∀ j, t < j → j < l.length → ¬ page_reaches l y limit (t + 1) j) :
    ∀ r, page_break l y limit r → r ≤ t := by
  intro r hr
  by_contra hc
  obtain ⟨c, hc1, hc2⟩ := page_break_next l y limit r t ht hr (by omega)
  exact hlast c (by have := hc1.1; omega) hc1.2.1 hc1.2.2.1

/-- The loop that computes `top_i`, with the last row selected: `top_i` is 0 while no page
has ended, then the page break seen last, and `yy` is `y` plus the height accumulated
since. -/
theorem scroll_loop_pages (l : List Int) (y limit : Int) :
    ∀ (rest : List Int) (i : Nat) (yy top : Int), l.drop i = rest → i ≤ l.length →
      ((top = 0 ∧ yy = y + (l.take i).sum ∧ ∀ j, j < i → ¬ page_reaches l y limit 0 j) ∨
        (∃ r : Nat, top = (r : Int) ∧ r < i ∧ page_break l y limit r ∧
          yy = y + ((l.take i).drop (r + 1)).sum ∧
          ∀ j, r < j → j < i → ¬ page_reaches l y limit (r + 1) j)) →
      ((scroll_loop y limit ((l.length : Int) - 1) i rest yy top = 0 ∧
          ∀ j, j < l.length → ¬ page_reaches l y limit 0 j) ∨
        (∃ r : Nat, scroll_loop y limit ((l.length : Int) - 1) i rest yy top = (r : Int) ∧
          r < l.length ∧ page_break l y limit r ∧
          ∀ j, r < j → j < l.length → ¬ page_reaches l y limit (r + 1) j)) := by
  intro rest
  induction rest with
  | nil =>
    intro i yy top hd hi hinv
    have hil : i = l.length := by
      have := congrArg List.length hd
      simp only [List.length_drop, List.length_nil] at this
      omega
    subst hil
    simp only [scroll_loop]
    rcases hinv with ⟨h1, _, h3⟩ | ⟨r, h1, h2, h3, _, h5⟩
    · exact Or.inl ⟨h1, h3⟩
    · exact Or.inr ⟨r, h1, h2, h3, h5⟩
  | cons h rest ih =>
    intro i yy top hd hi hinv
    obtain ⟨hil, htake, hdrop⟩ := drop_cons_parts l i h rest hd
    have hsel : ¬ ((l.length : Int) - 1 < (i : Int)) := by omega
    simp only [scroll_loop]
    by_cases hov : yy + h ≥ limit
    · rw [if_pos hov, if_neg hsel]
      apply ih (i + 1) y (i : Int) hdrop (by omega)
      right
      refine ⟨i, rfl, by omega, ?_, ?_, ?_⟩
      · rcases hinv with ⟨_, h2, h3⟩ | ⟨r, _, h2, h3, h4, h5⟩
        · refine page_break.first i ⟨by omega, hil, ?_, ?_⟩
          · rw [page_reaches_step l y limit 0 i h htake hil (by omega)]
            simp only [List.drop_zero]
            omega
          · intro j hj _
            exact h3 j hj
        · refine page_break.next r i h3 ⟨by omega, hil, ?_, ?_⟩
          · rw [page_reaches_step l y limit (r + 1) i h htake hil (by omega)]
            omega
          · intro j hj hrj
            exact h5 j (by omega) hj
      · rw [List.drop_of_length_le (by rw [List.length_take]; omega)]
        simp
      · intro j h1 h2
        omega
    · rw [if_neg hov]
      apply ih (i + 1) (yy + h) top hdrop (by omega)
      rcases hinv with ⟨h1, h2, h3⟩ | ⟨r, h1, h2, h3, h4, h5⟩
      · left
        refine ⟨h1, ?_, ?_⟩
        · rw [htake]
          simp only [List.sum_append, List.sum_cons, List.sum_nil, add_zero]
          omega
        · intro j hj
          rcases Nat.lt_succ_iff_lt_or_eq.mp hj with hj | hj
          · exact h3 j hj
          · subst hj
            rw [page_reaches_step l y limit 0 j h htake hil (by omega)]
            simp only [List.drop_zero]
            omega
      · right
        refine ⟨r, h1, by omega, h3, ?_, ?_⟩
        · rw [htake, List.drop_append_of_le_length (by rw [List.length_take]; omega)]
          simp only [List.sum_append, List.sum_cons, List.sum_nil, add_zero]
          omega
        · intro j hrj hj
          rcases Nat.lt_succ_iff_lt_or_eq.mp hj with hj | hj
          · exact h5 j hrj hj
          · subst hj
            rw [page_reaches_step l y limit (r + 1) j h htake hil (by omega)]
            omega


/-- At a page break the height accumulated since some earlier row reaches the bottom. -/
theorem page_break_reaches (l : List Int) (y limit : Int) (t : Nat)
    (ht : page_break l y limit t) :
    ∃ s : Nat, s ≤ t ∧ y + ((l.take (t + 1)).drop s).sum ≥ limit := by
  cases ht with
  | first _ hr => exact ⟨0, hr.1, hr.2.2.1⟩
  | next b _ _ hr => exact ⟨b + 1, hr.1, hr.2.2.1⟩

/-- For five rows of height 10 below `y = 0` in a box whose bottom is at 35, row 3 is a
page break (the first one: 10, 20, 30 stay below 35 and 40 reaches it), and rows 0
and 4 are not. -/
theorem page_break_example :
    page_break [10, 10, 10, 10, 10] 0 35 3 ∧ ¬ page_break [10, 10, 10, 10, 10] 0 35 0 ∧
      ¬ page_break [10, 10, 10, 10, 10] 0 35 4 := by
  have h3 : page_break [10, 10, 10, 10, 10] 0 35 3 := page_break.first 3 (by decide)
  refine ⟨h3, ?_, ?_⟩
  · intro h
    have := page_break_first_le [10, 10, 10, 10, 10] 0 35 3 (by decide) 0 h
    omega
  · intro h
    obtain ⟨c, hc, hc4⟩ := page_break_next [10, 10, 10, 10, 10] 0 35 4 3 h3 h (by omega)
    have h4 : c = 4 := by have := hc.1; omega
    subst h4
    revert hc
    decide

theorem to_int32_id (x : Int) (h1 : -2147483648 ≤ x) (h2 : x < 2147483648) :
    to_int32 x = x := by
  simp only [to_int32]
  norm_num
  omega

/-- The test `size_diff >= 0 && size_diff <= 100` on the 32-bit value of `a - b`. -/
theorem size_diff_mod (a b : Int) :
    (0 ≤ to_int32 (to_int32 a - b) ∧ to_int32 (to_int32 a - b) ≤ 100) ↔
      (a - b) % 2 ^ 32 ≤ 100 := by
  simp only [to_int32]
  norm_num
  omega

theorem scroll_loop_passed (y limit : Int) :
    ∀ (rest : List Int) (i : Nat) (yy top : Int), 1 ≤ i →
      scroll_loop y limit 0 i rest yy top = top := by
  intro rest
  induction rest with
  | nil => intro i yy top _; rfl
  | cons h rest ih =>
    intro i yy top hi
    have hlt : (0 : Int) < (i : Int) := by omega
    simp only [scroll_loop, hlt, if_true]
    split
    · rfl
    · exact ih (i + 1) (yy + h) top (by omega)

/-- C20: in `rg_gui_draw_dialog`, for every list of rows, whatever their heights,
the position of the first row and the bottom of the box, the top-of-window
index computed for selection 0 is 0. -/
theorem scroll_top_first_row (row_height : List Int) (y limit : Int) :
    scroll_top row_height y limit 0 = 0 := by
  unfold scroll_top
  split
  · cases row_height with
    | nil => rfl
    | cons h rest =>
      simp only [scroll_loop]
      split
      · simp only [Nat.cast_zero, lt_self_iff_false, if_false]
        exact scroll_loop_passed y limit rest 1 y _ le_rfl
      · exact scroll_loop_passed y limit rest 1 (y + h) 0 le_rfl
  · rfl

/-! ## Theorems: the glyph decoder `get_glyph` -/

theorem bitmap_get_nil (y : Nat) : bitmap_get [] y = 0 := by
  simp [bitmap_get]

theorem bitmap_get_set (v : Nat) :
    ∀ (bm : List Nat) (y y1 : Nat),
      bitmap_get (bitmap_set bm y v) y1 = if y1 = y then v else bitmap_get bm y1 := by
  intro bm
  induction bm with
  | nil =>
    intro y
    induction y with
    | zero =>
      intro y1
      cases y1 with
      | zero => simp [bitmap_set, bitmap_get]
      | succ n => simp [bitmap_set, bitmap_get]
    | succ y ih =>
      intro y1
      cases y1 with
      | zero => simp [bitmap_set, bitmap_get]
      | succ n =>
        have h := ih n
        simp only [bitmap_get, List.getD_eq_getElem?_getD] at h ⊢
        simp only [bitmap_set, List.getElem?_cons_succ, h, Nat.succ_inj']
        simp
  | cons r rs ih =>
    intro y y1
    cases y with
    | zero =>
      cases y1 with
      | zero => simp [bitmap_set, bitmap_get]
      | succ n => simp [bitmap_set, bitmap_get]
    | succ y =>
      cases y1 with
      | zero => simp [bitmap_set, bitmap_get]
      | succ n =>
        have h := ih y n
        simp only [bitmap_get, List.getD_eq_getElem?_getD] at h ⊢
        simp only [bitmap_set, List.getElem?_cons_succ, h, Nat.succ_inj']

theorem rescale_fold_get (g : Nat → Nat) (bm : List Nat) :
    ∀ (n y : Nat),
      bitmap_get ((List.range n).foldl (fun b i => bitmap_set b i (g i)) bm) y
        = if y < n then g y else bitmap_get bm y := by
  intro n
  induction n with
  | zero => intro y; simp
  | succ n ih =>
    intro y
    rw [List.range_succ, List.foldl_append]
    simp only [List.foldl_cons, List.foldl_nil]
    rw [bitmap_get_set, ih]
    by_cases h1 : y = n
    · subst h1
      simp
    · by_cases h2 : y < n
      · have h3 : y < n + 1 := by omega
        simp [h1, h2, h3]
      · have h3 : ¬ y < n + 1 := by omega
        simp [h1, h2, h3]

theorem rescale_height (font : rg_font_t) (points : Nat) (out : rg_glyph_t) :
    (rescale font points out).height
      = if points ≠ 0 ∧ points ≠ font.height then points else out.height := by
  simp only [rescale]
  split <;> rfl

theorem rescale_get (font : rg_font_t) (points : Nat) (out : rg_glyph_t) (y : Nat) :
    bitmap_get (rescale font points out).bitmap y
      = if (points ≠ 0 ∧ points ≠ font.height) ∧ y < points then
          bitmap_get out.bitmap (rescale_row points font.height y)
        else bitmap_get out.bitmap y := by
  simp only [rescale]
  by_cases h : points ≠ 0 ∧ points ≠ font.height
  · rw [if_pos h]
    have e := rescale_fold_get
      (fun i => bitmap_get out.bitmap (rescale_row points font.height i)) out.bitmap points y
    rw [e]
    by_cases hy : y < points
    · rw [if_pos hy, if_pos ⟨h, hy⟩]
    · rw [if_neg hy, if_neg (fun hh => hy hh.2)]
  · rw [if_neg h]
    simp only [h, false_and, if_false]

theorem rescale_skip (font : rg_font_t) (points : Nat) (out : rg_glyph_t)
    (h : points = 0 ∨ points = font.height) : rescale font points out = out := by
  simp only [rescale]
  rw [if_neg]
  rcases h with h | h
  · simp [h]
  · simp [h]

/-- C19: for every font, fixed or proportional, and every requested point size,
`get_glyph` for the newline character returns a glyph of width 0 whose bitmap
rows are all zero. -/
theorem get_glyph_newline (font : rg_font_t) (points : Nat) :
    ∃ gl, get_glyph font points 10 = some gl ∧ gl.width = 0 ∧
      ∀ y, bitmap_get gl.bitmap y = 0 := by
  refine ⟨rescale font points ⟨0, font.height, []⟩, ?_, ?_, ?_⟩
  · simp only [get_glyph, if_true, Option.bind_eq_bind, Option.some_bind]
  · rw [rescale_width]
  · intro y
    rw [rescale_get]
    split <;> exact bitmap_get_nil _

theorem read_byte_some (data : List Nat) (i : Nat) (h : i < data.length) :
    read_byte data i = some (data.getD i 0 % 256) := by
  simp [read_byte, List.getD_eq_getElem?_getD, List.getElem?_eq_getElem h]

theorem copy_rows_spec (font : rg_font_t) (c : Nat) :
    ∀ (n y : Nat) (bm : List Nat), c * font.height + y + n ≤ font.data.length →
      ∃ bm1, copy_rows font c n y bm = some bm1 ∧
        ∀ y1, bitmap_get bm1 y1
          = if y ≤ y1 ∧ y1 < y + n then font.data.getD (c * font.height + y1) 0 % 256
            else bitmap_get bm y1 := by
  intro n
  induction n with
  | zero =>
    intro y bm _
    refine ⟨bm, rfl, fun y1 => ?_⟩
    rw [if_neg]
    omega
  | succ n ih =>
    intro y bm hlen
    obtain ⟨bm1, h1, h2⟩ :=
      ih (y + 1) (bitmap_set bm y (font.data.getD (c * font.height + y) 0 % 256)) (by omega)
    refine ⟨bm1, ?_, fun y1 => ?_⟩
    · simp only [copy_rows]
      rw [read_byte_some _ _ (by omega), Option.some_bind, h1]
    · rw [h2, bitmap_get_set]
      by_cases e : y1 = y
      · subst e
        have a1 : ¬ (y1 + 1 ≤ y1 ∧ y1 < y1 + 1 + n) := by omega
        have a2 : y1 ≤ y1 ∧ y1 < y1 + (n + 1) := by omega
        rw [if_neg a1, if_pos rfl, if_pos a2]
      · rw [if_neg e]
        by_cases a1 : y + 1 ≤ y1 ∧ y1 < y + 1 + n
        · have a2 : y ≤ y1 ∧ y1 < y + (n + 1) := by omega
          rw [if_pos a1, if_pos a2]
        · have a2 : ¬ (y ≤ y1 ∧ y1 < y + (n + 1)) := by omega
          rw [if_neg a1, if_neg a2]

/-- C18: for a fixed-layout font whose table holds the rows of the character, and
every character code `c` other than newline, at native point size (or with
point size 0, which also skips the rescale step), `get_glyph` returns a glyph
whose width is the font's width, or 8 when the font's width is 0, and whose
height is the font's height; when `c` is below the font's character count its
row `y` is `data[c * height + y]` for every `y < height` (and zero from `height`
on), and otherwise all rows are zero. -/
theorem get_glyph_fixed (font : rg_font_t) (points c : Nat)
    (htype : font.type = 0) (hc : c ≠ 10) (hp : points = 0 ∨ points = font.height)
    (hdata : c < font.chars → (c + 1) * font.height ≤ font.data.length) :
    ∃ gl, get_glyph font points c = some gl ∧
      gl.width = (if font.width = 0 then 8 else font.width) ∧
      gl.height = font.height ∧
      (c < font.chars →
        (∀ y, y < font.height →
          read_byte font.data (c * font.height + y) = some (bitmap_get gl.bitmap y)) ∧
        ∀ y, font.height ≤ y → bitmap_get gl.bitmap y = 0) ∧
      (¬ c < font.chars → ∀ y, bitmap_get gl.bitmap y = 0) := by
  have hw : (if font.width ≠ 0 then font.width else 8) = if font.width = 0 then 8 else font.width := by
    by_cases h : font.width = 0 <;> simp [h]
  by_cases hch : c < font.chars
  · have hlen : c * font.height + 0 + font.height ≤ font.data.length := by
      have := hdata hch
      rw [Nat.add_mul, Nat.one_mul] at this
      omega
    obtain ⟨bm1, h1, h2⟩ := copy_rows_spec font c font.height 0 [] hlen
    refine ⟨⟨if font.width ≠ 0 then font.width else 8, font.height, bm1⟩, ?_, hw, rfl, ?_, ?_⟩
    · simp only [get_glyph, hc, if_false, htype, if_true, hch, h1, Option.map_some',
        Option.bind_eq_bind, Option.some_bind]
      rw [rescale_skip _ _ _ hp]
    · intro _
      refine ⟨fun y hy => ?_, fun y hy => ?_⟩
      · show read_byte font.data (c * font.height + y) = some (bitmap_get bm1 y)
        rw [h2, if_pos (by omega), read_byte_some]
        rw [Nat.add_mul, Nat.one_mul] at hdata
        have := hdata hch
        omega
      · show bitmap_get bm1 y = 0
        rw [h2, if_neg (by omega)]
        exact bitmap_get_nil y
    · intro h
      exact absurd hch h
  · refine ⟨⟨if font.width ≠ 0 then font.width else 8, font.height, []⟩, ?_, hw, rfl, ?_, ?_⟩
    · simp only [get_glyph, hc, if_false, htype, if_true, hch, Option.bind_eq_bind,
        Option.some_bind]
      rw [rescale_skip _ _ _ hp]
    · intro h
      exact absurd h hch
    · intro _ y
      exact bitmap_get_nil y

theorem and_mask_ne_zero (ch j : Nat) : (ch &&& 2 ^ j ≠ 0) ↔ ch.testBit j = true := by
  rw [Nat.and_two_pow]
  cases h : ch.testBit j
  · simp
  · simp

theorem unpack_pixel_step (data : List Nat) (r : glyph_record) (y x : Nat) (s : unpack_state)
    (hx : x < r.width)
    (hinv : unpack_inv data r (x + y * r.width) s)
    (hlen : r.pos + (x + y * r.width) / 8 < data.length)
    (hshift : payload_bit data r.pos (x + y * r.width) = true →
      0 ≤ r.xOffset + (x : Int) ∧ r.xOffset + (x : Int) < 32) :
    ∃ s1, unpack_pixel data r y x s = some s1 ∧
      unpack_inv data r (x + y * r.width + 1) s1 := by
  obtain ⟨hi1, hi2, hi3⟩ := hinv
  generalize hk : x + y * r.width = k at hi1 hi2 hi3 hlen hshift
  have hdiv : k / r.width = y := by
    rw [← hk, Nat.add_mul_div_right _ _ (by omega), Nat.div_eq_of_lt hx, Nat.zero_add]
  have hmod : k % r.width = x := by
    rw [← hk, Nat.add_mul_mod_self_right, Nat.mod_eq_of_lt hx]
  -- the state after the conditional fetch
  have hfetch : ∃ s0 : unpack_state,
      (if k % 8 = 0 then
        (read_byte data s.pos).map (fun b => (⟨s.pos + 1, b, 0x80, s.bitmap⟩ : unpack_state))
       else some s) = some s0 ∧
      s0.pos = r.pos + k / 8 + 1 ∧ s0.ch = data.getD (r.pos + k / 8) 0 % 256 ∧
      s0.mask = 2 ^ (7 - k % 8) ∧ s0.bitmap = s.bitmap := by
    by_cases h8 : k % 8 = 0
    · have hp := hi1 h8
      refine ⟨⟨s.pos + 1, data.getD (r.pos + k / 8) 0 % 256, 0x80, s.bitmap⟩, ?_, ?_, rfl, ?_, rfl⟩
      · rw [if_pos h8, hp, read_byte_some _ _ hlen]
        rfl
      · show s.pos + 1 = _
        rw [hp]
      · show 0x80 = 2 ^ (7 - k % 8)
        rw [h8]
        rfl
    · obtain ⟨hp, hc, hm⟩ := hi2 h8
      exact ⟨s, by rw [if_neg h8], hp, hc, hm, rfl⟩
  obtain ⟨s0, hf, hp0, hc0, hm0, hb0⟩ := hfetch
  have hbit : (s0.ch &&& s0.mask ≠ 0) ↔ payload_bit data r.pos k = true := by
    rw [hm0, hc0, and_mask_ne_zero]
    rfl
  have hmask : k % 8 ≠ 7 → s0.mask >>> 1 = 2 ^ (7 - (k + 1) % 8) := by
    intro h7
    rw [hm0, Nat.shiftRight_eq_div_pow, pow_one]
    have e : 7 - k % 8 = (7 - (k + 1) % 8) + 1 := by omega
    rw [e, pow_succ, Nat.mul_div_cancel _ (by norm_num)]
  have hnext1 : (k + 1) % 8 = 0 → s0.pos = r.pos + (k + 1) / 8 := by
    intro h
    rw [hp0]
    omega
  have hnext2 : (k + 1) % 8 ≠ 0 → s0.pos = r.pos + (k + 1) / 8 + 1 ∧
      s0.ch = data.getD (r.pos + (k + 1) / 8) 0 % 256 ∧
      s0.mask >>> 1 = 2 ^ (7 - (k + 1) % 8) := by
    intro h
    have e : (k + 1) / 8 = k / 8 := by omega
    rw [e]
    exact ⟨hp0, hc0, hmask (by omega)⟩
  by_cases hpb : payload_bit data r.pos k = true
  · obtain ⟨hs1, hs2⟩ := hshift hpb
    refine ⟨⟨s0.pos, s0.ch, s0.mask >>> 1,
      bitmap_set s0.bitmap (r.adjYOffset + y)
        (bitmap_get s0.bitmap (r.adjYOffset + y) ||| 2 ^ (r.xOffset + (x : Int)).toNat)⟩,
      ?_, hnext1, hnext2, ?_⟩
    · simp only [unpack_pixel, hk, hf, Option.some_bind]
      rw [if_pos (hbit.mpr hpb), if_pos ⟨hs1, hs2⟩]
      rfl
    · intro row bit
      show (bitmap_get (bitmap_set s0.bitmap _ _) row).testBit bit = true ↔ _
      rw [bitmap_get_set, hb0]
      constructor
      · intro h
        by_cases hrow : row = r.adjYOffset + y
        · rw [if_pos hrow, Nat.testBit_or, Bool.or_eq_true] at h
          rcases h with h | h
          · rw [← hrow] at h
            obtain ⟨j, hj, h1, h2, h3⟩ := (hi3 row bit).mp h
            exact ⟨j, by omega, h1, h2, h3⟩
          · rw [Nat.testBit_two_pow, decide_eq_true_eq] at h
            refine ⟨k, by omega, hpb, ?_, ?_⟩
            · rw [hdiv, hrow]
            · rw [hmod, ← h, Int.toNat_of_nonneg hs1]
        · rw [if_neg hrow] at h
          obtain ⟨j, hj, h1, h2, h3⟩ := (hi3 row bit).mp h
          exact ⟨j, by omega, h1, h2, h3⟩
      · rintro ⟨j, hj, h1, h2, h3⟩
        by_cases hjk : j = k
        · subst hjk
          rw [hdiv] at h2
          rw [hmod] at h3
          rw [if_pos h2, Nat.testBit_or, Bool.or_eq_true]
          right
          rw [Nat.testBit_two_pow, decide_eq_true_eq, ← h3]
          rfl
        · have hold := (hi3 row bit).mpr ⟨j, by omega, h1, h2, h3⟩
          by_cases hrow : row = r.adjYOffset + y
          · rw [if_pos hrow, Nat.testBit_or, Bool.or_eq_true]
            left
            rw [← hrow]
            exact hold
          · rw [if_neg hrow]
            exact hold
  · refine ⟨⟨s0.pos, s0.ch, s0.mask >>> 1, s0.bitmap⟩, ?_, hnext1, hnext2, ?_⟩
    · simp only [unpack_pixel, hk, hf, Option.some_bind]
      rw [if_neg (fun h => hpb (hbit.mp h))]
      rfl
    · intro row bit
      show (bitmap_get s0.bitmap row).testBit bit = true ↔ _
      rw [hb0, hi3 row bit]
      constructor
      · rintro ⟨j, hj, h1, h2, h3⟩
        exact ⟨j, by omega, h1, h2, h3⟩
      · rintro ⟨j, hj, h1, h2, h3⟩
        by_cases hjk : j = k
        · subst hjk
          exact absurd h1 hpb
        · exact ⟨j, by omega, h1, h2, h3⟩

theorem unpack_row_spec (data : List Nat) (r : glyph_record) (y K : Nat)
    (hB : ∀ j, j < K → r.pos + j / 8 < data.length)
    (hS : ∀ j, j < K → payload_bit data r.pos j = true →
      0 ≤ r.xOffset + ((j % r.width : Nat) : Int) ∧ r.xOffset + ((j % r.width : Nat) : Int) < 32) :
    ∀ (n x : Nat) (s : unpack_state), x + n ≤ r.width → x + n + y * r.width ≤ K →
      unpack_inv data r (x + y * r.width) s →
      ∃ s1, unpack_row data r y n x s = some s1 ∧ unpack_inv data r (x + n + y * r.width) s1 := by
  intro n
  induction n with
  | zero =>
    intro x s _ _ hinv
    exact ⟨s, rfl, hinv⟩
  | succ n ih =>
    intro x s hx hK hinv
    have hxw : x < r.width := by omega
    have hmod : (x + y * r.width) % r.width = x := by
      rw [Nat.add_mul_mod_self_right, Nat.mod_eq_of_lt hxw]
    obtain ⟨s1, h1, h2⟩ := unpack_pixel_step data r y x s hxw hinv (hB _ (by omega))
      (fun hpb => by
        have := hS (x + y * r.width) (by omega) hpb
        rw [hmod] at this
        exact this)
    have e : x + y * r.width + 1 = (x + 1) + y * r.width := by omega
    rw [e] at h2
    obtain ⟨s2, h3, h4⟩ := ih (x + 1) s1 (by omega) (by omega) h2
    refine ⟨s2, ?_, ?_⟩
    · simp only [unpack_row, h1, Option.some_bind, h3]
    · have e2 : x + (n + 1) + y * r.width = x + 1 + n + y * r.width := by omega
      rw [e2]
      exact h4

theorem unpack_rows_spec (data : List Nat) (r : glyph_record) (K : Nat)
    (hB : ∀ j, j < K → r.pos + j / 8 < data.length)
    (hS : ∀ j, j < K → payload_bit data r.pos j = true →
      0 ≤ r.xOffset + ((j % r.width : Nat) : Int) ∧ r.xOffset + ((j % r.width : Nat) : Int) < 32) :
    ∀ (n y : Nat) (s : unpack_state), (y + n) * r.width ≤ K →
      unpack_inv data r (y * r.width) s →
      ∃ s1, unpack_rows data r n y s = some s1 ∧ unpack_inv data r ((y + n) * r.width) s1 := by
  intro n
  induction n with
  | zero =>
    intro y s _ hinv
    exact ⟨s, rfl, hinv⟩
  | succ n ih =>
    intro y s hK hinv
    have hle : (y + 1) * r.width ≤ (y + (n + 1)) * r.width :=
      Nat.mul_le_mul_right _ (by omega)
    have e0 : (y + 1) * r.width = 0 + r.width + y * r.width := by
      rw [Nat.add_mul, Nat.one_mul]
      omega
    have hinv0 : unpack_inv data r (0 + y * r.width) s := by
      rw [Nat.zero_add]
      exact hinv
    obtain ⟨s1, h1, h2⟩ := unpack_row_spec data r y K hB hS r.width 0 s (by omega)
      (by omega) hinv0
    rw [← e0] at h2
    have e1 : (y + (n + 1)) * r.width = (y + 1 + n) * r.width := by
      congr 1
      omega
    obtain ⟨s2, h3, h4⟩ := ih (y + 1) s1 (by rw [← e1]; exact hK) h2
    refine ⟨s2, ?_, ?_⟩
    · simp only [unpack_rows, h1, Option.some_bind, h3]
    · rw [e1]
      exact h4

theorem unpack_inv_init (data : List Nat) (r : glyph_record) :
    unpack_inv data r 0 ⟨r.pos, 0, 0x80, []⟩ := by
  refine ⟨fun _ => rfl, fun h => absurd rfl h, fun row bit => ?_⟩
  rw [bitmap_get_nil, Nat.zero_testBit]
  constructor
  · intro h
    cases h
  · rintro ⟨j, hj, _⟩
    omega

theorem scan_records_header (c : Nat) (data : List Nat) :
    ∀ (fuel pos : Nat) (r : glyph_record), scan_records c data fuel pos = some r →
      (c = r.charCode ∨ r.charCode = 0xFF) ∧
      ∃ p xo, pos ≤ p ∧ r.pos = p + 6 ∧
        read_byte data p = some r.charCode ∧ read_byte data (p + 1) = some r.adjYOffset ∧
        read_byte data (p + 2) = some r.width ∧ read_byte data (p + 3) = some r.height ∧
        read_byte data (p + 4) = some xo ∧
        r.xOffset = (if xo < 0x80 then (xo : Int) else -(0xFF - (xo : Int))) ∧
        read_byte data (p + 5) = some r.xDelta := by
  intro fuel
  induction fuel with
  | zero =>
    intro pos r h
    simp [scan_records] at h
  | succ fuel ih =>
    intro pos r h
    simp only [scan_records, Option.bind_eq_bind] at h
    cases h0 : read_byte data pos with
    | none => simp [h0] at h
    | some charCode =>
    cases h1 : read_byte data (pos + 1) with
    | none => simp [h0, h1] at h
    | some adjYOffset =>
    cases h2 : read_byte data (pos + 2) with
    | none => simp [h0, h1, h2] at h
    | some width =>
    cases h3 : read_byte data (pos + 3) with
    | none => simp [h0, h1, h2, h3] at h
    | some height =>
    cases h4 : read_byte data (pos + 4) with
    | none => simp [h0, h1, h2, h3, h4] at h
    | some xo =>
    cases h5 : read_byte data (pos + 5) with
    | none => simp [h0, h1, h2, h3, h4, h5] at h
    | some xDelta =>
    simp only [h0, h1, h2, h3, h4, h5, Option.some_bind] at h
    by_cases hcont : c ≠ charCode ∧ charCode ≠ 0xFF
    · rw [if_pos hcont] at h
      obtain ⟨ha, p, xo1, hp, hrest⟩ := ih _ r h
      refine ⟨ha, p, xo1, ?_, hrest⟩
      split at hp <;> omega
    · rw [if_neg hcont] at h
      have hskip : ¬ (c ≠ charCode ∧ charCode ≠ 0xFF ∧ width ≠ 0) :=
        fun hh => hcont ⟨hh.1, hh.2.1⟩
      rw [if_neg hskip] at h
      simp only [Option.some.injEq] at h
      subst h
      refine ⟨?_, pos, xo, le_rfl, rfl, h0, h1, h2, h3, h4, rfl, h5⟩
      by_cases hc : c = charCode
      · exact Or.inl hc
      · right
        by_contra hff
        exact hcont ⟨hc, hff⟩

theorem get_glyph_proportional_eval (font : rg_font_t) (points c : Nat) (r : glyph_record)
    (s : unpack_state)
    (htype : font.type ≠ 0) (hc : c ≠ 10)
    (hscan : scan_records c font.data (font.data.length + 1) 0 = some r)
    (hmatch : c = r.charCode)
    (hun : unpack_rows font.data r r.height 0 ⟨r.pos, 0, 0x80, []⟩ = some s) :
    get_glyph font points c
      = some (rescale font points
          ⟨if r.width > r.xDelta then r.width else r.xDelta, font.height, s.bitmap⟩) := by
  simp only [get_glyph, hc, if_false, htype, Option.bind_eq_bind, hscan, Option.some_bind]
  rw [if_pos hmatch]
  simp only [hun, Option.some_bind]

theorem unpack_rows_total (data : List Nat) (r : glyph_record)
    (hdata : r.pos + (r.width * r.height + 7) / 8 ≤ data.length)
    (hshift : ∀ x y, x < r.width → y < r.height →
      payload_bit data r.pos (y * r.width + x) = true →
      0 ≤ r.xOffset + (x : Int) ∧ r.xOffset + (x : Int) < 32) :
    ∃ s, unpack_rows data r r.height 0 ⟨r.pos, 0, 0x80, []⟩ = some s ∧
      unpack_inv data r (r.height * r.width) s := by
  have hB : ∀ j, j < r.height * r.width → r.pos + j / 8 < data.length := by
    intro j hj
    rw [Nat.mul_comm] at hj
    omega
  have hS : ∀ j, j < r.height * r.width → payload_bit data r.pos j = true →
      0 ≤ r.xOffset + ((j % r.width : Nat) : Int) ∧
        r.xOffset + ((j % r.width : Nat) : Int) < 32 := by
    intro j hj hpb
    have hw : 0 < r.width := by
      rcases Nat.eq_zero_or_pos r.width with h | h
      · rw [h, Nat.mul_zero] at hj
        omega
      · exact h
    have hy : j / r.width < r.height := by
      rw [Nat.div_lt_iff_lt_mul hw]
      exact hj
    have e : j / r.width * r.width + j % r.width = j := Nat.div_add_mod' j r.width
    exact hshift (j % r.width) (j / r.width) (Nat.mod_lt _ hw) hy (by rw [e]; exact hpb)
  have h0 : unpack_inv data r (0 * r.width) ⟨r.pos, 0, 0x80, []⟩ := by
    rw [Nat.zero_mul]
    exact unpack_inv_init data r
  obtain ⟨s, h1, h2⟩ := unpack_rows_spec data r (r.height * r.width) hB hS r.height 0 _
    (by rw [Nat.zero_add]) h0
  rw [Nat.zero_add] at h2
  exact ⟨s, h1, h2⟩

/-- C17: for a proportional font in which the scan for `c` stops at a matching
record `r` (header fields width `w`, height `h`, offsets `xo`, decoded from its
byte as the code does, and `yo`, and advance `xDelta`) whose payload lies inside
the stream, at native point size (or point size 0), provided every set payload
bit has `0 <= xo + x < 32`, `get_glyph` returns a glyph of width `max w xDelta`
in which, for every `x < w` and `y < h` with `0 <= xo + x`, bit `xo + x` of row
`yo + y` is set if and only if bit number `y*w + x` of the payload, counted
row-major and MSB-first within each byte, is set, and in which every other bit
is zero. -/
theorem get_glyph_proportional (font : rg_font_t) (points c : Nat) (r : glyph_record)
    (htype : font.type ≠ 0) (hc : c ≠ 10) (hp : points = 0 ∨ points = font.height)
    (hscan : scan_records c font.data (font.data.length + 1) 0 = some r)
    (hmatch : c = r.charCode)
    (hdata : r.pos + (r.width * r.height + 7) / 8 ≤ font.data.length)
    (hshift : ∀ x y, x < r.width → y < r.height →
      payload_bit font.data r.pos (y * r.width + x) = true →
      0 ≤ r.xOffset + (x : Int) ∧ r.xOffset + (x : Int) < 32) :
    ∃ gl, get_glyph font points c = some gl ∧
      gl.width = max r.width r.xDelta ∧ gl.height = font.height ∧
      (∀ x y, x < r.width → y < r.height → 0 ≤ r.xOffset + (x : Int) →
        (bitmap_get gl.bitmap (r.adjYOffset + y)).testBit (r.xOffset + (x : Int)).toNat
          = payload_bit font.data r.pos (y * r.width + x)) ∧
      (∀ row bit, (bitmap_get gl.bitmap row).testBit bit = true →
        ∃ x y, x < r.width ∧ y < r.height ∧ row = r.adjYOffset + y ∧
          (bit : Int) = r.xOffset + (x : Int)) ∧
      ∃ p xo, r.pos = p + 6 ∧ read_byte font.data p = some c ∧
        read_byte font.data (p + 1) = some r.adjYOffset ∧
        read_byte font.data (p + 2) = some r.width ∧
        read_byte font.data (p + 3) = some r.height ∧
        read_byte font.data (p + 4) = some xo ∧
        r.xOffset = (if xo < 0x80 then (xo : Int) else -(0xFF - (xo : Int))) ∧
        read_byte font.data (p + 5) = some r.xDelta := by
  obtain ⟨s, hun, -, -, hbits⟩ := unpack_rows_total font.data r hdata hshift
  have hget := get_glyph_proportional_eval font points c r s htype hc hscan hmatch hun
  rw [rescale_skip _ _ _ hp] at hget
  refine ⟨_, hget, ?_, rfl, ?_, ?_, ?_⟩
  · show (if r.width > r.xDelta then r.width else r.xDelta) = max r.width r.xDelta
    split
    · rw [max_eq_left (by omega)]
    · rw [max_eq_right (by omega)]
  · intro x y hx hy hx0
    show (bitmap_get s.bitmap (r.adjYOffset + y)).testBit (r.xOffset + (x : Int)).toNat = _
    have hj : y * r.width + x < r.height * r.width := by
      have : (y + 1) * r.width ≤ r.height * r.width := Nat.mul_le_mul_right _ hy
      rw [Nat.add_mul, Nat.one_mul] at this
      omega
    have hdiv : (y * r.width + x) / r.width = y := by
      rw [Nat.add_comm, Nat.add_mul_div_right _ _ (by omega), Nat.div_eq_of_lt hx,
        Nat.zero_add]
    have hmod : (y * r.width + x) % r.width = x := by
      rw [Nat.add_comm, Nat.add_mul_mod_self_right, Nat.mod_eq_of_lt hx]
    cases hpb : payload_bit font.data r.pos (y * r.width + x) with
    | true =>
      refine (hbits _ _).mpr ⟨y * r.width + x, hj, hpb, ?_, ?_⟩
      · rw [hdiv]
      · rw [hmod, Int.toNat_of_nonneg hx0]
    | false =>
      rw [Bool.eq_false_iff]
      intro h
      obtain ⟨j, hj1, h1, h2, h3⟩ := (hbits _ _).mp h
      rw [Int.toNat_of_nonneg hx0] at h3
      have hw : 0 < r.width := by omega
      have e1 : j / r.width = y := by omega
      have e2 : j % r.width = x := by omega
      have e : j / r.width * r.width + j % r.width = j := Nat.div_add_mod' j r.width
      rw [e1, e2] at e
      rw [e, h1] at hpb
      cases hpb
  · intro row bit h
    obtain ⟨j, hj1, -, h2, h3⟩ := (hbits row bit).mp h
    have hw : 0 < r.width := by
      rcases Nat.eq_zero_or_pos r.width with h | h
      · rw [h, Nat.mul_zero] at hj1
        omega
      · exact h
    exact ⟨j % r.width, j / r.width, Nat.mod_lt _ hw,
      (Nat.div_lt_iff_lt_mul hw).mpr hj1, h2, h3⟩
  · obtain ⟨-, p, xo, -, h1, h2, h3, h4, h5, h6, h7, h8⟩ :=
      scan_records_header c font.data _ 0 r hscan
    rw [← hmatch] at h2
    exact ⟨p, xo, h1, h2, h3, h4, h5, h6, h7, h8⟩

theorem get_glyph_unscaled (font : rg_font_t) (points c : Nat) :
    get_glyph font points c = (get_glyph font font.height c).map (rescale font points) := by
  have hskip : ∀ out, rescale font font.height out = out :=
    fun out => rescale_skip font font.height out (Or.inr rfl)
  simp only [get_glyph, Option.bind_eq_bind, hskip]
  split
  · rfl
  · split
    · split
      · cases copy_rows font c font.height 0 [] <;> rfl
      · rfl
    · cases scan_records c font.data (font.data.length + 1) 0 with
      | none => rfl
      | some r =>
        simp only [Option.some_bind]
        split
        · cases unpack_rows font.data r r.height 0 ⟨r.pos, 0, 0x80, []⟩ <;> rfl
        · rfl

theorem copy_rows_frame (font : rg_font_t) (c : Nat) :
    ∀ (n y : Nat) (bm bm1 : List Nat), copy_rows font c n y bm = some bm1 →
      ∀ y1, y + n ≤ y1 → bitmap_get bm1 y1 = bitmap_get bm y1 := by
  intro n
  induction n with
  | zero =>
    intro y bm bm1 h y1 _
    simp only [copy_rows, Option.some.injEq] at h
    rw [h]
  | succ n ih =>
    intro y bm bm1 h y1 hy
    simp only [copy_rows] at h
    cases hb : read_byte font.data (c * font.height + y) with
    | none => simp [hb] at h
    | some b =>
      rw [hb, Option.some_bind] at h
      rw [ih (y + 1) _ bm1 h y1 (by omega), bitmap_get_set, if_neg (by omega)]

theorem unpack_pixel_frame (data : List Nat) (r : glyph_record) (y x : Nat)
    (s s1 : unpack_state) (h : unpack_pixel data r y x s = some s1) :
    ∀ row, row ≠ r.adjYOffset + y → bitmap_get s1.bitmap row = bitmap_get s.bitmap row := by
  intro row hrow
  simp only [unpack_pixel] at h
  have hf : ∀ s0 : unpack_state,
      (if (x + y * r.width) % 8 = 0 then
        (read_byte data s.pos).map (fun b => (⟨s.pos + 1, b, 0x80, s.bitmap⟩ : unpack_state))
       else some s) = some s0 → s0.bitmap = s.bitmap := by
    intro s0 h0
    split at h0
    · cases hb : read_byte data s.pos with
      | none => simp [hb] at h0
      | some b =>
        simp only [hb, Option.map_some', Option.some.injEq] at h0
        rw [← h0]
    · simp only [Option.some.injEq] at h0
      rw [h0]
  cases h0 : (if (x + y * r.width) % 8 = 0 then
        (read_byte data s.pos).map (fun b => (⟨s.pos + 1, b, 0x80, s.bitmap⟩ : unpack_state))
       else some s) with
  | none => simp [h0] at h
  | some s0 =>
    have hb0 := hf s0 h0
    rw [h0, Option.some_bind] at h
    split at h
    · split at h
      · simp only [Option.map_some', Option.some.injEq] at h
        rw [← h]
        show bitmap_get (bitmap_set s0.bitmap _ _) row = _
        rw [bitmap_get_set, if_neg hrow, hb0]
      · simp at h
    · simp only [Option.map_some', Option.some.injEq] at h
      rw [← h]
      show bitmap_get s0.bitmap row = _
      rw [hb0]

theorem unpack_row_frame (data : List Nat) (r : glyph_record) (y : Nat) :
    ∀ (n x : Nat) (s s1 : unpack_state), unpack_row data r y n x s = some s1 →
      ∀ row, row ≠ r.adjYOffset + y → bitmap_get s1.bitmap row = bitmap_get s.bitmap row := by
  intro n
  induction n with
  | zero =>
    intro x s s1 h row _
    simp only [unpack_row, Option.some.injEq] at h
    rw [h]
  | succ n ih =>
    intro x s s1 h row hrow
    simp only [unpack_row] at h
    cases h0 : unpack_pixel data r y x s with
    | none => simp [h0] at h
    | some s0 =>
      rw [h0, Option.some_bind] at h
      rw [ih (x + 1) s0 s1 h row hrow, unpack_pixel_frame data r y x s s0 h0 row hrow]

theorem unpack_rows_frame (data : List Nat) (r : glyph_record) :
    ∀ (n y : Nat) (s s1 : unpack_state), unpack_rows data r n y s = some s1 →
      ∀ row, r.adjYOffset + y + n ≤ row → bitmap_get s1.bitmap row = bitmap_get s.bitmap row := by
  intro n
  induction n with
  | zero =>
    intro y s s1 h row _
    simp only [unpack_rows, Option.some.injEq] at h
    rw [h]
  | succ n ih =>
    intro y s s1 h row hrow
    simp only [unpack_rows] at h
    cases h0 : unpack_row data r y r.width 0 s with
    | none => simp [h0] at h
    | some s0 =>
      rw [h0, Option.some_bind] at h
      rw [ih (y + 1) s0 s1 h row (by omega),
        unpack_row_frame data r y r.width 0 s s0 h0 row (by omega)]

/-- C14 (amended): for every font and character code, with a requested point size
that is 0 or not below the font's native height, and, for a proportional font,
with the matching record lying inside the native height (offset plus record
height at most the font height), the glyph returned by `get_glyph` has every
bitmap row at an index greater than or equal to its reported height equal to
zero. -/
theorem get_glyph_rows_beyond_height (font : rg_font_t) (points c : Nat) (gl : rg_glyph_t)
    (h : get_glyph font points c = some gl)
    (hp : points = 0 ∨ font.height ≤ points)
    (hrec : ∀ r, font.type ≠ 0 →
      scan_records c font.data (font.data.length + 1) 0 = some r → c = r.charCode →
      r.adjYOffset + r.height ≤ font.height) :
    ∀ y, gl.height ≤ y → bitmap_get gl.bitmap y = 0 := by
  rw [get_glyph_unscaled] at h
  cases hout : get_glyph font font.height c with
  | none => simp [hout] at h
  | some out =>
    rw [hout, Option.map_some', Option.some.injEq] at h
    have hskip : ∀ o, rescale font font.height o = o :=
      fun o => rescale_skip font font.height o (Or.inr rfl)
    have hzero : out.height = font.height ∧ ∀ y, font.height ≤ y → bitmap_get out.bitmap y = 0 := by
      simp only [get_glyph, Option.bind_eq_bind, hskip] at hout
      split at hout
      · simp only [Option.some_bind, Option.some.injEq] at hout
        rw [← hout]
        exact ⟨rfl, fun y _ => bitmap_get_nil y⟩
      · split at hout
        · split at hout
          · cases hcp : copy_rows font c font.height 0 [] with
            | none => simp [hcp] at hout
            | some bm =>
              simp only [hcp, Option.map_some', Option.some_bind, Option.some.injEq] at hout
              rw [← hout]
              refine ⟨rfl, fun y hy => ?_⟩
              show bitmap_get bm y = 0
              rw [copy_rows_frame font c font.height 0 [] bm hcp y (by omega)]
              exact bitmap_get_nil y
          · simp only [Option.some_bind, Option.some.injEq] at hout
            rw [← hout]
            exact ⟨rfl, fun y _ => bitmap_get_nil y⟩
        · rename_i htype
          cases hsc : scan_records c font.data (font.data.length + 1) 0 with
          | none => simp [hsc] at hout
          | some r =>
            simp only [hsc, Option.some_bind] at hout
            split at hout
            · rename_i hm
              cases hun : unpack_rows font.data r r.height 0 ⟨r.pos, 0, 0x80, []⟩ with
              | none => simp [hun] at hout
              | some s =>
                simp only [hun, Option.some_bind, Option.some.injEq] at hout
                rw [← hout]
                refine ⟨rfl, fun y hy => ?_⟩
                show bitmap_get s.bitmap y = 0
                have hle := hrec r htype hsc hm
                rw [unpack_rows_frame font.data r r.height 0 _ s hun y (by omega)]
                exact bitmap_get_nil y
            · simp only [Option.some_bind, Option.some.injEq] at hout
              rw [← hout]
              exact ⟨rfl, fun y _ => bitmap_get_nil y⟩
    intro y hy
    rw [← h] at hy ⊢
    rw [rescale_height] at hy
    rw [rescale_get]
    by_cases hr : points ≠ 0 ∧ points ≠ font.height
    · rw [if_pos hr] at hy
      rw [if_neg (fun hh => by omega)]
      exact hzero.2 y (by omega)
    · rw [if_neg hr] at hy
      rw [if_neg (fun hh => hr hh.1)]
      exact hzero.2 y (by omega)

/-! ### The rescale step -/

theorem log2_eq (n k : Nat) (h1 : 2 ^ k ≤ n) (h2 : n < 2 ^ (k + 1)) : Nat.log2 n = k := by
  have hn : n ≠ 0 := by
    intro h
    rw [h] at h1
    exact absurd h1 (by simp)
  have a : k ≤ Nat.log2 n := (Nat.le_log2 hn).mpr h1
  have b : Nat.log2 n < k + 1 := (Nat.log2_lt hn).mpr h2
  omega

theorem log2_shift (y k : Nat) (hy : 0 < y) : Nat.log2 (y * 2 ^ k) = Nat.log2 y + k := by
  apply log2_eq
  · rw [pow_add]
    exact Nat.mul_le_mul_right _ (Nat.log2_self_le (by omega))
  · have : y < 2 ^ (Nat.log2 y + 1) := Nat.lt_log2_self
    calc y * 2 ^ k < 2 ^ (Nat.log2 y + 1) * 2 ^ k :=
          Nat.mul_lt_mul_of_pos_right this (by positivity)
      _ = 2 ^ (Nat.log2 y + k + 1) := by ring

theorem log2_small (y : Nat) (hy : y < 16) :
    Nat.log2 y = if y < 2 then 0 else if y < 4 then 1 else if y < 8 then 2 else 3 := by
  interval_cases y <;> simp [Nat.log2]

theorem log2_8 : Nat.log2 8 = 3 := log2_eq 8 3 (by norm_num) (by norm_num)

theorem log2_12 : Nat.log2 12 = 3 := log2_eq 12 3 (by norm_num) (by norm_num)

theorem log2_14 : Nat.log2 14 = 3 := log2_eq 14 3 (by norm_num) (by norm_num)

theorem log2_16 : Nat.log2 16 = 4 := log2_eq 16 4 (by norm_num) (by norm_num)

theorem log2_scale12 : Nat.log2 100663296 = 26 := log2_eq _ 26 (by norm_num) (by norm_num)

theorem log2_scale16 : Nat.log2 134217728 = 27 := log2_eq _ 27 (by norm_num) (by norm_num)

theorem log2_scale14 : Nat.log2 153391696 = 27 := log2_eq _ 27 (by norm_num) (by norm_num)

theorem log2_row8 : Nat.log2 (8 * 134217728) = 30 := log2_eq _ 30 (by norm_num) (by norm_num)

theorem scale_12_8 : f32_round 12 8 = (100663296, 67108864) := by
  unfold f32_round
  simp only [log2_8, log2_12]
  norm_num

theorem scale_16_8 : f32_round 16 8 = (134217728, 67108864) := by
  unfold f32_round
  simp only [log2_8, log2_16]
  norm_num

theorem scale_16_14 : f32_round 16 14 = (153391696, 134217728) := by
  unfold f32_round
  simp only [log2_14, log2_16]
  norm_num

theorem quot_8_16_14 :
    f32_round (8 * 134217728) 153391696 = (14680063 * 2 ^ 30, 2 ^ 51) := by
  unfold f32_round
  simp only [log2_row8, log2_scale14]
  norm_num

theorem rescale_row_16_14_8 : rescale_row 16 14 8 = 6 := by
  unfold rescale_row
  simp only [scale_16_14, quot_8_16_14]
  norm_num

theorem rescale_row_12_8 (y : Nat) (hy : y < 12) : rescale_row 12 8 y = y * 8 / 12 := by
  unfold rescale_row
  simp only [scale_12_8]
  rcases Nat.eq_zero_or_pos y with h0 | h0
  · subst h0
    simp [f32_round]
  · unfold f32_round
    have e : y * 67108864 = y * 2 ^ 26 := by norm_num
    rw [e, log2_shift y 26 h0, log2_small y (by omega), log2_scale12]
    interval_cases y <;> norm_num

theorem rescale_row_16_8 (y : Nat) (hy : y < 16) : rescale_row 16 8 y = y * 8 / 16 := by
  unfold rescale_row
  simp only [scale_16_8]
  rcases Nat.eq_zero_or_pos y with h0 | h0
  · subst h0
    simp [f32_round]
  · unfold f32_round
    have e : y * 67108864 = y * 2 ^ 26 := by norm_num
    rw [e, log2_shift y 26 h0, log2_small y (by omega), log2_scale16]
    interval_cases y <;> norm_num

/-- C15 (amended): the rescale step of `get_glyph`, relative to the glyph `out`
decoded with the rescale step skipped: when the requested point size P is not 0
and differs from the font's native height H, the returned glyph has height P,
the width of `out`, and its row y (0 <= y < P) equals row `(int)(y / scale)` of
`out`, where `scale = (float)P / H` and the quotient are computed in single
precision; when P is 0 or equals H the returned glyph is `out`.  For H = 8 and
P = 12 or 16 the source row is floor(y * H / P). -/
theorem get_glyph_rescale (font : rg_font_t) (points c : Nat) (out : rg_glyph_t)
    (hout : get_glyph font font.height c = some out) :
    (points ≠ 0 → points ≠ font.height →
      ∃ gl, get_glyph font points c = some gl ∧ gl.height = points ∧ gl.width = out.width ∧
        ∀ y, y < points →
          bitmap_get gl.bitmap y = bitmap_get out.bitmap (rescale_row points font.height y)) ∧
    (points = 0 ∨ points = font.height → get_glyph font points c = some out) ∧
    (∀ y, y < 12 → rescale_row 12 8 y = y * 8 / 12) ∧
    (∀ y, y < 16 → rescale_row 16 8 y = y * 8 / 16) := by
  refine ⟨fun h0 hH => ?_, fun h => ?_, rescale_row_12_8, rescale_row_16_8⟩
  · refine ⟨rescale font points out, ?_, ?_, rescale_width _ _ _, fun y hy => ?_⟩
    · rw [get_glyph_unscaled, hout, Option.map_some']
    · rw [rescale_height, if_pos ⟨h0, hH⟩]
    · rw [rescale_get, if_pos ⟨⟨h0, hH⟩, hy⟩]
  · rw [get_glyph_unscaled, hout, Option.map_some', rescale_skip _ _ _ h]

theorem get_glyph_rescale_witness :
    (12 ≠ 0 → 12 ≠ fixed2_font.height →
      ∃ gl, get_glyph fixed2_font 12 1 = some gl ∧ gl.height = 12 ∧
        gl.width = (⟨8, 2, [3, 4]⟩ : rg_glyph_t).width ∧
        ∀ y, y < 12 →
          bitmap_get gl.bitmap y
            = bitmap_get (⟨8, 2, [3, 4]⟩ : rg_glyph_t).bitmap
                (rescale_row 12 fixed2_font.height y)) ∧
    (12 = 0 ∨ 12 = fixed2_font.height → get_glyph fixed2_font 12 1 = some ⟨8, 2, [3, 4]⟩) ∧
    (∀ y, y < 12 → rescale_row 12 8 y = y * 8 / 12) ∧
    (∀ y, y < 16 → rescale_row 16 8 y = y * 8 / 16) :=
  get_glyph_rescale fixed2_font 12 1 ⟨8, 2, [3, 4]⟩ (by decide)

/-- C15 (counterexample): in the fixed font of height 14 whose row y is y, the glyph
requested at point size 16 has row 8 equal to 6, the unscaled row 6, whereas
floor(8 * 14 / 16) = 7 and the unscaled row 7 is 7; and a glyph of the font of
height 2 requested at point size 0 has height 2, not 0. -/
theorem get_glyph_rescale_not_floor :
    (get_glyph fixed14_font 16 0).map (fun gl => bitmap_get gl.bitmap 8) = some 6 ∧
    (get_glyph fixed14_font 14 0).map (fun gl => bitmap_get gl.bitmap (8 * 14 / 16)) = some 7 ∧
    (get_glyph fixed2_font 0 1).map (fun gl => gl.height) = some 2 := by
  have h14 : get_glyph fixed14_font fixed14_font.height 0
      = some ⟨8, 14, [0, 1, 2, 3, 4, 5, 6, 7, 8, 9, 10, 11, 12, 13]⟩ := by decide
  refine ⟨?_, by decide, by decide⟩
  rw [get_glyph_unscaled, h14, Option.map_some', Option.map_some', rescale_get,
    if_pos ⟨⟨by decide, by decide⟩, by decide⟩]
  show some (bitmap_get _ (rescale_row 16 14 8)) = some 6
  rw [rescale_row_16_14_8]
  rfl

/-! ### Examples for the glyph decoder -/

theorem get_glyph_rows_beyond_height_witness :
    get_glyph prop_font 4 65 = some ⟨4, 4, [0, 3, 1]⟩ ∧
    ∀ y, (⟨4, 4, [0, 3, 1]⟩ : rg_glyph_t).height ≤ y →
      bitmap_get (⟨4, 4, [0, 3, 1]⟩ : rg_glyph_t).bitmap y = 0 :=
  ⟨by decide,
    get_glyph_rows_beyond_height prop_font 4 65 ⟨4, 4, [0, 3, 1]⟩ (by decide)
      (Or.inr (by decide))
      (fun r _ hs _ => by
        have e : scan_records 65 prop_font.data (prop_font.data.length + 1) 0
            = some prop_font_record := by decide
        rw [e] at hs
        cases hs
        decide)⟩

/-- C14 (counterexample): the glyph of character 1 of the fixed font of height 2,
requested at point size 1, has height 1 and row 1 equal to 4; and the glyph of
`A` in a proportional font of height 1 whose record sits at row offset 1 has
height 1 and row 1 equal to 1. -/
theorem get_glyph_rows_not_cleared :
    (get_glyph fixed2_font 1 1).map (fun gl => (gl.height, bitmap_get gl.bitmap 1))
      = some (1, 4) ∧
    (get_glyph low_prop_font 1 65).map (fun gl => (gl.height, bitmap_get gl.bitmap 1))
      = some (1, 1) := by
  have h2 : get_glyph fixed2_font fixed2_font.height 1 = some ⟨8, 2, [3, 4]⟩ := by decide
  refine ⟨?_, by decide⟩
  rw [get_glyph_unscaled, h2, Option.map_some', Option.map_some', rescale_height, rescale_get,
    if_pos ⟨by decide, by decide⟩, if_neg (fun h => absurd h.2 (by decide))]
  rfl

theorem get_glyph_fixed_witness :
    ∃ gl, get_glyph fixed2_font 2 1 = some gl ∧
      gl.width = (if fixed2_font.width = 0 then 8 else fixed2_font.width) ∧
      gl.height = fixed2_font.height ∧
      (1 < fixed2_font.chars →
        (∀ y, y < fixed2_font.height →
          read_byte fixed2_font.data (1 * fixed2_font.height + y)
            = some (bitmap_get gl.bitmap y)) ∧
        ∀ y, fixed2_font.height ≤ y → bitmap_get gl.bitmap y = 0) ∧
      (¬ 1 < fixed2_font.chars → ∀ y, bitmap_get gl.bitmap y = 0) :=
  get_glyph_fixed fixed2_font 2 1 rfl (by decide) (Or.inr rfl) (fun _ => by decide)

theorem get_glyph_proportional_witness :
    ∃ gl, get_glyph prop_font 4 65 = some gl ∧
      gl.width = max prop_font_record.width prop_font_record.xDelta ∧
      gl.height = prop_font.height ∧
      (∀ x y, x < prop_font_record.width → y < prop_font_record.height →
        0 ≤ prop_font_record.xOffset + (x : Int) →
        (bitmap_get gl.bitmap (prop_font_record.adjYOffset + y)).testBit
            (prop_font_record.xOffset + (x : Int)).toNat
          = payload_bit prop_font.data prop_font_record.pos (y * prop_font_record.width + x)) ∧
      (∀ row bit, (bitmap_get gl.bitmap row).testBit bit = true →
        ∃ x y, x < prop_font_record.width ∧ y < prop_font_record.height ∧
          row = prop_font_record.adjYOffset + y ∧
          (bit : Int) = prop_font_record.xOffset + (x : Int)) ∧
      ∃ p xo, prop_font_record.pos = p + 6 ∧ read_byte prop_font.data p = some 65 ∧
        read_byte prop_font.data (p + 1) = some prop_font_record.adjYOffset ∧
        read_byte prop_font.data (p + 2) = some prop_font_record.width ∧
        read_byte prop_font.data (p + 3) = some prop_font_record.height ∧
        read_byte prop_font.data (p + 4) = some xo ∧
        prop_font_record.xOffset = (if xo < 0x80 then (xo : Int) else -(0xFF - (xo : Int))) ∧
        read_byte prop_font.data (p + 5) = some prop_font_record.xDelta :=
  get_glyph_proportional prop_font 4 65 prop_font_record (by decide) (by decide) (Or.inr rfl)
    (by decide) rfl (by decide)
    (fun x y _ _ _ => by
      show (0 : Int) ≤ 0 + (x : Int) ∧ (0 : Int) + (x : Int) < 32
      have : x < 3 := by assumption
      omega)

/-! ## Theorems: font selection, blitting, image round trip -/

/-- C12: with a font table of `RG_FONT_MAX` entries, `rg_gui_set_font_type(type)`
returns false and leaves the active font state and the stored setting
unchanged exactly when `type < -RG_FONT_MAX` or `type >= RG_FONT_MAX`;
otherwise it returns true, the active index becomes `type`, or
`type + RG_FONT_MAX` when `type` is negative, the active font is the table entry
of that index, and the index is stored as the setting. -/
theorem set_font_type_range (T : font_table) (s : font_state) (type : Int)
    (hlen : (T.fonts.length : Int) = T.RG_FONT_MAX) :
    ∃ ok s1, rg_gui_set_font_type T s type = some (ok, s1) ∧
      ((ok = false ∧ s1 = s) ↔ (type < -T.RG_FONT_MAX ∨ type ≥ T.RG_FONT_MAX)) ∧
      (¬ (type < -T.RG_FONT_MAX ∨ type ≥ T.RG_FONT_MAX) →
        ok = true ∧
        (s1.gui_font.type : Int) = (if type < 0 then type + T.RG_FONT_MAX else type) ∧
        T.fonts[s1.gui_font.type]? = some s1.gui_font.font ∧
        s1.setting = some (s1.gui_font.type : Int)) := by
  have hmax : 0 ≤ T.RG_FONT_MAX := by
    rw [← hlen]
    exact Int.natCast_nonneg _
  by_cases hout : type < -T.RG_FONT_MAX ∨ type ≥ T.RG_FONT_MAX
  · refine ⟨false, s, ?_, ?_, fun h => absurd hout h⟩
    · simp only [rg_gui_set_font_type]
      rw [if_pos]
      split <;> omega
    · exact ⟨fun _ => hout, fun _ => ⟨rfl, rfl⟩⟩
  · generalize ht : (if type < 0 then type + T.RG_FONT_MAX else type) = t1
    have h0 : 0 ≤ t1 := by
      rw [← ht]
      split <;> omega
    have h1 : t1 < T.RG_FONT_MAX := by
      rw [← ht]
      split <;> omega
    have hidx : t1.toNat < T.fonts.length := by
      have : ((t1.toNat : Nat) : Int) < (T.fonts.length : Int) := by
        rw [Int.toNat_of_nonneg h0, hlen]
        exact h1
      exact_mod_cast this
    have hget := List.getElem?_eq_getElem hidx
    refine ⟨true,
      ⟨⟨t1.toNat, T.fonts[t1.toNat],
          if t1 < 3 then (8 + t1 * 4).toNat else (T.fonts[t1.toNat]).height,
          max (T.fonts[t1.toNat]).width 4,
          if t1 < 3 then (8 + t1 * 4).toNat else (T.fonts[t1.toNat]).height⟩,
        s.gui_initialized, some t1,
        if s.gui_initialized then s.redraws + 1 else s.redraws⟩, ?_, ?_,
      fun _ => ⟨rfl, ?_, hget, ?_⟩⟩
    · simp only [rg_gui_set_font_type, ht]
      rw [if_neg (by omega), hget, Option.map_some']
    · constructor
      · intro h
        exact absurd h.1 (by decide)
      · intro h
        exact absurd h hout
    · show ((t1.toNat : Nat) : Int) = t1
      exact Int.toNat_of_nonneg h0
    · show some t1 = some ((t1.toNat : Nat) : Int)
      rw [Int.toNat_of_nonneg h0]

theorem set_font_type_range_witness :
    ∃ ok s1, rg_gui_set_font_type demo_fonts demo_font_state (-1) = some (ok, s1) ∧
      ((ok = false ∧ s1 = demo_font_state) ↔
        ((-1 : Int) < -demo_fonts.RG_FONT_MAX ∨ (-1 : Int) ≥ demo_fonts.RG_FONT_MAX)) ∧
      (¬ ((-1 : Int) < -demo_fonts.RG_FONT_MAX ∨ (-1 : Int) ≥ demo_fonts.RG_FONT_MAX) →
        ok = true ∧
        (s1.gui_font.type : Int)
          = (if (-1 : Int) < 0 then -1 + demo_fonts.RG_FONT_MAX else -1) ∧
        demo_fonts.fonts[s1.gui_font.type]? = some s1.gui_font.font ∧
        s1.setting = some (s1.gui_font.type : Int)) :=
  set_font_type_range demo_fonts demo_font_state (-1) (by decide)

theorem rgb565_round_trip (p : Nat) (hp : p < 65536) :
    (((((((p >>> 11) &&& 0x1F) <<< 3) % 256) >>> 3) &&& 0x1F) <<< 11) |||
    (((((((p >>> 5) &&& 0x3F) <<< 2) % 256) >>> 2) &&& 0x3F) <<< 5) |||
    ((((((p &&& 0x1F) <<< 3) % 256) >>> 3) &&& 0x1F)) = p := by
  have e5 : (0x1F : Nat) = 2 ^ 5 - 1 := by norm_num
  have e6 : (0x3F : Nat) = 2 ^ 6 - 1 := by norm_num
  rw [e5, e6]
  simp only [Nat.and_pow_two_sub_one_eq_mod, Nat.shiftRight_eq_div_pow, Nat.shiftLeft_eq]
  have hb : p % 2 ^ 5 * 2 ^ 3 % 256 / 2 ^ 3 % 2 ^ 5 = p % 32 := by omega
  have hg : p / 2 ^ 5 % 2 ^ 6 * 2 ^ 2 % 256 / 2 ^ 2 % 2 ^ 6 = p / 32 % 64 := by omega
  have hr : p / 2 ^ 11 % 2 ^ 5 * 2 ^ 3 % 256 / 2 ^ 3 % 2 ^ 5 = p / 2048 := by omega
  rw [hb, hg, hr, Nat.or_assoc]
  have h1 : p / 32 % 64 * 2 ^ 5 ||| p % 32 = 2 ^ 5 * (p / 32 % 64) + p % 32 := by
    have h := Nat.mul_add_lt_is_or (show p % 32 < 2 ^ 5 by omega) (p / 32 % 64)
    rw [Nat.mul_comm]
    exact h.symm
  rw [h1]
  have h2 : p / 2048 * 2 ^ 11 ||| (2 ^ 5 * (p / 32 % 64) + p % 32)
      = 2 ^ 11 * (p / 2048) + (2 ^ 5 * (p / 32 % 64) + p % 32) := by
    have h := Nat.mul_add_lt_is_or
      (show 2 ^ 5 * (p / 32 % 64) + p % 32 < 2 ^ 11 by omega) (p / 2048)
    rw [Nat.mul_comm]
    exact h.symm
  rw [h2]
  omega

theorem png_pixel_head (w h p : Nat) (hp : p < 65536) (out : List Nat) :
    png_pixel ⟨w, h, 3, rgb888_of_565 p ++ out⟩ 0 = p := by
  have e := rgb565_round_trip p hp
  simp only [png_pixel, rgb888_of_565, Nat.zero_mul, Nat.zero_add, List.cons_append,
    List.nil_append, List.getD_cons_zero, List.getD_cons_succ]
  exact e

theorem png_pixel_tail (w h p i : Nat) (out : List Nat) :
    png_pixel ⟨w, h, 3, rgb888_of_565 p ++ out⟩ (i + 1) = png_pixel ⟨w, h, 3, out⟩ i := by
  have e0 : (i + 1) * 3 = i * 3 + 3 := by omega
  have e1 : (i + 1) * 3 + 1 = i * 3 + 1 + 3 := by omega
  have e2 : (i + 1) * 3 + 2 = i * 3 + 2 + 3 := by omega
  simp only [png_pixel, rgb888_of_565, List.cons_append, List.nil_append, e0, e1, e2,
    List.getD_cons_succ]

theorem save_pixels_spec :
    ∀ (ps : List Nat), (∀ p ∈ ps, p < 65536) →
      ∃ out, save_pixels (ps.map some) = some out ∧
        ∀ (w h i : Nat) (hi : i < ps.length), png_pixel ⟨w, h, 3, out⟩ i = ps[i] := by
  intro ps
  induction ps with
  | nil =>
    intro _
    exact ⟨[], rfl, fun w h i hi => absurd hi (by simp)⟩
  | cons p rest ih =>
    intro hall
    obtain ⟨out, h1, h2⟩ := ih (fun q hq => hall q (List.mem_cons_of_mem _ hq))
    refine ⟨rgb888_of_565 p ++ out, ?_, ?_⟩
    · simp only [List.map_cons, save_pixels, h1, Option.map_some']
    · intro w h i hi
      cases i with
      | zero =>
        rw [png_pixel_head w h p (hall p (List.mem_cons_self _ _))]
        rfl
      | succ i =>
        rw [png_pixel_tail, List.getElem_cons_succ]
        exact h2 w h i _

/-- C11: for every 16-bit pixel `p`, the RGB565 to RGB888 conversion of
`rg_image_save_to_file` followed by the RGB888 to RGB565 conversion of
`rg_image_load_from_memory` gives back `p`; and for every image of `w * h`
16-bit pixels, `rg_image_save_to_file` hands a three-channel image of the same
size to the encoder, and loading any PNG blob that the decoder maps to that
very image returns an image of the same width and height with every pixel
equal to the one saved. -/
theorem image_round_trip (w h : Nat) (ps : List Nat)
    (hlen : ps.length = w * h) (hpx : ∀ p ∈ ps, p < 65536) :
    (∀ p, p < 65536 → png_pixel ⟨1, 1, 3, rgb888_of_565 p⟩ 0 = p) ∧
    ∃ png, save_image ⟨w, h, ps.map some⟩ = some png ∧
      png.width = w ∧ png.height = h ∧ png.channels = 3 ∧
      (∀ luPngWriteFile,
        rg_image_save_to_file true luPngWriteFile ⟨w, h, ps.map some⟩
          = some (luPngWriteFile png)) ∧
      ∀ (luPngReadMem : List Nat → Option LuImage) (mem_ok : Nat → Nat → Bool)
        (data : List Nat),
        16 ≤ data.length → data.take 4 = [0x89, 0x50, 0x4E, 0x47] →
        luPngReadMem data = some png → mem_ok w h = true →
        rg_image_load_from_memory luPngReadMem mem_ok data
          = load_result.image ⟨w, h, ps.map some⟩ := by
  refine ⟨fun p hp => ?_, ?_⟩
  · have e := png_pixel_head 1 1 p hp []
    rw [List.append_nil] at e
    exact e
  · obtain ⟨out, h1, h2⟩ := save_pixels_spec ps hpx
    have hsave : save_image ⟨w, h, ps.map some⟩ = some ⟨w, h, 3, out⟩ := by
      simp only [save_image, List.length_map, hlen, le_refl, if_true]
      rw [← hlen, List.take_of_length_le (by simp), h1, Option.map_some']
    refine ⟨⟨w, h, 3, out⟩, hsave, rfl, rfl, rfl, fun wf => ?_, ?_⟩
    · simp only [rg_image_save_to_file, if_true, hsave, Option.map_some']
    · intro luPngReadMem mem_ok data hd hsig hread hmem
      have hnot : ¬ data.length < 16 := by omega
      simp only [rg_image_load_from_memory, hnot, if_false, hsig, if_true, hread,
        rg_image_alloc, hmem]
      congr 2
      apply List.ext_getElem
      · simp [hlen]
      · intro i hi1 hi2
        simp only [List.getElem_map, List.getElem_range]
        rw [h2 w h i (by simpa using hi2)]

theorem image_round_trip_witness :
    (∀ p, p < 65536 → png_pixel ⟨1, 1, 3, rgb888_of_565 p⟩ 0 = p) ∧
    ∃ png, save_image ⟨2, 1, [0xF81F, 0x1234].map some⟩ = some png ∧
      png.width = 2 ∧ png.height = 1 ∧ png.channels = 3 ∧
      (∀ luPngWriteFile,
        rg_image_save_to_file true luPngWriteFile ⟨2, 1, [0xF81F, 0x1234].map some⟩
          = some (luPngWriteFile png)) ∧
      ∀ (luPngReadMem : List Nat → Option LuImage) (mem_ok : Nat → Nat → Bool)
        (data : List Nat),
        16 ≤ data.length → data.take 4 = [0x89, 0x50, 0x4E, 0x47] →
        luPngReadMem data = some png → mem_ok 2 1 = true →
        rg_image_load_from_memory luPngReadMem mem_ok data
          = load_result.image ⟨2, 1, [0xF81F, 0x1234].map some⟩ :=
  image_round_trip 2 1 [0xF81F, 0x1234] (by decide) (by decide)

/-! ### The record scan of `get_glyph` -/

theorem record_skip_ceil (w h : Nat) (hw : 1 ≤ w) (hh : 1 ≤ h) :
    record_skip w h = (w * h + 7) / 8 := by
  have hn : 1 ≤ w * h := Nat.mul_pos hw hh
  unfold record_skip
  have e : ((w : Int) * (h : Int)) = ((w * h : Nat) : Int) := by push_cast; rfl
  rw [e]
  generalize w * h = n at hn
  rw [Int.tdiv_eq_ediv (by omega) (by norm_num)]
  omega

theorem scan_records_next (c : Nat) (data : List Nat) (fuel pos : Nat)
    (charCode adjYOffset width height xo xDelta : Nat)
    (h0 : read_byte data pos = some charCode) (h1 : read_byte data (pos + 1) = some adjYOffset)
    (h2 : read_byte data (pos + 2) = some width) (h3 : read_byte data (pos + 3) = some height)
    (h4 : read_byte data (pos + 4) = some xo) (h5 : read_byte data (pos + 5) = some xDelta)
    (hc : c ≠ charCode) (hff : charCode ≠ 0xFF) (hwh : width = 0 ∨ 1 ≤ height) :
    scan_records c data (fuel + 1) pos
      = scan_records c data fuel (pos + 6 + (width * height + 7) / 8) := by
  simp only [scan_records, Option.bind_eq_bind, h0, h1, h2, h3, h4, h5, Option.some_bind]
  rw [if_pos ⟨hc, hff⟩]
  by_cases hw : width = 0
  · rw [if_neg (fun h => h.2.2 hw)]
    subst hw
    simp
  · rw [if_pos ⟨hc, hff, hw⟩, record_skip_ceil width height (by omega) (by omega)]

/-- C16 (failing input): in a font stream whose first record declares width 1 and
height 0 (no payload) and is followed by the record of `B`, the scan for `B`
skips one byte after the first header, where `ceil(1*0/8)` is 0: it reads the
next header one byte late, misses the record of `B` that starts at position 6
(a scan started there finds it) and stops at a terminator byte, so that
`get_glyph` returns a blank glyph. -/
theorem scan_skips_byte_of_empty_record :
    record_skip 1 0 = 1 ∧ (1 * 0 + 7) / 8 = 0 ∧
    read_byte skew_font.data 6 = some 66 ∧
    scan_records 66 skew_font.data (skew_font.data.length + 1) 6
      = some ⟨66, 0, 1, 1, 0, 2, 12⟩ ∧
    (scan_records 66 skew_font.data (skew_font.data.length + 1) 0).map
      (fun r => (r.charCode, r.pos)) = some (0xFF, 20) ∧
    get_glyph skew_font 1 66 = some ⟨8, 1, []⟩ := by decide

/-! ### Blitting into the shadow buffer -/

theorem read_pixel_error (buffer : List Nat) (off : Int) (e : copy_fault)
    (h : read_pixel buffer off = Except.error e) : e = copy_fault.bad_read := by
  unfold read_pixel at h
  split at h
  · cases h
  · cases h
    rfl

theorem copy_buffer_row_inside (C_TRANSPARENT : Nat) (buffer : List Nat) (src dst : Int) :
    ∀ (n : Nat) (x : Int) (sb : List Nat),
      0 ≤ dst + x → dst + x + (n : Int) ≤ (sb.length : Int) →
      copy_buffer_row C_TRANSPARENT buffer src dst n x sb ≠ Except.error copy_fault.bad_write ∧
      ∀ sb1, copy_buffer_row C_TRANSPARENT buffer src dst n x sb = Except.ok sb1 →
        sb1.length = sb.length := by
  intro n
  induction n with
  | zero =>
    intro x sb _ _
    refine ⟨fun h => (by cases h), fun sb1 h => ?_⟩
    simp only [copy_buffer_row, Except.ok.injEq] at h
    rw [← h]
  | succ n ih =>
    intro x sb h0 h1
    simp only [copy_buffer_row]
    cases hr : read_pixel buffer (src + 2 * x) with
    | error e =>
      have := read_pixel_error _ _ _ hr
      subst this
      exact ⟨fun h => (by cases h), fun sb1 h => (by cases h)⟩
    | ok p =>
      simp only []
      by_cases hp : p ≠ C_TRANSPARENT
      · rw [if_pos hp]
        have hw : write_pixel sb (dst + x) p = Except.ok (sb.set (dst + x).toNat p) := by
          unfold write_pixel
          rw [if_pos ⟨h0, by push_cast at h1; omega⟩]
        rw [hw]
        simp only []
        have hl : (sb.set (dst + x).toNat p).length = sb.length := List.length_set _ _ _
        have := ih (x + 1) (sb.set (dst + x).toNat p) (by omega)
          (by rw [hl]; push_cast at h1 ⊢; omega)
        rw [hl] at this
        exact this
      · rw [if_neg hp]
        exact ih (x + 1) sb (by omega) (by push_cast at h1 ⊢; omega)

theorem copy_buffer_rows_inside (C_TRANSPARENT : Nat) (g : gui_state) (buffer : List Nat)
    (left top width stride : Int)
    (hsw : 0 < g.screen_width) (hl : 0 ≤ left) (ht : 0 ≤ top)
    (hw : width ≤ g.screen_width - left) :
    ∀ (n : Nat) (y : Int) (sb : List Nat), 0 ≤ y →
      (0 < n → top + y + (n : Int) ≤ g.screen_height) →
      (sb.length : Int) = g.screen_width * g.screen_height →
      copy_buffer_rows C_TRANSPARENT g buffer left top width stride n y sb
          ≠ Except.error copy_fault.bad_write ∧
      ∀ sb1, copy_buffer_rows C_TRANSPARENT g buffer left top width stride n y sb
          = Except.ok sb1 → sb1.length = sb.length := by
  intro n
  induction n with
  | zero =>
    intro y sb _ _ _
    refine ⟨fun h => (by cases h), fun sb1 h => ?_⟩
    simp only [copy_buffer_rows, Except.ok.injEq] at h
    rw [← h]
  | succ n ih =>
    intro y sb hy hn0 hlen
    have hn := hn0 (Nat.succ_pos n)
    have hrow : copy_buffer_row C_TRANSPARENT buffer (y * stride)
          ((top + y) * g.screen_width + left) width.toNat 0 sb
          ≠ Except.error copy_fault.bad_write ∧
        ∀ sb1, copy_buffer_row C_TRANSPARENT buffer (y * stride)
          ((top + y) * g.screen_width + left) width.toNat 0 sb = Except.ok sb1 →
          sb1.length = sb.length := by
      by_cases hw0 : width ≤ 0
      · have e : width.toNat = 0 := Int.toNat_eq_zero.mpr hw0
        rw [e]
        refine ⟨fun h => (by cases h), fun sb1 h => ?_⟩
        simp only [copy_buffer_row, Except.ok.injEq] at h
        rw [← h]
      · have hpos : 0 ≤ (top + y) * g.screen_width := by positivity
        have hle : (top + y + 1) * g.screen_width ≤ g.screen_height * g.screen_width :=
          Int.mul_le_mul_of_nonneg_right (by push_cast at hn; omega) (by omega)
        have hexp : (top + y + 1) * g.screen_width
            = (top + y) * g.screen_width + g.screen_width := by ring
        have hcomm : g.screen_height * g.screen_width = g.screen_width * g.screen_height :=
          Int.mul_comm _ _
        apply copy_buffer_row_inside
        · omega
        · rw [Int.toNat_of_nonneg (by omega), hlen]
          omega
    simp only [copy_buffer_rows]
    cases hr : copy_buffer_row C_TRANSPARENT buffer (y * stride)
        ((top + y) * g.screen_width + left) width.toNat 0 sb with
    | error e =>
      refine ⟨fun h => ?_, fun sb1 h => (by cases h)⟩
      simp only [Except.error.injEq] at h
      subst h
      exact hrow.1 hr
    | ok sb0 =>
      simp only []
      have hl0 := hrow.2 sb0 hr
      have := ih (y + 1) sb0 (by omega) (fun _ => by push_cast at hn ⊢; omega)
        (by rw [hl0]; exact hlen)
      rw [hl0] at this
      exact this

theorem copy_buffer_inside (C_TRANSPARENT : Nat) (g : gui_state) (sb : List Nat)
    (left top width height stride : Int) (buffer : List Nat)
    (hsw : 0 < g.screen_width)
    (hlen : (sb.length : Int) = g.screen_width * g.screen_height)
    (hl : -g.screen_width ≤ left) (ht : -g.screen_height ≤ top) :
    rg_gui_copy_buffer C_TRANSPARENT g (some sb) left top width height stride buffer
        ≠ Except.error copy_fault.bad_write ∧
    ∀ sb1, rg_gui_copy_buffer C_TRANSPARENT g (some sb) left top width height stride buffer
        = Except.ok (copy_result.buffered sb1) → sb1.length = sb.length := by
  have hrows := copy_buffer_rows_inside C_TRANSPARENT g buffer
    (if left < 0 then left + g.screen_width else left)
    (if top < 0 then top + g.screen_height else top)
    (min width (g.screen_width - (if left < 0 then left + g.screen_width else left)))
    (if stride < width then width * 2 else stride)
    hsw (by split <;> omega) (by split <;> omega) (min_le_right _ _)
    (min height (g.screen_height - (if top < 0 then top + g.screen_height else top))).toNat
    0 sb le_rfl
    (fun hpos => by
      have h1 := min_le_right height
        (g.screen_height - (if top < 0 then top + g.screen_height else top))
      have h3 : 0 < min height
          (g.screen_height - (if top < 0 then top + g.screen_height else top)) := by
        by_contra hneg
        rw [Int.toNat_eq_zero.mpr (by omega)] at hpos
        exact absurd hpos (by decide)
      rw [Int.toNat_of_nonneg (by omega)]
      omega)
    hlen
  unfold rg_gui_copy_buffer
  simp only []
  cases hr : copy_buffer_rows C_TRANSPARENT g buffer
      (if left < 0 then left + g.screen_width else left)
      (if top < 0 then top + g.screen_height else top)
      (min width (g.screen_width - (if left < 0 then left + g.screen_width else left)))
      (if stride < width then width * 2 else stride)
      (min height (g.screen_height - (if top < 0 then top + g.screen_height else top))).toNat
      0 sb with
  | error e =>
    refine ⟨fun h => ?_, fun sb1 h => (by cases h)⟩
    simp only [Except.error.injEq] at h
    subst h
    exact hrows.1 hr
  | ok sb0 =>
    refine ⟨fun h => (by cases h), fun sb1 h => ?_⟩
    simp only [Except.ok.injEq, copy_result.buffered.injEq] at h
    rw [← h]
    exact hrows.2 sb0 hr

/-- C13 (failing input): on a 4 x 2 screen with the shadow buffer active, copying
one non-transparent pixel to `left = -5`, `top = 0` stores it one pixel before
the start of the shadow buffer, and copying it to `left = 0`, `top = -3` stores
it four pixels before the start: a coordinate that is still negative after the
screen size has been added is not clamped. -/
theorem copy_buffer_writes_outside :
    rg_gui_copy_buffer 0xF81F tiny_gui (some (List.replicate 8 0)) (-5) 0 1 1 2 [1, 0]
      = Except.error copy_fault.bad_write ∧
    rg_gui_copy_buffer 0xF81F tiny_gui (some (List.replicate 8 0)) 0 (-3) 1 1 2 [1, 0]
      = Except.error copy_fault.bad_write ∧
    write_pixel (List.replicate 8 0) ((0 + 0) * tiny_gui.screen_width + (-5 + 4) + 0) 1
      = Except.error copy_fault.bad_write := by
  refine ⟨by rfl, by rfl, by rfl⟩

/-! ## Theorems: option count, first frame, action keys, held keys -/

theorem count_items_spec {σ : Type} (F : rg_dialog_flags) (opts : List (rg_gui_option_t σ))
    (n : Nat)
    (hrows : ∀ i, i < n → ∃ o, opts[i]? = some o ∧ o.flags ≠ F.RG_DIALOG_FLAG_LAST)
    (hterm : ∃ o, opts[n]? = some o ∧ o.flags = F.RG_DIALOG_FLAG_LAST) :
    ∀ (fuel i : Nat), i ≤ n → n < i + fuel → count_items F opts fuel i = some (n : Int) := by
  intro fuel
  induction fuel with
  | zero =>
    intro i h1 h2
    omega
  | succ fuel ih =>
    intro i h1 h2
    by_cases hi : i = n
    · subst hi
      obtain ⟨o, ho, hf⟩ := hterm
      simp only [count_items, ho, hf, if_true]
    · obtain ⟨o, ho, hf⟩ := hrows i (by omega)
      simp only [count_items, ho, hf, if_false]
      exact ih (i + 1) (by omega) (by omega)

/-- C24 (amended): for every option list of at most 15 rows followed by the
terminator sentinel, `get_dialog_items_count` returns the number of rows that
precede the terminator; for a null list it returns 0. -/
theorem items_count_terminated {σ : Type} (F : rg_dialog_flags)
    (opts : List (rg_gui_option_t σ)) (n : Nat) (hn : n ≤ 15)
    (hrows : ∀ i, i < n → ∃ o, opts[i]? = some o ∧ o.flags ≠ F.RG_DIALOG_FLAG_LAST)
    (hterm : ∃ o, opts[n]? = some o ∧ o.flags = F.RG_DIALOG_FLAG_LAST) :
    get_dialog_items_count F (some opts) = some (n : Int) ∧
    get_dialog_items_count F (none : Option (List (rg_gui_option_t σ))) = some 0 :=
  ⟨count_items_spec F opts n hrows hterm 16 0 (Nat.zero_le n) (by omega), rfl⟩

theorem items_count_terminated_witness :
    get_dialog_items_count demo_flags (some plain_options) = some ((3 : Nat) : Int) ∧
    get_dialog_items_count demo_flags (none : Option (List (rg_gui_option_t Unit))) = some 0 :=
  items_count_terminated demo_flags plain_options 3 (by decide)
    (fun i hi => by
      have h : i = 0 ∨ i = 1 ∨ i = 2 := by omega
      rcases h with h | h | h <;> subst h <;> exact ⟨_, rfl, by decide⟩)
    ⟨_, rfl, rfl⟩

/-- C24 (counterexample): for the option list of 16 selectable rows followed by the
terminator sentinel, `get_dialog_items_count` returns 0, not 16: the terminator
sits at index 16, outside the 16 entries that are scanned. -/
theorem items_count_sixteen_rows :
    sixteen_options.length = 17 ∧
    (∀ i, i < 16 → (sixteen_options[i]?).map (fun o => o.flags) = some 1) ∧
    (sixteen_options[16]?).map (fun o => o.flags) = some demo_flags.RG_DIALOG_FLAG_LAST ∧
    get_dialog_items_count demo_flags (some sixteen_options) = some 0 := by
  refine ⟨rfl, ?_, rfl, rfl⟩
  intro i hi
  interval_cases i <;> rfl

/-- C26 (failing input): `rg_gui_dialog` opened with initial selection 0 on a list
whose row 0 is flagged skip and whose row 1 is selectable draws its first frame
with the selection on row 0, the skip row, and the selection stays there through
a poll cycle without input. -/
theorem dialog_first_frame_on_skip_row :
    (dialog_open demo_flags () none (some skip_first_options) 0).map
      (fun s => (s.options_count, s.sel, s.frames, row_flags s.options s.sel))
      = some (2, 0, [0], some demo_flags.RG_DIALOG_FLAG_SKIP) ∧
    ((dialog_open demo_flags () none (some skip_first_options) 0).bind
        (dialog_after demo_flags [[]])).map
      (fun s => (s.sel, s.frames, row_flags s.options s.sel))
      = some (0, [0], some demo_flags.RG_DIALOG_FLAG_SKIP) := by
  refine ⟨by rfl, by rfl⟩

open rg_key_t rg_gui_event_t in
theorem dialog_action_eq {σ : Type} (F : rg_dialog_flags) (st : dialog_state σ)
    (select : rg_gui_event_t) (j : List rg_key_t) (o : rg_gui_option_t σ)
    (k : rg_key_t) (ev : rg_gui_event_t)
    (ho : option_at st.options st.sel = some o)
    (hd : o.flags ≠ F.RG_DIALOG_FLAG_DISABLED) (hs : o.flags ≠ F.RG_DIALOG_FLAG_SKIP)
    (hev : action_event j = some (k, ev)) :
    dialog_action F st select j
      = some (invoke_cb st o k ev (if ev = RG_DIALOG_ENTER then RG_DIALOG_CLOSE else select)) := by
  simp only [dialog_action, ho]
  rw [if_pos ⟨hd, hs⟩]
  simp only [action_event] at hev
  by_cases hl : RG_KEY_LEFT ∈ j
  · rw [if_pos hl] at hev ⊢
    simp only [Option.some.injEq, Prod.mk.injEq] at hev
    obtain ⟨rfl, rfl⟩ := hev
    rfl
  · rw [if_neg hl] at hev ⊢
    by_cases hr : RG_KEY_RIGHT ∈ j
    · rw [if_pos hr] at hev ⊢
      simp only [Option.some.injEq, Prod.mk.injEq] at hev
      obtain ⟨rfl, rfl⟩ := hev
      rfl
    · rw [if_neg hr] at hev ⊢
      by_cases hst : RG_KEY_START ∈ j
      · rw [if_pos hst] at hev ⊢
        simp only [Option.some.injEq, Prod.mk.injEq] at hev
        obtain ⟨rfl, rfl⟩ := hev
        rfl
      · rw [if_neg hst] at hev ⊢
        by_cases ha : RG_KEY_A ∈ j
        · rw [if_pos ha] at hev ⊢
          simp only [Option.some.injEq, Prod.mk.injEq] at hev
          obtain ⟨rfl, rfl⟩ := hev
          rfl
        · rw [if_neg ha] at hev
          cases hev

open rg_key_t rg_gui_event_t in
theorem dialog_action_idle {σ : Type} (F : rg_dialog_flags) (st : dialog_state σ)
    (select : rg_gui_event_t) (j : List rg_key_t) (o : rg_gui_option_t σ)
    (ho : option_at st.options st.sel = some o)
    (h : (o.flags = F.RG_DIALOG_FLAG_DISABLED ∨ o.flags = F.RG_DIALOG_FLAG_SKIP) ∨
      action_event j = none) :
    dialog_action F st select j = some (st, select) := by
  simp only [dialog_action, ho]
  by_cases hsel : o.flags ≠ F.RG_DIALOG_FLAG_DISABLED ∧ o.flags ≠ F.RG_DIALOG_FLAG_SKIP
  · rw [if_pos hsel]
    rcases h with h | h
    · rcases h with h | h
      · exact absurd h hsel.1
      · exact absurd h hsel.2
    · simp only [action_event] at h
      by_cases hl : RG_KEY_LEFT ∈ j
      · rw [if_pos hl] at h
        cases h
      · rw [if_neg hl] at h ⊢
        by_cases hr : RG_KEY_RIGHT ∈ j
        · rw [if_pos hr] at h
          cases h
        · rw [if_neg hr] at h ⊢
          by_cases hst : RG_KEY_START ∈ j
          · rw [if_pos hst] at h
            cases h
          · rw [if_neg hst] at h ⊢
            by_cases ha : RG_KEY_A ∈ j
            · rw [if_pos ha] at h
              cases h
            · rw [if_neg ha]
  · rw [if_neg hsel]

theorem action_event_tag (j : List rg_key_t) (k : rg_key_t) (ev : rg_gui_event_t)
    (h : action_event j = some (k, ev)) :
    (k = rg_key_t.RG_KEY_LEFT ∧ ev = rg_gui_event_t.RG_DIALOG_PREV) ∨
    (k = rg_key_t.RG_KEY_RIGHT ∧ ev = rg_gui_event_t.RG_DIALOG_NEXT) ∨
    (k = rg_key_t.RG_KEY_START ∧ ev = rg_gui_event_t.RG_DIALOG_ALT) ∨
    (k = rg_key_t.RG_KEY_A ∧ ev = rg_gui_event_t.RG_DIALOG_ENTER) := by
  simp only [action_event] at h
  split at h
  · simp only [Option.some.injEq, Prod.mk.injEq] at h
    exact Or.inl ⟨h.1.symm, h.2.symm⟩
  · split at h
    · simp only [Option.some.injEq, Prod.mk.injEq] at h
      exact Or.inr (Or.inl ⟨h.1.symm, h.2.symm⟩)
    · split at h
      · simp only [Option.some.injEq, Prod.mk.injEq] at h
        exact Or.inr (Or.inr (Or.inl ⟨h.1.symm, h.2.symm⟩))
      · split at h
        · simp only [Option.some.injEq, Prod.mk.injEq] at h
          exact Or.inr (Or.inr (Or.inr ⟨h.1.symm, h.2.symm⟩))
        · cases h

open rg_key_t rg_gui_event_t in
/-- C27: in one poll cycle of `rg_gui_dialog` in which no key is recorded as held,
with `o` the selected row (the row under the selection after the Up/Down step
of the cycle) and `(k, ev)` the first of Left, Right, Start, A that is down with
its tag Prev, Next, Alt, Enter: when `o` is neither disabled nor skip and has a
callback, the callback is invoked once with `ev` on the row and its result is
the cycle's `select`; when `o` is disabled or skip, the four keys change
nothing, no callback is invoked, and unless a dismiss button is down the dialog
stays open; and A on a selectable row without callback closes the dialog with
that row's id as the outcome. -/
theorem dialog_action_keys {σ : Type} (F : rg_dialog_flags) (st : dialog_state σ)
    (j : List rg_key_t) (o : rg_gui_option_t σ) (hkey : st.last_key = none)
    (ho : option_at st.options (dialog_move st j).1.sel = some o) :
    (o.flags ≠ F.RG_DIALOG_FLAG_DISABLED → o.flags ≠ F.RG_DIALOG_FLAG_SKIP →
      ∀ cb k ev, o.update_cb = some cb → action_event j = some (k, ev) →
        ((k = RG_KEY_LEFT ∧ ev = RG_DIALOG_PREV) ∨ (k = RG_KEY_RIGHT ∧ ev = RG_DIALOG_NEXT) ∨
          (k = RG_KEY_START ∧ ev = RG_DIALOG_ALT) ∨ (k = RG_KEY_A ∧ ev = RG_DIALOG_ENTER)) ∧
        ∃ st1, dialog_keys F st j = some (st1, (cb st.world (row_of o) ev).2.1) ∧
          st1.world = (cb st.world (row_of o) ev).1 ∧ st1.last_key = some k) ∧
    ((o.flags = F.RG_DIALOG_FLAG_DISABLED ∨ o.flags = F.RG_DIALOG_FLAG_SKIP) →
      dialog_keys F st j = some (dialog_move st j) ∧
      (dialog_move st j).1.world = st.world ∧
      (dialog_move st j).1.options = st.options ∧
      ((RG_KEY_UP ∈ j ∨ RG_KEY_DOWN ∈ j ∨ ¬ dismiss_pressed j) →
        dialog_poll F st j
          = (dialog_redraw F (dialog_move st j).1).map poll_result.running)) ∧
    (o.flags ≠ F.RG_DIALOG_FLAG_DISABLED → o.flags ≠ F.RG_DIALOG_FLAG_SKIP →
      o.update_cb = none → action_event j = some (RG_KEY_A, RG_DIALOG_ENTER) →
      ∃ st1, dialog_poll F st j = some (poll_result.closed o.id st1) ∧
        st1.world = st.world ∧ st1.options = st.options ∧
        st1.sel = (dialog_move st j).1.sel) := by
  have hmf := dialog_move_fields st j
  have ho1 : option_at (dialog_move st j).1.options (dialog_move st j).1.sel = some o := by
    rw [hmf.2.1]
    exact ho
  refine ⟨?_, ?_, ?_⟩
  · intro hd hs cb k ev hcb hev
    refine ⟨action_event_tag j k ev hev, ?_⟩
    have h := dialog_action_eq F (dialog_move st j).1 (dialog_move st j).2 j o k ev ho1 hd hs hev
    refine ⟨(invoke_cb (dialog_move st j).1 o k ev
      (if ev = RG_DIALOG_ENTER then RG_DIALOG_CLOSE else (dialog_move st j).2)).1, ?_, ?_, ?_⟩
    · show dialog_action F (dialog_move st j).1 (dialog_move st j).2 j = _
      rw [h]
      simp only [invoke_cb, hcb, hmf.2.2.2.2.2.1]
    · simp only [invoke_cb, hcb, hmf.2.2.2.2.2.1]
    · simp only [invoke_cb, hcb]
  · intro hfl
    have h := dialog_action_idle F (dialog_move st j).1 (dialog_move st j).2 j o ho1 (Or.inl hfl)
    refine ⟨h, hmf.2.2.2.2.2.1, hmf.2.1, ?_⟩
    intro hk
    have hvoid : (dialog_move st j).2 = RG_DIALOG_VOID := by
      by_cases hud : RG_KEY_UP ∈ j ∨ RG_KEY_DOWN ∈ j
      · exact hmf.2.2.2.2.2.2.2.2.1 hud
      · have hu : RG_KEY_UP ∉ j := fun h => hud (Or.inl h)
        have hdn : RG_KEY_DOWN ∉ j := fun h => hud (Or.inr h)
        have hnd : ¬ dismiss_pressed j := by
          rcases hk with hk | hk | hk
          · exact absurd hk hu
          · exact absurd hk hdn
          · exact hk
        rw [(dialog_move_dismiss st j hu hdn).2.2.2.2 hnd]
    have hk2 : dialog_keys F st j = some ((dialog_move st j).1, RG_DIALOG_VOID) := by
      show dialog_action F (dialog_move st j).1 (dialog_move st j).2 j = _
      rw [h]
      congr 1
      exact Prod.ext rfl hvoid
    simp only [dialog_poll, hkey, hk2, Option.some_bind]
    rw [if_neg (by decide), if_neg (by decide)]
  · intro hd hs hcb hev
    have h := dialog_action_eq F (dialog_move st j).1 (dialog_move st j).2 j o RG_KEY_A
      RG_DIALOG_ENTER ho1 hd hs hev
    have hk2 : dialog_keys F st j
        = some ({ (dialog_move st j).1 with last_key := some RG_KEY_A }, RG_DIALOG_CLOSE) := by
      show dialog_action F (dialog_move st j).1 (dialog_move st j).2 j = _
      rw [h]
      simp only [invoke_cb, hcb, if_true]
    have hnn : 0 ≤ (dialog_move st j).1.sel := by
      by_contra hneg
      simp [option_at, hneg] at ho
    refine ⟨{ (dialog_move st j).1 with last_key := some RG_KEY_A }, ?_,
      hmf.2.2.2.2.2.1, hmf.2.1, rfl⟩
    simp only [dialog_poll, hkey, hk2, Option.some_bind]
    rw [if_neg (by decide), if_pos (by trivial), if_neg (by omega)]
    simp only [ho1, Option.map_some']

theorem dialog_action_keys_witness :
    ∃ st1, dialog_poll demo_flags plain_dialog [rg_key_t.RG_KEY_A]
        = some (poll_result.closed (plain_row Unit 10).id st1) ∧
      st1.world = plain_dialog.world ∧ st1.options = plain_dialog.options ∧
      st1.sel = (dialog_move plain_dialog [rg_key_t.RG_KEY_A]).1.sel :=
  (dialog_action_keys demo_flags plain_dialog [rg_key_t.RG_KEY_A] (plain_row Unit 10) rfl
    (by rfl)).2.2 (by decide) (by decide) rfl (by decide)

/-! ### Held keys -/

theorem dialog_redraw_sel_old {σ : Type} (F : rg_dialog_flags) (st st1 : dialog_state σ)
    (h : dialog_redraw F st = some st1) : st1.sel_old = st1.sel := by
  unfold dialog_redraw at h
  by_cases hne : st.sel_old ≠ st.sel
  · rw [if_pos hne] at h
    cases hw : skip_walk F st.options st.options_count st.last_key st.sel_old
        (st.options.length + 1) st.sel with
    | none => simp [hw] at h
    | some s =>
      simp only [hw, Option.map_some', Option.some.injEq] at h
      rw [← h]
  · rw [if_neg hne] at h
    simp only [Option.some.injEq] at h
    rw [← h]
    exact not_not.mp hne

theorem dialog_poll_sel_old {σ : Type} (F : rg_dialog_flags) (st st1 : dialog_state σ)
    (j : List rg_key_t) (h : dialog_poll F st j = some (poll_result.running st1)) :
    st1.sel_old = st1.sel := by
  unfold dialog_poll at h
  cases hk : st.last_key with
  | some k =>
    simp only [hk] at h
    cases hr : dialog_redraw F (if k ∈ j then st else { st with last_key := none }) with
    | none => simp [hr] at h
    | some s =>
      simp only [hr, Option.map_some', Option.some.injEq, poll_result.running.injEq] at h
      rw [← h]
      exact dialog_redraw_sel_old F _ s hr
  | none =>
    simp only [hk] at h
    cases hkeys : dialog_keys F st j with
    | none => simp [hkeys] at h
    | some r =>
      simp only [hkeys, Option.some_bind] at h
      split at h
      · cases h
      · split at h
        · split at h
          · cases h
          · cases ho : option_at r.1.options r.1.sel with
            | none => simp [ho] at h
            | some o => simp [ho] at h
        · cases hr : dialog_redraw F r.1 with
          | none => simp [hr] at h
          | some s =>
            simp only [hr, Option.map_some', Option.some.injEq,
              poll_result.running.injEq] at h
            rw [← h]
            exact dialog_redraw_sel_old F _ s hr

theorem dialog_after_sel_old {σ : Type} (F : rg_dialog_flags) :
    ∀ (js : List (List rg_key_t)) (st st1 : dialog_state σ),
      dialog_after F js st = some st1 →
      (st.sel_old = st.sel ∨ st.last_key = none) →
      (st1.sel_old = st1.sel ∨ st1.last_key = none) := by
  intro js
  induction js with
  | nil =>
    intro st st1 h hinv
    simp only [dialog_after, Option.some.injEq] at h
    rw [← h]
    exact hinv
  | cons j rest ih =>
    intro st st1 h _
    simp only [dialog_after] at h
    cases hp : dialog_poll F st j with
    | none => simp [hp] at h
    | some r =>
      cases r with
      | closed ret s => simp [hp] at h
      | running s =>
        simp only [hp] at h
        exact ih s st1 h (Or.inl (dialog_poll_sel_old F st s j hp))

theorem dialog_open_last_key {σ : Type} (F : rg_dialog_flags) (world : σ)
    (header : Option (List Nat)) (options_const : Option (List (rg_gui_option_t σ)))
    (selected : Int) (st : dialog_state σ)
    (h : dialog_open F world header options_const selected = some st) :
    st.last_key = none := by
  unfold dialog_open at h
  cases hc : get_dialog_items_count F options_const with
  | none => simp [hc] at h
  | some n =>
    simp only [hc, Option.some_bind] at h
    cases options_const with
    | none => simp at h
    | some opts =>
      simp only [] at h
      split at h
      · cases h
      · simp only [Option.some.injEq] at h
        rw [← h]

/-- C28: at any point of an `rg_gui_dialog` call at which a key is recorded as held,
a poll cycle in which that key is still down changes nothing, whatever other
buttons are down: the selection, the rows, the state seen by the callbacks, the
frames drawn and the held key are the same afterwards and the dialog stays
open; a cycle in which the held key is not down only clears the record of the
held key. -/
theorem dialog_held_key_cycle {σ : Type} (F : rg_dialog_flags) (world : σ)
    (header : Option (List Nat)) (options_const : Option (List (rg_gui_option_t σ)))
    (selected : Int) (pre : List (List rg_key_t)) (st : dialog_state σ) (k : rg_key_t)
    (j : List rg_key_t)
    (hreach : (dialog_open F world header options_const selected).bind (dialog_after F pre)
      = some st)
    (hheld : st.last_key = some k) :
    (k ∈ j → dialog_poll F st j = some (poll_result.running st)) ∧
    (k ∉ j → dialog_poll F st j = some (poll_result.running { st with last_key := none })) := by
  have hinv : st.sel_old = st.sel := by
    cases ho : dialog_open F world header options_const selected with
    | none => simp [ho] at hreach
    | some s0 =>
      rw [ho, Option.some_bind] at hreach
      have := dialog_after_sel_old F pre s0 st hreach
        (Or.inr (dialog_open_last_key F world header options_const selected s0 ho))
      rcases this with h | h
      · exact h
      · rw [hheld] at h
        cases h
  constructor
  · intro hk
    simp only [dialog_poll, hheld, hk, if_true, dialog_redraw]
    rw [if_neg (not_not.mpr hinv)]
    rfl
  · intro hk
    simp only [dialog_poll, hheld, hk, if_false, dialog_redraw]
    rw [if_neg (not_not.mpr hinv)]
    rfl

theorem dialog_held_key_cycle_witness :
    (rg_key_t.RG_KEY_UP ∈ [rg_key_t.RG_KEY_UP, rg_key_t.RG_KEY_A] →
      dialog_poll demo_flags held_dialog [rg_key_t.RG_KEY_UP, rg_key_t.RG_KEY_A]
        = some (poll_result.running held_dialog)) ∧
    (rg_key_t.RG_KEY_UP ∉ [rg_key_t.RG_KEY_UP, rg_key_t.RG_KEY_A] →
      dialog_poll demo_flags held_dialog [rg_key_t.RG_KEY_UP, rg_key_t.RG_KEY_A]
        = some (poll_result.running { held_dialog with last_key := none })) :=
  dialog_held_key_cycle demo_flags () none (some plain_options) 0 [[rg_key_t.RG_KEY_UP]]
    held_dialog rg_key_t.RG_KEY_UP [rg_key_t.RG_KEY_UP, rg_key_t.RG_KEY_A] (by rfl) rfl

/-! ## Theorems: left-aligned text, brightness callback, record offsets -/

set_option maxRecDepth 100000 in
/-- C22 (failing input): the text "A\nB" drawn with box width 16 (draw width 16,
every glyph at most 8 wide) under `RG_TEXT_ALIGN_LEFT` and `RG_TEXT_MULTILINE`:
the pass of the outer loop that starts at the newline character consumes no
character and leaves the text pointer where it was, so the loop never ends and
`rg_gui_draw_text` does not return. -/
theorem draw_text_left_aligned_newline_stuck :
    text_draw_width demo_gui 0 16 = 16 ∧
    glyphs_fit_width demo_gui 16 [65, 10, 66] ∧
    (draw_line demo_gui ⟨true, false, true, false⟩ 16 [65, 10, 66]).map Prod.snd
      = some [10, 66] ∧
    draw_line demo_gui ⟨true, false, true, false⟩ 16 [10, 66] = some ([], [10, 66]) ∧
    (∀ fuel y, draw_lines demo_gui ⟨true, false, true, false⟩ 16 1 0 fuel [10, 66] y = none) ∧
    ∀ fuel, rg_gui_draw_text demo_gui fuel 0 0 16 (some [65, 10, 66]) 1 0
      ⟨true, false, true, false⟩ = none := by
  have h4 : draw_line demo_gui ⟨true, false, true, false⟩ 16 [10, 66] = some ([], [10, 66]) := by
    decide
  have h5 : (draw_line demo_gui ⟨true, false, true, false⟩ 16 [65, 10, 66]).map Prod.snd
      = some [10, 66] := by decide
  have hstuck := draw_lines_stuck demo_gui ⟨true, false, true, false⟩ 16 1 0 10 [66] rfl h4
  refine ⟨by decide, demo_gui_glyphs_fit 16 (by norm_num) _, h5, h4, hstuck, ?_⟩
  intro fuel
  have h1 : box_width demo_gui 16 (some [65, 10, 66]) = some 16 := by decide
  have h2 : text_draw_width demo_gui 0 16 = 16 := by decide
  have h3 : effective_text (some [65, 10, 66]) = [65, 10, 66] := by decide
  simp only [rg_gui_draw_text, h1, Option.some_bind, h2, h3]
  cases fuel with
  | zero => rfl
  | succ fuel =>
    cases hd : draw_line demo_gui ⟨true, false, true, false⟩ 16 [65, 10, 66] with
    | none => simp [hd] at h5
    | some r =>
      obtain ⟨gl, rest⟩ := r
      simp only [hd, Option.map_some', Option.some.injEq] at h5
      subst h5
      simp only [draw_lines, hd, Option.some_bind, if_true, hstuck, Option.map_none']

open rg_gui_event_t in
/-- C29 (amended): for every event other than Prev and Next and every current
backlight level, `brightness_update_cb` leaves the backlight alone (the setter
is not called and the level is unchanged) exactly when the level is already
the normalised value `min(max(level & ~1, 1), 100)`, that is when it is 1 or an
even number from 2 to 100; for any other level the setter is called once, with
the normalised value.  The returned event is always Void. -/
theorem brightness_cb_other_events (w : backlight_state) (row : rg_gui_row)
    (event : rg_gui_event_t) (h1 : event ≠ RG_DIALOG_PREV) (h2 : event ≠ RG_DIALOG_NEXT) :
    (brightness_update_cb w row event).2.1 = RG_DIALOG_VOID ∧
    ((brightness_update_cb w row event).1 = w ↔ backlight_normal w.level = w.level) ∧
    (backlight_normal w.level = w.level ↔
      (w.level = 1 ∨ (w.level % 2 = 0 ∧ 2 ≤ w.level ∧ w.level ≤ 100))) ∧
    (backlight_normal w.level ≠ w.level →
      (brightness_update_cb w row event).1
        = ⟨backlight_normal w.level, w.set_calls ++ [backlight_normal w.level]⟩) := by
  have hb : brightness_update_cb w row event
      = (if backlight_normal w.level ≠ w.level then
          ⟨backlight_normal w.level, w.set_calls ++ [backlight_normal w.level]⟩ else w,
        RG_DIALOG_VOID, some (format_percent (backlight_normal w.level))) := by
    simp only [brightness_update_cb, h1, h2, if_false, backlight_normal]
  rw [hb]
  refine ⟨rfl, ?_, ?_, ?_⟩
  · constructor
    · intro h
      by_contra hne
      simp only [] at h
      rw [if_pos hne] at h
      have := congrArg backlight_state.level h
      exact hne this
    · intro h
      simp only []
      rw [if_neg (not_not.mpr h)]
  · unfold backlight_normal
    constructor
    · intro h
      omega
    · intro h
      omega
  · intro hne
    simp only []
    rw [if_pos hne]

theorem brightness_cb_other_events_witness :
    (brightness_update_cb ⟨50, []⟩ ⟨0, none, none, 1⟩ rg_gui_event_t.RG_DIALOG_INIT).2.1
      = rg_gui_event_t.RG_DIALOG_VOID ∧
    ((brightness_update_cb ⟨50, []⟩ ⟨0, none, none, 1⟩ rg_gui_event_t.RG_DIALOG_INIT).1
        = ⟨50, []⟩ ↔
      backlight_normal (⟨50, []⟩ : backlight_state).level
        = (⟨50, []⟩ : backlight_state).level) ∧
    (backlight_normal (⟨50, []⟩ : backlight_state).level = (⟨50, []⟩ : backlight_state).level ↔
      ((⟨50, []⟩ : backlight_state).level = 1 ∨
        ((⟨50, []⟩ : backlight_state).level % 2 = 0 ∧
          2 ≤ (⟨50, []⟩ : backlight_state).level ∧
          (⟨50, []⟩ : backlight_state).level ≤ 100))) ∧
    (backlight_normal (⟨50, []⟩ : backlight_state).level
        ≠ (⟨50, []⟩ : backlight_state).level →
      (brightness_update_cb ⟨50, []⟩ ⟨0, none, none, 1⟩ rg_gui_event_t.RG_DIALOG_INIT).1
        = ⟨backlight_normal (⟨50, []⟩ : backlight_state).level,
            (⟨50, []⟩ : backlight_state).set_calls
              ++ [backlight_normal (⟨50, []⟩ : backlight_state).level]⟩) :=
  brightness_cb_other_events ⟨50, []⟩ ⟨0, none, none, 1⟩ rg_gui_event_t.RG_DIALOG_INIT
    (by decide) (by decide)

/-- C29 (counterexample): with the backlight at level 51 the events Init, Alt and
Enter each make `brightness_update_cb` call the setter with 50; with the
backlight at level 0 the event Init makes it call the setter with 1. -/
theorem brightness_cb_normalises :
    (brightness_update_cb ⟨51, []⟩ ⟨0, none, none, 1⟩ rg_gui_event_t.RG_DIALOG_INIT).1
      = ⟨50, [50]⟩ ∧
    (brightness_update_cb ⟨51, []⟩ ⟨0, none, none, 1⟩ rg_gui_event_t.RG_DIALOG_ALT).1
      = ⟨50, [50]⟩ ∧
    (brightness_update_cb ⟨51, []⟩ ⟨0, none, none, 1⟩ rg_gui_event_t.RG_DIALOG_ENTER).1
      = ⟨50, [50]⟩ ∧
    (brightness_update_cb ⟨0, []⟩ ⟨0, none, none, 1⟩ rg_gui_event_t.RG_DIALOG_INIT).1
      = ⟨1, [1]⟩ := by
  refine ⟨by decide, by decide, by decide, by decide⟩

theorem read_byte_lt (data : List Nat) (i b : Nat) (h : read_byte data i = some b) :
    b < 256 := by
  unfold read_byte at h
  cases hd : data[i]? with
  | none => simp [hd] at h
  | some v =>
    simp only [hd, Option.map_some', Option.some.injEq] at h
    omega

/-- C30 (amended): in a proportional font record only the xOffset byte is decoded as
a signed quantity (a byte below 0x80 is taken as it is, a byte `b` from 0x80 on
as `-(0xFF - b)`); the yOffset byte is used as it is, as the unsigned row index
(0 to 255) of the first row of the record: under the conditions of C17 every
bit set in the returned glyph lies in a row `yb + y` with `yb` the yOffset byte
and `y` below the record height, and every set payload bit is found there. -/
theorem get_glyph_record_offsets (font : rg_font_t) (points c : Nat) (r : glyph_record)
    (htype : font.type ≠ 0) (hc : c ≠ 10) (hp : points = 0 ∨ points = font.height)
    (hscan : scan_records c font.data (font.data.length + 1) 0 = some r)
    (hmatch : c = r.charCode)
    (hdata : r.pos + (r.width * r.height + 7) / 8 ≤ font.data.length)
    (hshift : ∀ x y, x < r.width → y < r.height →
      payload_bit font.data r.pos (y * r.width + x) = true →
      0 ≤ r.xOffset + (x : Int) ∧ r.xOffset + (x : Int) < 32) :
    ∃ gl p yb xb, get_glyph font points c = some gl ∧ r.pos = p + 6 ∧
      read_byte font.data (p + 1) = some yb ∧ read_byte font.data (p + 4) = some xb ∧
      yb < 256 ∧
      (∀ row bit, (bitmap_get gl.bitmap row).testBit bit = true →
        ∃ x y, x < r.width ∧ y < r.height ∧ row = yb + y ∧
          (bit : Int) = (if xb < 0x80 then (xb : Int) else -(0xFF - (xb : Int))) + (x : Int)) ∧
      (∀ x y, x < r.width → y < r.height →
        payload_bit font.data r.pos (y * r.width + x) = true →
        ∃ bit : Nat, (bit : Int) = (if xb < 0x80 then (xb : Int) else -(0xFF - (xb : Int))) + (x : Int) ∧
          (bitmap_get gl.bitmap (yb + y)).testBit bit = true) := by
  obtain ⟨s, hun, -, -, hbits⟩ := unpack_rows_total font.data r hdata hshift
  have hget := get_glyph_proportional_eval font points c r s htype hc hscan hmatch hun
  rw [rescale_skip _ _ _ hp] at hget
  obtain ⟨-, p, xo, -, h1, -, h3, -, -, h6, h7, -⟩ := scan_records_header c font.data _ 0 r hscan
  refine ⟨_, p, r.adjYOffset, xo, hget, h1, h3, h6, read_byte_lt _ _ _ h3, ?_, ?_⟩
  · intro row bit h
    obtain ⟨j, hj1, -, h2, h4⟩ := (hbits row bit).mp h
    have hw : 0 < r.width := by
      rcases Nat.eq_zero_or_pos r.width with h | h
      · rw [h, Nat.mul_zero] at hj1
        omega
      · exact h
    refine ⟨j % r.width, j / r.width, Nat.mod_lt _ hw, (Nat.div_lt_iff_lt_mul hw).mpr hj1, h2, ?_⟩
    rw [← h7]
    exact h4
  · intro x y hx hy hpb
    have hx0 := (hshift x y hx hy hpb).1
    have hj : y * r.width + x < r.height * r.width := by
      have : (y + 1) * r.width ≤ r.height * r.width := Nat.mul_le_mul_right _ hy
      rw [Nat.add_mul, Nat.one_mul] at this
      omega
    have hdiv : (y * r.width + x) / r.width = y := by
      rw [Nat.add_comm, Nat.add_mul_div_right _ _ (by omega), Nat.div_eq_of_lt hx,
        Nat.zero_add]
    have hmod : (y * r.width + x) % r.width = x := by
      rw [Nat.add_comm, Nat.add_mul_mod_self_right, Nat.mod_eq_of_lt hx]
    refine ⟨(r.xOffset + (x : Int)).toNat, ?_, ?_⟩
    · rw [Int.toNat_of_nonneg hx0, h7]
    · refine (hbits _ _).mpr ⟨y * r.width + x, hj, hpb, ?_, ?_⟩
      · rw [hdiv]
      · rw [hmod, Int.toNat_of_nonneg hx0]

theorem get_glyph_record_offsets_witness :
    ∃ gl p yb xb, get_glyph prop_font 4 65 = some gl ∧ prop_font_record.pos = p + 6 ∧
      read_byte prop_font.data (p + 1) = some yb ∧ read_byte prop_font.data (p + 4) = some xb ∧
      yb < 256 ∧
      (∀ row bit, (bitmap_get gl.bitmap row).testBit bit = true →
        ∃ x y, x < prop_font_record.width ∧ y < prop_font_record.height ∧ row = yb + y ∧
          (bit : Int) = (if xb < 0x80 then (xb : Int) else -(0xFF - (xb : Int))) + (x : Int)) ∧
      (∀ x y, x < prop_font_record.width → y < prop_font_record.height →
        payload_bit prop_font.data prop_font_record.pos (y * prop_font_record.width + x) = true →
        ∃ bit : Nat, (bit : Int) = (if xb < 0x80 then (xb : Int) else -(0xFF - (xb : Int))) + (x : Int) ∧
          (bitmap_get gl.bitmap (yb + y)).testBit bit = true) :=
  get_glyph_record_offsets prop_font 4 65 prop_font_record (by decide) (by decide) (Or.inr rfl)
    (by decide) rfl (by decide)
    (fun x y _ _ _ => by
      show (0 : Int) ≤ 0 + (x : Int) ∧ (0 : Int) + (x : Int) < 32
      have : x < 3 := by assumption
      omega)

set_option maxRecDepth 100000 in
/-- C30 (counterexample): in a proportional font whose record of `A` has the yOffset
byte 0x80 and one set pixel, the glyph returned by `get_glyph` has that pixel in
row 128 and nothing in row 0, whereas the signed rule of the xOffset byte maps
0x80 to -127. -/
theorem get_glyph_row_offset_unsigned :
    read_byte high_offset_font.data 1 = some 0x80 ∧
    (get_glyph high_offset_font 1 65).map
      (fun gl => (bitmap_get gl.bitmap 128, bitmap_get gl.bitmap 0)) = some (1, 0) ∧
    (if (0x80 : Nat) < 0x80 then ((0x80 : Nat) : Int) else -(0xFF - ((0x80 : Nat) : Int)))
      = -127 := by
  refine ⟨by decide, by decide, by decide⟩

/-! ## Theorems: the settings menu -/

theorem settings_builtin_flags {σ : Type} (cbs : settings_callbacks σ) (isLauncher : Bool) :
    ∀ o ∈ settings_builtin_rows cbs isLauncher, o.flags = 1 := by
  intro o ho
  cases isLauncher
  · simp only [settings_builtin_rows, if_false, Bool.false_eq_true, List.cons_append,
      List.nil_append, List.mem_cons, List.mem_singleton, List.not_mem_nil, or_false] at ho
    rcases ho with h | h | h | h | h | h <;> rw [h]
  · simp only [settings_builtin_rows, if_true, List.cons_append,
      List.nil_append, List.mem_cons, List.mem_singleton, List.not_mem_nil, or_false] at ho
    rcases ho with h | h | h | h | h <;> rw [h]

theorem settings_builtin_length {σ : Type} (cbs : settings_callbacks σ) (isLauncher : Bool) :
    (settings_builtin_rows cbs isLauncher).length = if isLauncher then 5 else 6 := by
  cases isLauncher <;> rfl

theorem settings_menu_count {σ : Type} (F : rg_dialog_flags) (cbs : settings_callbacks σ)
    (app : rg_app_t σ) (ext : List (rg_gui_option_t σ)) (n : Nat)
    (hL : F.RG_DIALOG_FLAG_LAST ≠ 1) (hopt : app.options = some ext)
    (hrows : ∀ i, i < n → ∃ o, ext[i]? = some o ∧ o.flags ≠ F.RG_DIALOG_FLAG_LAST)
    (hterm : ∃ o, ext[n]? = some o ∧ o.flags = F.RG_DIALOG_FLAG_LAST)
    (hfit : (if app.isLauncher then 5 else 6) + n ≤ 15) :
    ∃ options, settings_menu_options F cbs app = some options ∧
      options.length = (if app.isLauncher then 5 else 6) + n + 1 ∧
      get_dialog_items_count F (some options)
        = some ((((if app.isLauncher then 5 else 6) + n : Nat)) : Int) := by
  have hb := settings_builtin_length cbs app.isLauncher
  rw [← hb] at hfit ⊢
  generalize hbase : settings_builtin_rows cbs app.isLauncher = base at hfit hb ⊢
  have hflags : ∀ o ∈ base, o.flags = 1 := by
    rw [← hbase]
    exact settings_builtin_flags cbs app.isLauncher
  have hcount : get_dialog_items_count F (some ext) = some (n : Int) :=
    count_items_spec F ext n hrows hterm 16 0 (Nat.zero_le n) (by omega)
  obtain ⟨ot, hot, hotf⟩ := hterm
  have hnlen : n < ext.length := by
    by_contra hge
    rw [List.getElem?_eq_none (by omega)] at hot
    cases hot
  have htake : (ext.take n).length = n := by
    rw [List.length_take]
    omega
  refine ⟨base ++ ext.take n ++ [RG_DIALOG_CHOICE_LAST F σ], ?_, ?_, ?_⟩
  · simp only [settings_menu_options, hopt, hcount, Option.some_bind, Int.toNat_ofNat, hbase]
    rw [if_pos]
    simp only [List.length_append, htake, List.length_singleton]
    omega
  · simp only [List.length_append, htake, List.length_singleton]
  · refine count_items_spec F _ (base.length + n) ?_ ?_ 16 0 (Nat.zero_le _) (by omega)
    · intro i hi
      by_cases hib : i < base.length
      · refine ⟨base[i], ?_, ?_⟩
        · rw [List.append_assoc, List.getElem?_append_left hib, List.getElem?_eq_getElem hib]
        · rw [hflags _ (List.getElem_mem _)]
          exact fun h => hL h.symm
      · have hi2 : i - base.length < n := by omega
        obtain ⟨o, ho, hof⟩ := hrows _ hi2
        refine ⟨o, ?_, hof⟩
        rw [List.append_assoc, List.getElem?_append_right (by omega),
          List.getElem?_append_left (by rw [htake]; exact hi2), List.getElem?_take, if_pos hi2]
        exact ho
    · refine ⟨RG_DIALOG_CHOICE_LAST F σ, ?_, rfl⟩
      have hlen : (base ++ ext.take n).length = base.length + n := by
        rw [List.length_append, htake]
      rw [List.getElem?_append_right (by rw [hlen]), hlen, Nat.sub_self]
      rfl

open rg_key_t in
/-- C25 (failing input): in the launcher (5 built-in rows) with an application list of
11 rows, `rg_gui_settings_menu` builds 16 rows and the terminator, 17 entries
that fit its 24-entry array, but the option count that `rg_gui_dialog` computes
for them is 0, not 16: the terminator sits at index 16, outside the 16 entries
scanned.  The dialog opens with no rows and the selection at -1, and a poll
cycle without Down pressed reads `options[-1]`. -/
theorem settings_menu_count_lost :
    get_dialog_items_count demo_flags eleven_row_app.options = some 11 ∧
    (settings_menu_options demo_flags idle_callbacks eleven_row_app).map List.length
      = some 17 ∧
    (settings_menu_options demo_flags idle_callbacks eleven_row_app).bind
      (fun o => get_dialog_items_count demo_flags (some o)) = some 0 ∧
    ((settings_menu_options demo_flags idle_callbacks eleven_row_app).bind
      (fun o => dialog_open demo_flags () (some [79, 112, 116, 105, 111, 110, 115]) (some o) 0)).map
      (fun s => (s.options_count, s.sel, s.frames)) = some (0, -1, [-1]) ∧
    ∀ (j : List rg_key_t) (rest : List (List rg_key_t)), RG_KEY_DOWN ∉ j →
      (rg_gui_settings_menu demo_flags idle_callbacks eleven_row_app () (j :: rest)).map
        Prod.fst = none := by
  refine ⟨by rfl, by rfl, by rfl, by rfl, ?_⟩
  intro j rest hd
  have h4 : ((settings_menu_options demo_flags idle_callbacks eleven_row_app).bind
      (fun o => dialog_open demo_flags () (some [79, 112, 116, 105, 111, 110, 115]) (some o) 0)).map
      (fun s => (s.options_count, s.sel)) = some (0, -1) := by rfl
  cases hopts : settings_menu_options demo_flags idle_callbacks eleven_row_app with
  | none =>
    rw [hopts] at h4
    cases h4
  | some opts =>
  rw [hopts, Option.some_bind] at h4
  cases hs0 : dialog_open demo_flags () (some [79, 112, 116, 105, 111, 110, 115]) (some opts) 0 with
  | none =>
    rw [hs0] at h4
    cases h4
  | some s0 =>
  rw [hs0, Option.map_some', Option.some.injEq, Prod.mk.injEq] at h4
  obtain ⟨hcnt, hsel⟩ := h4
  have hkey := dialog_open_last_key demo_flags () _ _ 0 s0 hs0
  have hmf := dialog_move_fields s0 j
  have hmsel : (dialog_move s0 j).1.sel = -1 := by
    rw [hmf.1, if_neg hd, hsel, hcnt]
    split <;> rfl
  have hkeys : dialog_keys demo_flags s0 j = none := by
    show dialog_action demo_flags (dialog_move s0 j).1 (dialog_move s0 j).2 j = none
    simp only [dialog_action, hmsel, option_at]
    rfl
  have hpoll : dialog_poll demo_flags s0 j = none := by
    simp only [dialog_poll, hkey, hkeys, Option.none_bind]
  simp only [rg_gui_settings_menu, hopts, Option.some_bind, rg_gui_dialog, hs0, dialog_loop,
    hpoll, Option.map_none']

/-! ## Theorems: layout and painting of `rg_gui_draw_dialog` -/

theorem conv_240 : f32_round 240 1 = (2013265920, 8388608) := by
  unfold f32_round
  simp only [log2_eq 240 7 (by norm_num) (by norm_num), log2_eq 1 0 (by norm_num) (by norm_num)]
  norm_num

theorem conv_320 : f32_round 320 1 = (2684354560, 8388608) := by
  unfold f32_round
  simp only [log2_eq 320 8 (by norm_num) (by norm_num), log2_eq 1 0 (by norm_num) (by norm_num)]
  norm_num

theorem prod_240 :
    f32_round (13757317 * 2013265920) (2 ^ 24 * 8388608) = (12897485 * 2 ^ 54, 2 ^ 70) := by
  unfold f32_round
  simp only [log2_eq (13757317 * 2013265920) 54 (by norm_num) (by norm_num),
    log2_eq (2 ^ 24 * 8388608) 47 (by norm_num) (by norm_num)]
  norm_num

theorem prod_320 :
    f32_round (13757317 * 2684354560) (2 ^ 24 * 8388608) = (8598323 * 2 ^ 55, 2 ^ 70) := by
  unfold f32_round
  simp only [log2_eq (13757317 * 2684354560) 55 (by norm_num) (by norm_num),
    log2_eq (2 ^ 24 * 8388608) 47 (by norm_num) (by norm_num)]
  norm_num

theorem scale_082_240 : scale_082 240 = 196 := by
  unfold scale_082
  simp only [show (240 : Int).natAbs = 240 from rfl, conv_240, prod_240]
  norm_num

theorem scale_082_320 : scale_082 320 = 262 := by
  unfold scale_082
  simp only [show (320 : Int).natAbs = 320 from rfl, conv_320, prod_320]
  norm_num

theorem tall_layout :
    layout_dialog blank8_gui demo_flags (measure_by_dummy_draw blank8_gui) none tall_options
      = some ⟨15, 16, 8, 262, 196, 8, -1, -7, 36, 196, 142, 22, List.replicate 15 26, 148, 28⟩ := by
  unfold layout_dialog
  have e1 : blank8_gui.screen_width = 320 := rfl
  have e2 : blank8_gui.screen_height = 240 := rfl
  simp only [e1, e2, scale_082_240, scale_082_320]
  decide

/-- C21 (failing input): on the 320 x 240 screen with a font of height 8, a dialog
of 15 rows whose labels have three lines each (row height 26, visible rows
between y = 28 and the bottom 218 of the box) drawn with the last row, 14,
selected: the computed top index is 7, the painting loop paints rows 7 to 13
and stops at row 14, which does not fit any more; the selected row is not
painted. -/
theorem draw_dialog_selection_clipped :
    (rg_gui_draw_dialog blank8_gui demo_theme demo_flags (measure_by_dummy_draw blank8_gui) none
      tall_options 14).map
      (fun f => (f.layout.row_height, f.layout.y, f.layout.box_y + f.layout.box_height,
        f.top_i, f.painted, f.next_i))
      = some (List.replicate 15 26, 28, 218, 7, [7, 8, 9, 10, 11, 12, 13], 14) := by
  unfold rg_gui_draw_dialog
  rw [tall_layout]
  decide

/-! ## Rectangles: the interior strips of `rg_gui_draw_rect` -/

/-- The fill loop with enough passes: its `k`-th copy call is the strip at row `y + 16 * k`,
for every such row below `height`, and there is no other call. -/
theorem fill_strips_get (x_pos y_pos width height pixel : Int) :
    ∀ (n : Nat) (y : Int), height - y ≤ n → ∀ k : Nat,
      (fill_strips x_pos y_pos width height pixel n y)[k]? =
        if y + 16 * k < height then
          some ⟨x_pos, y_pos + (y + 16 * k), width, min (height - (y + 16 * k)) 16, pixel⟩
        else none := by
  intro n
  induction n with
  | zero =>
    intro y hy k
    have : ¬ (y + 16 * (k : Int) < height) := by push_cast at hy; omega
    simp [fill_strips, this]
  | succ n ih =>
    intro y hy k
    unfold fill_strips
    by_cases hlt : y < height
    · rw [if_pos hlt]
      cases k with
      | zero => simp [hlt]
      | succ k =>
        rw [List.getElem?_cons_succ, ih (y + 16) (by push_cast at hy; omega) k]
        have e : y + 16 + 16 * (k : Int) = y + 16 * ((k + 1 : Nat) : Int) := by push_cast; ring
        rw [e]
    · rw [if_neg hlt]
      have : ¬ (y + 16 * (k : Int) < height) := by omega
      simp [this]

/-- The strips of the fill loop started at row `y` have `height - y` rows in all. -/
theorem fill_strips_heights (x_pos y_pos width height pixel : Int) :
    ∀ (n : Nat) (y : Int), height - y ≤ n →
      (strip_heights (fill_strips x_pos y_pos width height pixel n y)).sum = max (height - y) 0 := by
  intro n
  induction n with
  | zero =>
    intro y hy
    simp [fill_strips, strip_heights]
    push_cast at hy; omega
  | succ n ih =>
    intro y hy
    unfold fill_strips
    by_cases hlt : y < height
    · rw [if_pos hlt]
      have h := ih (y + 16) (by push_cast at hy; omega)
      simp only [strip_heights, List.map_cons, List.sum_cons] at h ⊢
      rw [h]
      omega
    · rw [if_neg hlt]
      simp [strip_heights]
      omega

/-- The fill loop as `rg_gui_draw_rect` runs it (from row 0, `height` passes allowed). -/
theorem fill_strips_get0 (x_pos y_pos width height pixel : Int) (k : Nat) :
    (fill_strips x_pos y_pos width height pixel height.toNat 0)[k]? =
      if 16 * (k : Int) < height then
        some ⟨x_pos, y_pos + 16 * k, width, min (height - 16 * k) 16, pixel⟩
      else none := by
  have h := fill_strips_get x_pos y_pos width height pixel height.toNat 0 (by omega) k
  simpa using h

/-- Every strip of the fill loop is the strip of some row offset `16 * k` below `height`. -/
theorem fill_strips_mem (x_pos y_pos width height pixel : Int) (s : rect_strip)
    (hs : s ∈ fill_strips x_pos y_pos width height pixel height.toNat 0) :
    ∃ k : Nat, 16 * (k : Int) < height ∧
      s = ⟨x_pos, y_pos + 16 * k, width, min (height - 16 * k) 16, pixel⟩ := by
  obtain ⟨k, hk⟩ := List.mem_iff_getElem?.mp hs
  rw [fill_strips_get0] at hk
  refine ⟨k, ?_⟩
  by_cases hlt : 16 * (k : Int) < height
  · rw [if_pos hlt] at hk
    exact ⟨hlt, (Option.some.inj hk).symm⟩
  · rw [if_neg hlt] at hk
    cases hk

/-- The strip found at index `k` of the fill loop is the one of row offset `16 * k`. -/
theorem fill_strips_at (x_pos y_pos width height pixel : Int) (k : Nat) (s : rect_strip)
    (hs : (fill_strips x_pos y_pos width height pixel height.toNat 0)[k]? = some s) :
    16 * (k : Int) < height ∧
      s = ⟨x_pos, y_pos + 16 * k, width, min (height - 16 * k) 16, pixel⟩ := by
  rw [fill_strips_get0] at hs
  by_cases hlt : 16 * (k : Int) < height
  · rw [if_pos hlt] at hs
    exact ⟨hlt, (Option.some.inj hs).symm⟩
  · rw [if_neg hlt] at hs
    cases hs

/-- A row lies in some strip of the fill loop exactly when it is one of the `height` rows
from `y_pos` on. -/
theorem fill_strips_cover (x_pos y_pos width height pixel : Int) (r : Int) :
    (∃ s ∈ fill_strips x_pos y_pos width height pixel height.toNat 0,
        s.top ≤ r ∧ r < s.top + s.height) ↔ (y_pos ≤ r ∧ r < y_pos + height) := by
  constructor
  · rintro ⟨s, hs, h1, h2⟩
    obtain ⟨k, hk, rfl⟩ := fill_strips_mem _ _ _ _ _ s hs
    dsimp only at h1 h2
    omega
  · rintro ⟨h1, h2⟩
    have hk : 16 * (((r - y_pos) / 16).toNat : Int) < height := by omega
    refine ⟨⟨x_pos, y_pos + 16 * ((r - y_pos) / 16).toNat, width,
      min (height - 16 * ((r - y_pos) / 16).toNat) 16, pixel⟩, ?_, ?_, ?_⟩
    · apply List.mem_iff_getElem?.mpr
      refine ⟨((r - y_pos) / 16).toNat, ?_⟩
      rw [fill_strips_get0, if_pos hk]
    · dsimp only; omega
    · dsimp only; omega

/-- The calls of `rg_gui_draw_rect` for a rectangle with a positive interior that fits
`overlay_buffer`: the interior strips are those of the fill loop over the interior, or none
with the fill colour -1. -/
theorem draw_rect_eval (g : gui_state)
    (x_pos y_pos width height border_size border_color fill_color : Int)
    (hw : 0 < width - 2 * max border_size 0)
    (hh : 0 < height - 2 * max border_size 0)
    (hb : max border_size 0 * max width height ≤ overlay_capacity g)
    (hf : fill_color ≠ -1 →
      (width - 2 * max border_size 0) * min (height - 2 * max border_size 0) 16
        ≤ overlay_capacity g) :
    ∃ borders, rg_gui_draw_rect g x_pos y_pos width height border_size border_color fill_color =
      some (borders,
        if fill_color = -1 then []
        else fill_strips
          ((if x_pos < 0 then x_pos + g.screen_width else x_pos) + max border_size 0)
          ((if y_pos < 0 then y_pos + g.screen_height else y_pos) + max border_size 0)
          (width - 2 * max border_size 0) (height - 2 * max border_size 0)
          (fill_color % 65536) (height - 2 * max border_size 0).toNat 0) := by
  have hwh : ¬ (width ≤ 0 ∨ height ≤ 0) := by omega
  unfold rg_gui_draw_rect
  rw [if_neg hwh]
  by_cases hbs : border_size > 0
  · have hm : max border_size 0 = border_size := by omega
    rw [hm] at hw hh hb hf ⊢
    simp only [if_pos hbs, if_pos hb, Option.some_bind]
    by_cases hfc : fill_color = -1
    · rw [if_neg (by simp [hfc]), if_pos hfc]
      exact ⟨_, rfl⟩
    · have hcap := hf hfc
      have e1 : width - border_size * 2 = width - 2 * border_size := by ring
      have e2 : height - border_size * 2 = height - 2 * border_size := by ring
      rw [e1, e2]
      have hnn : 0 ≤ (width - 2 * border_size) * min (height - 2 * border_size) 16 :=
        mul_nonneg (by omega) (by omega)
      rw [if_pos ⟨by omega, hfc⟩, if_pos ⟨hnn, hcap⟩, if_neg hfc]
      exact ⟨_, rfl⟩
  · have hm : max border_size 0 = 0 := by omega
    rw [hm] at hw hh hb hf ⊢
    simp only [if_neg hbs, Option.some_bind, mul_zero, sub_zero, add_zero] at hw hh hf ⊢
    by_cases hfc : fill_color = -1
    · rw [if_neg (by simp [hfc]), if_pos hfc]
      exact ⟨_, rfl⟩
    · have hcap := hf hfc
      have hnn : 0 ≤ width * min height 16 := mul_nonneg (by omega) (by omega)
      rw [if_pos ⟨by omega, hfc⟩, if_pos ⟨hnn, hcap⟩, if_neg hfc]
      exact ⟨_, rfl⟩

/-- C31: for a rectangle whose interior (the rectangle less a border of
`max border_size 0` on every side) has positive width and height, and whose border
and fill strips fit `overlay_buffer`, `rg_gui_draw_rect` returns; with the fill
colour -1 (no fill) it issues no interior strip; with any other fill colour strip
`k` is issued at row offset `16 * k` of the interior, for every `16 * k` below the
interior height, with the interior's left edge and width and
`min (remaining rows) 16` rows, so that every strip has 1 to 16 rows, each strip
starts where the previous one ends, strips do not overlap, a row is covered by a
strip exactly when it is an interior row, and the strip heights add up to the
interior height. -/
theorem draw_rect_fill_strips (g : gui_state)
    (x_pos y_pos width height border_size border_color fill_color : Int)
    (hw : 0 < width - 2 * max border_size 0)
    (hh : 0 < height - 2 * max border_size 0)
    (hb : max border_size 0 * max width height ≤ overlay_capacity g)
    (hf : fill_color ≠ -1 →
      (width - 2 * max border_size 0) * min (height - 2 * max border_size 0) 16
        ≤ overlay_capacity g) :
    ∃ borders strips,
      rg_gui_draw_rect g x_pos y_pos width height border_size border_color fill_color
        = some (borders, strips) ∧
      (fill_color = -1 → strips = []) ∧
      (fill_color ≠ -1 →
        (∀ k : Nat, strips[k]? =
          if 16 * (k : Int) < height - 2 * max border_size 0 then
            some ⟨(if x_pos < 0 then x_pos + g.screen_width else x_pos) + max border_size 0,
              (if y_pos < 0 then y_pos + g.screen_height else y_pos) + max border_size 0
                + 16 * k,
              width - 2 * max border_size 0,
              min (height - 2 * max border_size 0 - 16 * k) 16,
              fill_color % 65536⟩
          else none) ∧
        (∀ s ∈ strips, 1 ≤ s.height ∧ s.height ≤ 16) ∧
        (∀ (k : Nat) (s t : rect_strip), strips[k]? = some s → strips[k + 1]? = some t →
          t.top = s.top + s.height) ∧
        (∀ (j k : Nat) (s t : rect_strip), j < k → strips[j]? = some s →
          strips[k]? = some t → s.top + s.height ≤ t.top) ∧
        (∀ r : Int, (∃ s ∈ strips, s.top ≤ r ∧ r < s.top + s.height) ↔
          ((if y_pos < 0 then y_pos + g.screen_height else y_pos) + max border_size 0 ≤ r ∧
            r < (if y_pos < 0 then y_pos + g.screen_height else y_pos) + max border_size 0
              + (height - 2 * max border_size 0))) ∧
        (strip_heights strips).sum = height - 2 * max border_size 0) := by
  obtain ⟨borders, hev⟩ := draw_rect_eval g x_pos y_pos width height border_size
    border_color fill_color hw hh hb hf
  refine ⟨borders, _, hev, ?_, ?_⟩
  · intro hfc
    rw [if_pos hfc]
  · intro hfc
    rw [if_neg hfc]
    refine ⟨?_, ?_, ?_, ?_, ?_, ?_⟩
    · intro k
      exact fill_strips_get0 _ _ _ _ _ k
    · intro s hs
      obtain ⟨k, hk, rfl⟩ := fill_strips_mem _ _ _ _ _ s hs
      dsimp only
      omega
    · intro k s t hs ht
      obtain ⟨_, rfl⟩ := fill_strips_at _ _ _ _ _ k s hs
      obtain ⟨hk, rfl⟩ := fill_strips_at _ _ _ _ _ (k + 1) t ht
      dsimp only
      push_cast at hk ⊢
      omega
    · intro j k s t hjk hs ht
      obtain ⟨_, rfl⟩ := fill_strips_at _ _ _ _ _ j s hs
      obtain ⟨hk, rfl⟩ := fill_strips_at _ _ _ _ _ k t ht
      dsimp only
      omega
    · intro r
      exact fill_strips_cover _ _ _ _ _ r
    · rw [fill_strips_heights _ _ _ _ _ _ 0 (by omega)]
      omega

/-- C31 (witness): the call `rg_gui_draw_rect(10, 20, 30, 40, 2, 7, 5)` on the 320x240
screen, whose interior is 26 pixels wide and 36 rows high. -/
theorem draw_rect_fill_strips_witness :
    (0 : Int) < 30 - 2 * max 2 0 ∧ (0 : Int) < 40 - 2 * max 2 0 ∧
    (max 2 0 * max 30 40 : Int) ≤ overlay_capacity demo_gui ∧
    ((5 : Int) ≠ -1 → ((30 : Int) - 2 * max 2 0) * min (40 - 2 * max 2 0) 16
      ≤ overlay_capacity demo_gui) ∧
    ∃ borders strips,
      rg_gui_draw_rect demo_gui 10 20 30 40 2 7 5 = some (borders, strips) ∧
      ((5 : Int) = -1 → strips = []) ∧
      ((5 : Int) ≠ -1 →
        (∀ k : Nat, strips[k]? =
          if 16 * (k : Int) < 40 - 2 * max 2 0 then
            some ⟨(if (10 : Int) < 0 then 10 + demo_gui.screen_width else 10) + max 2 0,
              (if (20 : Int) < 0 then 20 + demo_gui.screen_height else 20) + max 2 0
                + 16 * k,
              30 - 2 * max 2 0,
              min (40 - 2 * max 2 0 - 16 * k) 16,
              5 % 65536⟩
          else none) ∧
        (∀ s ∈ strips, 1 ≤ s.height ∧ s.height ≤ 16) ∧
        (∀ (k : Nat) (s t : rect_strip), strips[k]? = some s → strips[k + 1]? = some t →
          t.top = s.top + s.height) ∧
        (∀ (j k : Nat) (s t : rect_strip), j < k → strips[j]? = some s →
          strips[k]? = some t → s.top + s.height ≤ t.top) ∧
        (∀ r : Int, (∃ s ∈ strips, s.top ≤ r ∧ r < s.top + s.height) ↔
          ((if (20 : Int) < 0 then 20 + demo_gui.screen_height else 20) + max 2 0 ≤ r ∧
            r < (if (20 : Int) < 0 then 20 + demo_gui.screen_height else 20) + max 2 0
              + (40 - 2 * max 2 0))) ∧
        (strip_heights strips).sum = 40 - 2 * max 2 0) :=
  ⟨by decide, by decide, by decide, fun _ => by decide,
    draw_rect_fill_strips demo_gui 10 20 30 40 2 7 5 (by decide) (by decide) (by decide)
      (fun _ => by decide)⟩

/-- The call `rg_gui_draw_rect(10, 20, 30, 40, 2, 7, 5)` on the 320x240 screen: four
border strips, then interior strips of 16, 16 and 4 rows at rows 22, 38 and 54. -/
theorem draw_rect_example :
    rg_gui_draw_rect demo_gui 10 20 30 40 2 7 5 =
      some ([⟨10, 20, 30, 2, 7⟩, ⟨10, 58, 30, 2, 7⟩, ⟨10, 20, 2, 40, 7⟩, ⟨38, 20, 2, 40, 7⟩],
        [⟨12, 22, 26, 16, 5⟩, ⟨12, 38, 26, 16, 5⟩, ⟨12, 54, 26, 4, 5⟩]) := by
  decide

/-- The same call with the fill colour -1: the border strips only. -/
theorem draw_rect_example_no_fill :
    rg_gui_draw_rect demo_gui 10 20 30 40 2 7 (-1) =
      some ([⟨10, 20, 30, 2, 7⟩, ⟨10, 58, 30, 2, 7⟩, ⟨10, 20, 2, 40, 7⟩, ⟨38, 20, 2, 40, 7⟩],
        []) := by
  decide

theorem measure_rows_spec {σ : Type} (T : text_rect_fn) (miw : Int) :
    ∀ (rows : List (rg_gui_option_t σ)) (a : measure_state),
      measure_rows T miw rows a
        = (measured_rows T miw rows).map fun ms =>
            ⟨widest a.inner_width (label_widths ms), widest a.col1_width (col1_widths ms),
              widest a.col2_width (col2_widths ms), a.box_height + (row_heights ms).sum,
              a.row_height ++ row_heights ms⟩ := by
  intro rows
  induction rows with
  | nil =>
    intro a
    simp [measure_rows, measured_rows, widest, label_widths, col1_widths, col2_widths,
      row_heights]
  | cons o rest ih =>
    intro a
    simp only [measure_rows, measured_rows]
    cases hm : measure_row T miw o with
    | none => rfl
    | some lv =>
      simp only [Option.some_bind, ih]
      cases hr : measured_rows T miw rest with
      | none => rfl
      | some ms =>
        simp only [Option.map_some', Option.some.injEq, measure_state.mk.injEq]
        refine ⟨?_, ?_, ?_, ?_, ?_⟩
        · cases hl : o.label <;> simp [label_widths, widest, List.filterMap_cons, hl]
        · cases hv : o.value <;> simp [col1_widths, widest, List.filterMap_cons, hv]
        · cases hv : o.value <;> simp [col2_widths, widest, List.filterMap_cons, hv]
        · simp only [row_heights, List.map_cons, List.sum_cons]
          omega
        · simp only [row_heights, List.map_cons, List.append_assoc, List.singleton_append]
          rfl

/-- C23 (amended): for every header and option list for which `rg_gui_draw_dialog`
computes its layout, the inner width is the widest of the header width, the
label widths and, when a row has a value, column 1 + column 2 + separator (each
column first clamped to the cap), clamped to the screen-fraction cap
`max_box_width = (int)(0.82f * screen_width)`: the inner width never exceeds
`max_box_width`, and the box width is the inner width plus 28 pixels of
padding. -/
theorem layout_dialog_width {σ : Type} (g : gui_state) (F : rg_dialog_flags)
    (T : text_rect_fn) (header : Option (List Nat)) (options : List (rg_gui_option_t σ))
    (L : dialog_layout) (h : layout_dialog g F T header options = some L) :
    L.max_box_width = scale_082 g.screen_width ∧
    L.inner_width ≤ L.max_box_width ∧
    L.box_width = L.inner_width + 28 ∧
    ∃ sep hdr ms, T (some [58, 32]) 0 = some sep ∧ T header 0 = some hdr ∧
      measured_rows T (L.max_box_width - sep.width - 28)
        (options.take L.options_count.toNat) = some ms ∧
      L.row_height = row_heights ms ∧
      L.inner_width =
        min (if 0 ≤ min (widest (-1) (col2_widths ms)) L.max_box_width then
              max (widest hdr.width (label_widths ms))
                (min (widest (-1) (col1_widths ms)) L.max_box_width
                  + min (widest (-1) (col2_widths ms)) L.max_box_width + sep.width)
             else widest hdr.width (label_widths ms)) L.max_box_width := by
  unfold layout_dialog at h
  cases hc : get_dialog_items_count F (some options) with
  | none => simp [hc] at h
  | some options_count =>
  cases hs : T (some [58, 32]) 0 with
  | none => simp [hc, hs] at h
  | some sep =>
  cases hh : T header 0 with
  | none => simp [hc, hs, hh] at h
  | some hdr =>
  simp only [hc, hs, hh, Option.some_bind] at h
  split at h
  · cases h
  · rw [measure_rows_spec] at h
    have e28 : scale_082 g.screen_width - sep.width - (8 + 6) * 2
        = scale_082 g.screen_width - sep.width - 28 := by norm_num
    rw [e28] at h
    cases hms : measured_rows T (scale_082 g.screen_width - sep.width - 28)
        (options.take options_count.toNat) with
    | none => simp [hms] at h
    | some ms =>
      simp only [hms, Option.map_some', Option.some.injEq] at h
      subst h
      refine ⟨rfl, min_le_right _ _, ?_, sep, hdr, ms, rfl, rfl, hms, ?_, ?_⟩
      · dsimp only
        ring
      · show [] ++ row_heights ms = row_heights ms
        rfl
      · simp only [ge_iff_le]

theorem layout_dialog_width_witness :
    (⟨15, 16, 8, 262, 196, 8, -1, -7, 36, 196, 142, 22, List.replicate 15 26, 148, 28⟩ :
        dialog_layout).max_box_width = scale_082 blank8_gui.screen_width ∧
    (8 : Int) ≤ 262 ∧ (36 : Int) = 8 + 28 ∧
    ∃ sep hdr ms, measure_by_dummy_draw blank8_gui (some [58, 32]) 0 = some sep ∧
      measure_by_dummy_draw blank8_gui none 0 = some hdr ∧
      measured_rows (measure_by_dummy_draw blank8_gui) (262 - sep.width - 28)
        (tall_options.take (15 : Int).toNat) = some ms ∧
      List.replicate 15 26 = row_heights ms ∧
      (8 : Int) =
        min (if 0 ≤ min (widest (-1) (col2_widths ms)) 262 then
              max (widest hdr.width (label_widths ms))
                (min (widest (-1) (col1_widths ms)) 262
                  + min (widest (-1) (col2_widths ms)) 262 + sep.width)
             else widest hdr.width (label_widths ms)) 262 :=
  layout_dialog_width blank8_gui demo_flags (measure_by_dummy_draw blank8_gui) none tall_options
    _ tall_layout

/-- C23 (counterexample): on the 320 pixel wide screen (`max_box_width` = 262) a dialog
whose header has 40 characters of 8 pixels gets the inner width 262 and the box
width 290, which exceeds `max_box_width`. -/
theorem layout_dialog_box_exceeds_cap :
    (layout_dialog blank8_gui demo_flags (measure_by_dummy_draw blank8_gui)
      (some (List.replicate 40 65)) one_row_options).map
      (fun L => (L.max_box_width, L.inner_width, L.box_width)) = some (262, 262, 290) := by
  unfold layout_dialog
  have e1 : blank8_gui.screen_width = 320 := rfl
  have e2 : blank8_gui.screen_height = 240 := rfl
  simp only [e1, e2, scale_082_240, scale_082_320]
  decide

theorem scroll_loop_le_sel (y limit sel : Int) :
    ∀ (rest : List Int) (i : Nat) (yy top : Int), 0 ≤ top → top ≤ sel →
      0 ≤ scroll_loop y limit sel i rest yy top ∧ scroll_loop y limit sel i rest yy top ≤ sel := by
  intro rest
  induction rest with
  | nil =>
    intro i yy top h0 h1
    exact ⟨h0, h1⟩
  | cons h rest ih =>
    intro i yy top h0 h1
    simp only [scroll_loop]
    split
    · split
      · exact ⟨h0, h1⟩
      · exact ih (i + 1) y (i : Int) (Int.natCast_nonneg i) (by omega)
    · exact ih (i + 1) (yy + h) top h0 h1

theorem scroll_top_le_sel (row_height : List Int) (y limit sel : Int) (hsel : 0 ≤ sel) :
    0 ≤ scroll_top row_height y limit sel ∧ scroll_top row_height y limit sel ≤ sel := by
  unfold scroll_top
  split
  · exact scroll_loop_le_sel y limit sel row_height 0 y 0 le_rfl hsel
  · exact ⟨le_rfl, hsel⟩

end RetroGo
